import Mathlib

/-!
Verification of the astra-guardrails analysis and repair pipeline.

This file gives a shallow embedding, in Lean 4, of the parts of the Python
source that the verified properties speak about:

* `src/astra/tools/fmt.py`        (canonical formatter)
* `src/astra/tools/pointer.py`    (RFC6901 pointers, RFC6902 patch subset)
* `src/astra/tools/effects.py`    (transitive effect checker)
* `src/astra/tools/repair_suggest.py` (deterministic patch synthesis)
* `src/astra/tools/typecheck.py`  (unification, join, local inference)
* `src/astra/tools/sandbox_ast.py` and `runtime_guarded.py` (interpreter)
* `src/astra/tools/propcheck.py`  (shrinkers and the greedy minimizer)
* `src/astra/tools/jsonpos.py`    (TextIndex UTF-16 position conversion)
* `src/astra/tools/lsp_server.py` (quick-fix pre-validation)

Python JSON values (the output of json.loads, and the AST node values the
tools operate on) are modelled by the inductive type `Json` below.  Python
dicts are insertion-ordered with unique keys; we model them as association
lists, and theorems that need the uniqueness guarantee carry an explicit
no-duplicate-keys hypothesis.  JSON numbers are modelled as unbounded
integers: none of the verified claims depends on float values, and the
functions under study treat all scalars uniformly.  Equality of `Json`
trees (including member order) corresponds to byte equality of the
serialised text, since json.dumps preserves dict insertion order.
-/

/-- Model of a Python JSON value (output of json.loads / AST nodes).
Objects are insertion-ordered association lists, as Python dicts are. -/
inductive Json where
  | null : Json
  | bool : Bool → Json
  | int : Int → Json
  | str : String → Json
  | arr : List Json → Json
  | obj : List (String × Json) → Json

namespace Json

theorem sizeOf_mem_lt {xs : List Json} {x : Json} (h : x ∈ xs) : sizeOf x < sizeOf xs :=
  List.sizeOf_lt_of_mem h

theorem sizeOf_val_lt {kvs : List (String × Json)} {k : String} {v : Json}
    (h : (k, v) ∈ kvs) : sizeOf v < sizeOf kvs := by
  have h1 : sizeOf (k, v) < sizeOf kvs := List.sizeOf_lt_of_mem h
  have h2 : sizeOf v < sizeOf (k, v) := by simp [Prod.mk.sizeOf_spec]
  omega

mutual

/-- Structural (and byte-level) equality of JSON trees. -/
def beq : Json → Json → Bool
  | .null, .null => true
  | .bool a, .bool b => a == b
  | .int a, .int b => a == b
  | .str a, .str b => a == b
  | .arr xs, .arr ys => beqList xs ys
  | .obj xs, .obj ys => beqKvs xs ys
  | _, _ => false

def beqList : List Json → List Json → Bool
  | [], [] => true
  | x :: xs, y :: ys => beq x y && beqList xs ys
  | _, _ => false

def beqKvs : List (String × Json) → List (String × Json) → Bool
  | [], [] => true
  | (k1, v1) :: xs, (k2, v2) :: ys => k1 == k2 && beq v1 v2 && beqKvs xs ys
  | _, _ => false

end

mutual

theorem beq_iff : ∀ (a b : Json), beq a b = true ↔ a = b
  | .null, .null => by simp [beq]
  | .bool a, .bool b => by simp [beq]
  | .int a, .int b => by simp [beq]
  | .str a, .str b => by simp [beq]
  | .arr xs, .arr ys => by
      rw [beq]
      rw [beqList_iff xs ys]
      constructor
      · intro h; rw [h]
      · intro h; cases h; rfl
  | .obj xs, .obj ys => by
      rw [beq]
      rw [beqKvs_iff xs ys]
      constructor
      · intro h; rw [h]
      · intro h; cases h; rfl
  | .null, .bool _ => by simp [beq]
  | .null, .int _ => by simp [beq]
  | .null, .str _ => by simp [beq]
  | .null, .arr _ => by simp [beq]
  | .null, .obj _ => by simp [beq]
  | .bool _, .null => by simp [beq]
  | .bool _, .int _ => by simp [beq]
  | .bool _, .str _ => by simp [beq]
  | .bool _, .arr _ => by simp [beq]
  | .bool _, .obj _ => by simp [beq]
  | .int _, .null => by simp [beq]
  | .int _, .bool _ => by simp [beq]
  | .int _, .str _ => by simp [beq]
  | .int _, .arr _ => by simp [beq]
  | .int _, .obj _ => by simp [beq]
  | .str _, .null => by simp [beq]
  | .str _, .bool _ => by simp [beq]
  | .str _, .int _ => by simp [beq]
  | .str _, .arr _ => by simp [beq]
  | .str _, .obj _ => by simp [beq]
  | .arr _, .null => by simp [beq]
  | .arr _, .bool _ => by simp [beq]
  | .arr _, .int _ => by simp [beq]
  | .arr _, .str _ => by simp [beq]
  | .arr _, .obj _ => by simp [beq]
  | .obj _, .null => by simp [beq]
  | .obj _, .bool _ => by simp [beq]
  | .obj _, .int _ => by simp [beq]
  | .obj _, .str _ => by simp [beq]
  | .obj _, .arr _ => by simp [beq]

theorem beqList_iff : ∀ (xs ys : List Json), beqList xs ys = true ↔ xs = ys
  | [], [] => by simp [beqList]
  | x :: xs, y :: ys => by
      rw [beqList, Bool.and_eq_true, beq_iff x y, beqList_iff xs ys]
      constructor
      · rintro ⟨h1, h2⟩; rw [h1, h2]
      · intro h; cases h; exact ⟨rfl, rfl⟩
  | [], _ :: _ => by simp [beqList]
  | _ :: _, [] => by simp [beqList]

theorem beqKvs_iff : ∀ (xs ys : List (String × Json)), beqKvs xs ys = true ↔ xs = ys
  | [], [] => by simp [beqKvs]
  | (k1, v1) :: xs, (k2, v2) :: ys => by
      rw [beqKvs, Bool.and_eq_true, Bool.and_eq_true, beq_iff v1 v2, beqKvs_iff xs ys]
      constructor
      · rintro ⟨⟨h1, h2⟩, h3⟩
        simp at h1
        rw [h1, h2, h3]
      · intro h; cases h; exact ⟨⟨by simp, rfl⟩, rfl⟩
  | [], _ :: _ => by simp [beqKvs]
  | _ :: _, [] => by simp [beqKvs]

end

instance : DecidableEq Json := fun a b =>
  decidable_of_iff (beq a b = true) (beq_iff a b)

end Json

deriving instance DecidableEq for Except

namespace Json

/-- Python dict lookup (keys are unique in a Python dict, so taking the
first match is faithful). -/
def lookup : List (String × Json) → String → Option Json
  | [], _ => none
  | (k, v) :: rest, key => if k = key then some v else lookup rest key

/-- The key list of a dict, in insertion order (Python list(node.keys())). -/
def keysOf (kvs : List (String × Json)) : List String := kvs.map Prod.fst

/-- Python `k in node`. -/
def hasKey (kvs : List (String × Json)) (k : String) : Bool :=
  (keysOf kvs).contains k

theorem lookup_mem {kvs : List (String × Json)} {k : String} {v : Json}
    (h : lookup kvs k = some v) : (k, v) ∈ kvs := by
  induction kvs with
  | nil => simp [lookup] at h
  | cons kv rest ih =>
    obtain ⟨k1, v1⟩ := kv
    rw [lookup] at h
    by_cases hk : k1 = k
    · rw [if_pos hk] at h
      cases h
      subst hk
      exact List.mem_cons_self _ _
    · rw [if_neg hk] at h
      exact List.mem_cons_of_mem _ (ih h)

/-- Python `v is not None` test. -/
def isNull : Json → Bool
  | .null => true
  | _ => false

end Json

/-! ## `src/astra/tools/fmt.py` — canonical formatter

`canonicalize` below is a direct transcription of `fmt.canonicalize`.
`_ordered_dict` is `orderedDict`; Python `sorted` on strings is
lexicographic on code points, which `sortStrs` implements via insertion
sort over the Lean `String` order (same order on code points). -/

namespace Fmt

open Json

def MODULE_KEY_ORDER : List String :=
  ["module", "version", "imports", "externs", "functions", "tests", "properties", "metadata"]

def FUNCTION_KEY_ORDER : List String :=
  ["name", "doc", "type_params", "params", "param_types", "returns", "effects",
   "requires", "ensures", "body", "tests", "properties"]

def TEST_KEY_ORDER : List String := ["name", "fn", "args", "expect"]

def PROPERTY_KEY_ORDER : List String := ["name", "fn", "strategy", "expect"]

def IF_KEY_ORDER : List String := ["cond", "then", "else"]

def LET_KEY_ORDER : List String := ["name", "expr"]

def ASSERT_KEY_ORDER : List String := ["expr", "message"]

def CALL_KEY_ORDER : List String := ["fn", "args"]

/-- Lexicographic comparison of code-point sequences, as Python compares
strings.  (Defined structurally so that concrete instances reduce inside
the kernel.) -/
def lexLe : List Char → List Char → Bool
  | [], _ => true
  | _ :: _, [] => false
  | a :: as, b :: bs =>
    if a.toNat < b.toNat then true
    else if b.toNat < a.toNat then false
    else lexLe as bs

theorem lexLe_total : ∀ (a b : List Char), lexLe a b = true ∨ lexLe b a = true
  | [], _ => Or.inl rfl
  | _ :: _, [] => Or.inr rfl
  | a :: as, b :: bs => by
    rw [lexLe, lexLe]
    by_cases h1 : a.toNat < b.toNat
    · left; rw [if_pos h1]
    · by_cases h2 : b.toNat < a.toNat
      · right; rw [if_pos h2]
      · rw [if_neg h1, if_neg h2, if_neg h2, if_neg h1]
        exact lexLe_total as bs

theorem lexLe_trans : ∀ (a b c : List Char),
    lexLe a b = true → lexLe b c = true → lexLe a c = true
  | [], _, _, _, _ => rfl
  | _ :: _, [], _, h1, _ => Bool.noConfusion h1
  | _ :: _, _ :: _, [], _, h2 => Bool.noConfusion h2
  | a :: as, b :: bs, c :: cs, h1, h2 => by
    rw [lexLe] at h1 h2 ⊢
    by_cases hab : a.toNat < b.toNat
    · rw [if_pos hab] at h1
      by_cases hbc : b.toNat < c.toNat
      · rw [if_pos (by omega : a.toNat < c.toNat)]
      · by_cases hcb : c.toNat < b.toNat
        · rw [if_neg hbc, if_pos hcb] at h2
          exact Bool.noConfusion h2
        · rw [if_pos (by omega : a.toNat < c.toNat)]
    · by_cases hba : b.toNat < a.toNat
      · rw [if_neg hab, if_pos hba] at h1
        exact Bool.noConfusion h1
      · rw [if_neg hab, if_neg hba] at h1
        by_cases hbc : b.toNat < c.toNat
        · rw [if_pos (by omega : a.toNat < c.toNat)]
        · by_cases hcb : c.toNat < b.toNat
          · rw [if_neg hbc, if_pos hcb] at h2
            exact Bool.noConfusion h2
          · rw [if_neg hbc, if_neg hcb] at h2
            rw [if_neg (by omega : ¬ a.toNat < c.toNat),
              if_neg (by omega : ¬ c.toNat < a.toNat)]
            exact lexLe_trans as bs cs h1 h2

instance : IsTotal String (fun a b => lexLe a.data b.data = true) :=
  ⟨fun a b => lexLe_total a.data b.data⟩

instance : IsTrans String (fun a b => lexLe a.data b.data = true) :=
  ⟨fun a b c => lexLe_trans a.data b.data c.data⟩

/-- Python `sorted` on a list of strings (ascending code-point order). -/
def sortStrs (l : List String) : List String :=
  List.insertionSort (fun a b => lexLe a.data b.data = true) l

/-- `fmt._ordered_dict`: preferred keys that are present, in preferred
order, followed by the remaining keys in sorted order. -/
def orderedDict (kvs : List (String × Json)) (preferred : List String) :
    List (String × Json) :=
  let fstPart := preferred.filterMap (fun k => (lookup kvs k).map (fun v => (k, v)))
  let fstKeys := fstPart.map Prod.fst
  let restKeys := sortStrs ((keysOf kvs).filter (fun k => !(fstKeys.contains k)))
  fstPart ++ restKeys.filterMap (fun k => (lookup kvs k).map (fun v => (k, v)))

theorem mem_filterMap_lookup {kvs : List (String × Json)} {ks : List String}
    {kv : String × Json}
    (h : kv ∈ ks.filterMap (fun k => (lookup kvs k).map (fun v => (k, v)))) :
    kv ∈ kvs := by
  obtain ⟨k, _, hk⟩ := List.mem_filterMap.1 h
  obtain ⟨v, hv, hkv⟩ := Option.map_eq_some'.1 hk
  cases hkv
  exact lookup_mem hv

theorem mem_orderedDict {kvs : List (String × Json)} {preferred : List String}
    {kv : String × Json} (h : kv ∈ orderedDict kvs preferred) : kv ∈ kvs := by
  rw [orderedDict] at h
  rcases List.mem_append.1 h with h1 | h1 <;> exact mem_filterMap_lookup h1

theorem sizeOf_snd_lt {kvs : List (String × Json)} {kv : String × Json}
    (h : kv ∈ kvs) : sizeOf kv.2 < sizeOf kvs := by
  obtain ⟨k, v⟩ := kv
  exact sizeOf_val_lt h

theorem sizeOf_orderedDict_lt {kvs : List (String × Json)} {preferred : List String}
    {kv : String × Json} (h : kv ∈ orderedDict kvs preferred) :
    sizeOf kv.2 < sizeOf kvs :=
  sizeOf_snd_lt (mem_orderedDict h)

/-- The statement wrapper tags of `fmt.canonicalize`. -/
def STMT_TAGS : List String := ["if", "let", "return", "assert", "expr"]

/-- The expression wrapper tags of `fmt.canonicalize`. -/
def EXPR_TAGS : List String := ["call", "var", "list", "obj"]

/-- `fmt.canonicalize`: stable key ordering for modules, functions, tests,
properties, statement and expression wrappers; alphabetical fallback.
The branches that Python writes as dict comprehensions with an
`if v is not None` guard appear here as a `filter` over the ordered
pairs followed by a map of `canonicalize` over the surviving values,
exactly as the comprehension evaluates. -/
def canonicalize : Json → Json
  | .null => .null
  | .bool b => .bool b
  | .int n => .int n
  | .str s => .str s
  | .arr xs => .arr (xs.attach.map (fun x => canonicalize x.1))
  | .obj kvs =>
    -- module root heuristic
    if hasKey kvs "module" && hasKey kvs "functions" then
      .obj ((orderedDict kvs MODULE_KEY_ORDER).attach.map
        (fun kv => (kv.1.1, canonicalize kv.1.2)))
    -- function heuristic
    else if hasKey kvs "name" && hasKey kvs "params" && hasKey kvs "effects" &&
        hasKey kvs "body" then
      .obj (((orderedDict kvs FUNCTION_KEY_ORDER).filter
          (fun kv => !(isNull kv.2))).attach.map
        (fun kv => (kv.1.1, canonicalize kv.1.2)))
    -- test case heuristic
    else if hasKey kvs "fn" && hasKey kvs "args" && hasKey kvs "expect" &&
        !(hasKey kvs "strategy") then
      .obj (((orderedDict kvs TEST_KEY_ORDER).filter
          (fun kv => !(isNull kv.2))).attach.map
        (fun kv => (kv.1.1, canonicalize kv.1.2)))
    -- property test heuristic
    else if hasKey kvs "fn" && hasKey kvs "strategy" && hasKey kvs "expect" then
      .obj (((orderedDict kvs PROPERTY_KEY_ORDER).filter
          (fun kv => !(isNull kv.2))).attach.map
        (fun kv => (kv.1.1, canonicalize kv.1.2)))
    else
      match hkvs : kvs with
      | [(tag, val)] =>
        -- statement wrappers (single-key if/let/return/assert/expr)
        if STMT_TAGS.contains tag then
          if tag = "if" then
            match hv : val with
            | .obj inner =>
              .obj [(tag, .obj (((orderedDict inner IF_KEY_ORDER).filter
                  (fun kv => !(isNull kv.2))).attach.map
                (fun kv => (kv.1.1, canonicalize kv.1.2))))]
            | other => .obj [(tag, canonicalize other)]
          else if tag = "let" then
            match hv : val with
            | .obj inner =>
              .obj [(tag, .obj (((orderedDict inner LET_KEY_ORDER).filter
                  (fun kv => !(isNull kv.2))).attach.map
                (fun kv => (kv.1.1, canonicalize kv.1.2))))]
            | other => .obj [(tag, canonicalize other)]
          else if tag = "assert" then
            match hv : val with
            | .obj inner =>
              .obj [(tag, .obj (((orderedDict inner ASSERT_KEY_ORDER).filter
                  (fun kv => !(isNull kv.2))).attach.map
                (fun kv => (kv.1.1, canonicalize kv.1.2))))]
            | other => .obj [(tag, canonicalize other)]
          else
            .obj [(tag, canonicalize val)]
        -- expression wrappers (single-key call/var/list/obj)
        else if EXPR_TAGS.contains tag then
          if tag = "call" then
            match hv : val with
            | .obj inner =>
              .obj [(tag, .obj (((orderedDict inner CALL_KEY_ORDER).filter
                  (fun kv => !(isNull kv.2))).attach.map
                (fun kv => (kv.1.1, canonicalize kv.1.2))))]
            | other => .obj [(tag, canonicalize other)]
          else if tag = "obj" then
            match hv : val with
            | .obj inner =>
              .obj [(tag, .obj (((sortStrs (keysOf inner)).filterMap
                  (fun k => (lookup inner k).map (fun v => (k, v)))).attach.map
                (fun kv => (kv.1.1, canonicalize kv.1.2))))]
            | other => .obj [(tag, canonicalize other)]
          else
            .obj [(tag, canonicalize val)]
        else
          -- fallback: alphabetical
          .obj ((orderedDict kvs []).attach.map
            (fun kv => (kv.1.1, canonicalize kv.1.2)))
      | _ =>
        -- fallback: alphabetical
        .obj ((orderedDict kvs []).attach.map
          (fun kv => (kv.1.1, canonicalize kv.1.2)))
termination_by j => sizeOf j
decreasing_by
  all_goals simp_wf
  all_goals try subst hkvs
  all_goals try subst hv
  all_goals
    first
    | (have hlt := sizeOf_mem_lt x.2
       try simp only [Json.arr.sizeOf_spec] at *
       omega)
    | (have hlt := sizeOf_orderedDict_lt kv.2
       try simp only [Json.obj.sizeOf_spec, List.cons.sizeOf_spec, List.nil.sizeOf_spec,
         Prod.mk.sizeOf_spec] at hlt
       omega)
    | (have hlt := sizeOf_orderedDict_lt (List.mem_of_mem_filter kv.2)
       try simp only [Json.obj.sizeOf_spec, List.cons.sizeOf_spec, List.nil.sizeOf_spec,
         Prod.mk.sizeOf_spec] at hlt
       omega)
    | (have hlt := sizeOf_snd_lt (mem_filterMap_lookup kv.2)
       try simp only [Json.obj.sizeOf_spec, List.cons.sizeOf_spec, List.nil.sizeOf_spec,
         Prod.mk.sizeOf_spec] at hlt
       omega)
    | omega

/-! ### Serialisation (json.dumps with indent=2, ensure_ascii=False)

`dumps_canonical` in the source is `json.dumps(canonicalize(ast), indent=2,
ensure_ascii=False) + "\n"`.  The serialiser below models the Python
standard library output for the value constructors of `Json` (two-space
indent, `", "` item separator impossible under indent mode: items are
joined with `",\n"`, keys followed by `": "`).  The string escape table
covers the JSON two-character escapes; other characters pass through
unescaped (ensure_ascii=False), which is exact for the texts appearing in
this development.  The recursion is bounded by a fuel argument that the
wrapper instantiates above the tree depth. -/

mutual

/-- Executable size of a JSON tree (used as serialiser fuel; it strictly
dominates the tree depth). -/
def jsize : Json → Nat
  | .null => 1
  | .bool _ => 1
  | .int _ => 1
  | .str _ => 1
  | .arr xs => 1 + jsizeList xs
  | .obj kvs => 1 + jsizeKvs kvs

def jsizeList : List Json → Nat
  | [] => 0
  | x :: xs => jsize x + jsizeList xs

def jsizeKvs : List (String × Json) → Nat
  | [] => 0
  | kv :: kvs => jsize kv.2 + jsizeKvs kvs

end

/-- Escape one character as json.dumps does for the two-character escapes. -/
def escapeChar (c : Char) : String :=
  if c = '"' then "\\\""
  else if c = '\\' then "\\\\"
  else if c = '\n' then "\\n"
  else if c = '\t' then "\\t"
  else if c = '\r' then "\\r"
  else String.mk [c]

def quoteStr (s : String) : String :=
  "\"" ++ String.join (s.data.map escapeChar) ++ "\""

def indentStr (level : Nat) : String :=
  String.mk (List.replicate (2 * level) ' ')

def dumpsAux : Nat → Nat → Json → String
  | 0, _, _ => ""
  | fuel + 1, level, j =>
    match j with
    | .null => "null"
    | .bool b => if b then "true" else "false"
    | .int n => toString n
    | .str s => quoteStr s
    | .arr [] => "[]"
    | .arr xs =>
      "[\n" ++
      String.intercalate ",\n"
        (xs.map (fun x => indentStr (level + 1) ++ dumpsAux fuel (level + 1) x)) ++
      "\n" ++ indentStr level ++ "]"
    | .obj [] => "\x7b\x7d"
    | .obj kvs =>
      "\x7b\n" ++
      String.intercalate ",\n"
        (kvs.map (fun kv =>
          indentStr (level + 1) ++ quoteStr kv.1 ++ ": " ++
          dumpsAux fuel (level + 1) kv.2)) ++
      "\n" ++ indentStr level ++ "\x7d"

/-- `fmt.dumps_canonical`: canonicalise, serialise, append a newline.
The fuel `jsize` strictly dominates the tree depth, so the serialiser
never runs out. -/
def dumps_canonical (ast : Json) : String :=
  dumpsAux (jsize (canonicalize ast)) 0 (canonicalize ast) ++ "\n"

end Fmt

/-! ### Lemmas about `orderedDict` and canonicalisation

These support the idempotence analysis of the canonical formatter. -/

namespace Fmt

open Json

/-- Map a function over the values of an association list (Python dict
comprehension over items). -/
def mapValues (f : Json → Json) (kvs : List (String × Json)) : List (String × Json) :=
  kvs.map (fun kv => (kv.1, f kv.2))

theorem keysOf_mapValues (f : Json → Json) (kvs : List (String × Json)) :
    keysOf (mapValues f kvs) = keysOf kvs := by
  simp [keysOf, mapValues, List.map_map]

theorem lookup_mapValues (f : Json → Json) (kvs : List (String × Json)) (k : String) :
    lookup (mapValues f kvs) k = (lookup kvs k).map f := by
  induction kvs with
  | nil => rfl
  | cons kv rest ih =>
    obtain ⟨k1, v1⟩ := kv
    rw [mapValues, List.map_cons]
    rw [lookup, lookup]
    by_cases h : k1 = k
    · rw [if_pos h, if_pos h]; rfl
    · rw [if_neg h, if_neg h]; exact ih

theorem hasKey_mapValues (f : Json → Json) (kvs : List (String × Json)) (k : String) :
    hasKey (mapValues f kvs) k = hasKey kvs k := by
  rw [hasKey, hasKey, keysOf_mapValues]

theorem hasKey_iff_mem {kvs : List (String × Json)} {k : String} :
    hasKey kvs k = true ↔ k ∈ keysOf kvs := by
  rw [hasKey]
  exact List.elem_iff

theorem mem_keysOf_iff {kvs : List (String × Json)} {k : String} :
    k ∈ keysOf kvs ↔ ∃ v, (k, v) ∈ kvs := by
  rw [keysOf]
  constructor
  · intro h
    obtain ⟨kv, hkv, hfst⟩ := List.mem_map.1 h
    exact ⟨kv.2, by cases hfst; exact hkv⟩
  · rintro ⟨v, hv⟩
    exact List.mem_map.2 ⟨(k, v), hv, rfl⟩

theorem lookup_isSome_iff {kvs : List (String × Json)} {k : String} :
    (lookup kvs k).isSome = true ↔ k ∈ keysOf kvs := by
  induction kvs with
  | nil => simp [lookup, keysOf]
  | cons kv rest ih =>
    obtain ⟨k1, v1⟩ := kv
    rw [lookup]
    by_cases h : k1 = k
    · subst h; simp [keysOf]
    · rw [if_neg h]
      simp only [keysOf, List.map_cons, List.mem_cons]
      rw [ih]
      constructor
      · intro hm; exact Or.inr hm
      · rintro (hm | hm)
        · exact absurd hm.symm h
        · exact hm

theorem lookup_eq_none_iff {kvs : List (String × Json)} {k : String} :
    lookup kvs k = none ↔ ¬ k ∈ keysOf kvs := by
  rw [← lookup_isSome_iff]
  cases lookup kvs k <;> simp

theorem lookup_of_mem_nodup {kvs : List (String × Json)} {k : String} {v : Json}
    (hnd : (keysOf kvs).Nodup) (h : (k, v) ∈ kvs) : lookup kvs k = some v := by
  induction kvs with
  | nil => cases h
  | cons kv rest ih =>
    obtain ⟨k1, v1⟩ := kv
    rw [keysOf] at hnd
    simp only [List.map_cons, List.nodup_cons] at hnd
    rcases List.mem_cons.1 h with h1 | h1
    · cases h1
      rw [lookup, if_pos rfl]
    · have hk : k ∈ keysOf rest := mem_keysOf_iff.2 ⟨v, h1⟩
      have hne : k1 ≠ k := by
        intro he
        subst he
        exact hnd.1 hk
      rw [lookup, if_neg hne]
      exact ih hnd.2 h1

end Fmt

namespace Fmt

open Json

/-- The first phase of `_ordered_dict`: preferred keys that are present. -/
def prefHits (kvs : List (String × Json)) (preferred : List String) :
    List (String × Json) :=
  preferred.filterMap (fun k => (lookup kvs k).map (fun v => (k, v)))

/-- The second-phase key list of `_ordered_dict`: remaining keys, sorted. -/
def restKeysOf (kvs : List (String × Json)) (preferred : List String) : List String :=
  sortStrs ((keysOf kvs).filter
    (fun k => !(((prefHits kvs preferred).map Prod.fst).contains k)))

theorem orderedDict_eq (kvs : List (String × Json)) (preferred : List String) :
    orderedDict kvs preferred =
      prefHits kvs preferred ++
        (restKeysOf kvs preferred).filterMap
          (fun k => (lookup kvs k).map (fun v => (k, v))) := rfl

theorem keysOf_prefHits (kvs : List (String × Json)) (preferred : List String) :
    (prefHits kvs preferred).map Prod.fst = preferred.filter (fun k => hasKey kvs k) := by
  induction preferred with
  | nil => rfl
  | cons k pref ih =>
    rw [prefHits, List.filterMap_cons, List.filter_cons]
    cases hl : lookup kvs k with
    | none =>
      have hk : hasKey kvs k = false := by
        rw [← Bool.not_eq_true, hasKey_iff_mem]
        exact lookup_eq_none_iff.1 hl
      rw [hk]
      simpa [prefHits] using ih
    | some v =>
      have hk : hasKey kvs k = true := by
        rw [hasKey_iff_mem, ← lookup_isSome_iff, hl]
        rfl
      rw [hk]
      simpa [prefHits] using congrArg (List.cons k) ih

theorem keysOf_filterMap_lookup (kvs : List (String × Json)) (ks : List String)
    (h : ∀ k ∈ ks, k ∈ keysOf kvs) :
    (ks.filterMap (fun k => (lookup kvs k).map (fun v => (k, v)))).map Prod.fst = ks := by
  induction ks with
  | nil => rfl
  | cons k ks ih =>
    rw [List.filterMap_cons]
    have hk : k ∈ keysOf kvs := h k (List.mem_cons_self _ _)
    cases hl : lookup kvs k with
    | none => exact absurd (lookup_eq_none_iff.1 hl) (by simp [hk])
    | some v =>
      simpa using congrArg (List.cons k) (ih (fun x hx => h x (List.mem_cons_of_mem _ hx)))

theorem mem_restKeysOf {kvs : List (String × Json)} {preferred : List String} {k : String} :
    k ∈ restKeysOf kvs preferred ↔
      k ∈ keysOf kvs ∧ ¬ k ∈ (prefHits kvs preferred).map Prod.fst := by
  rw [restKeysOf, sortStrs, List.mem_insertionSort, List.mem_filter]
  constructor
  · rintro ⟨h1, h2⟩
    refine ⟨h1, ?_⟩
    simpa using h2
  · rintro ⟨h1, h2⟩
    refine ⟨h1, ?_⟩
    simpa using h2

theorem keysOf_orderedDict (kvs : List (String × Json)) (preferred : List String) :
    keysOf (orderedDict kvs preferred) =
      preferred.filter (fun k => hasKey kvs k) ++ restKeysOf kvs preferred := by
  rw [orderedDict_eq, keysOf, List.map_append]
  rw [show (prefHits kvs preferred).map Prod.fst =
    preferred.filter (fun k => hasKey kvs k) from keysOf_prefHits ..]
  rw [keysOf_filterMap_lookup _ _ (fun x hx => (mem_restKeysOf.1 hx).1)]

theorem hasKey_orderedDict (kvs : List (String × Json)) (preferred : List String)
    (k : String) : hasKey (orderedDict kvs preferred) k = hasKey kvs k := by
  by_cases h : k ∈ keysOf kvs
  · have h2 : hasKey kvs k = true := hasKey_iff_mem.2 h
    rw [h2, hasKey_iff_mem, keysOf_orderedDict, List.mem_append]
    by_cases hp : k ∈ (prefHits kvs preferred).map Prod.fst
    · rw [keysOf_prefHits] at hp
      exact Or.inl hp
    · exact Or.inr (mem_restKeysOf.2 ⟨h, hp⟩)
  · have h1 : hasKey kvs k = false := by
      rw [← Bool.not_eq_true, hasKey_iff_mem]
      exact h
    rw [h1, ← Bool.not_eq_true, hasKey_iff_mem, keysOf_orderedDict, List.mem_append]
    rintro (hm | hm)
    · exact h (hasKey_iff_mem.1 (List.of_mem_filter hm))
    · exact h (mem_restKeysOf.1 hm).1

end Fmt

namespace Fmt

open Json

theorem nodup_keysOf_orderedDict {kvs : List (String × Json)} {preferred : List String}
    (hpref : preferred.Nodup) (hnd : (keysOf kvs).Nodup) :
    (keysOf (orderedDict kvs preferred)).Nodup := by
  rw [keysOf_orderedDict]
  refine List.Nodup.append (hpref.filter _) ?_ ?_
  · rw [restKeysOf, sortStrs]
    exact ((List.perm_insertionSort _ _).nodup_iff).2 (hnd.filter _)
  · intro k hk1 hk2
    have h2 := (mem_restKeysOf.1 hk2).2
    rw [keysOf_prefHits] at h2
    exact h2 hk1

theorem lookup_orderedDict {kvs : List (String × Json)} {preferred : List String}
    (hpref : preferred.Nodup) (hnd : (keysOf kvs).Nodup) (k : String) :
    lookup (orderedDict kvs preferred) k = lookup kvs k := by
  by_cases h : k ∈ keysOf kvs
  · obtain ⟨v, hv⟩ := Option.isSome_iff_exists.1 (lookup_isSome_iff.2 h)
    rw [hv]
    refine lookup_of_mem_nodup (nodup_keysOf_orderedDict hpref hnd) ?_
    rw [orderedDict_eq, List.mem_append]
    by_cases hp : k ∈ (prefHits kvs preferred).map Prod.fst
    · left
      rw [prefHits]
      refine List.mem_filterMap.2 ⟨k, ?_, ?_⟩
      · rw [keysOf_prefHits] at hp
        exact List.mem_of_mem_filter hp
      · rw [hv]; rfl
    · right
      refine List.mem_filterMap.2 ⟨k, mem_restKeysOf.2 ⟨h, hp⟩, ?_⟩
      rw [hv]; rfl
  · rw [lookup_eq_none_iff.2 h, lookup_eq_none_iff.2 ?_]
    rw [← hasKey_iff_mem, hasKey_orderedDict, hasKey_iff_mem]
    exact h

theorem filterMap_lookup_mapValues (f : Json → Json) (kvs : List (String × Json))
    (ks : List String) :
    ks.filterMap (fun k => (lookup (mapValues f kvs) k).map (fun v => (k, v))) =
      mapValues f (ks.filterMap (fun k => (lookup kvs k).map (fun v => (k, v)))) := by
  induction ks with
  | nil => rfl
  | cons k ks ih =>
    rw [List.filterMap_cons, List.filterMap_cons, lookup_mapValues]
    cases lookup kvs k with
    | none => exact ih
    | some v =>
      simp only [Option.map_some']
      rw [show mapValues f ((k, v) ::
          ks.filterMap (fun k => (lookup kvs k).map (fun v => (k, v)))) =
        (k, f v) :: mapValues f
          (ks.filterMap (fun k => (lookup kvs k).map (fun v => (k, v))))
        from List.map_cons ..]
      rw [mapValues] at ih
      exact congrArg _ ih

theorem prefHits_mapValues (f : Json → Json) (kvs : List (String × Json))
    (preferred : List String) :
    prefHits (mapValues f kvs) preferred = mapValues f (prefHits kvs preferred) :=
  filterMap_lookup_mapValues f kvs preferred

theorem restKeysOf_mapValues (f : Json → Json) (kvs : List (String × Json))
    (preferred : List String) :
    restKeysOf (mapValues f kvs) preferred = restKeysOf kvs preferred := by
  rw [restKeysOf, restKeysOf, keysOf_mapValues, prefHits_mapValues]
  rw [show (mapValues f (prefHits kvs preferred)).map Prod.fst =
      (prefHits kvs preferred).map Prod.fst from keysOf_mapValues ..]

theorem orderedDict_mapValues (f : Json → Json) (kvs : List (String × Json))
    (preferred : List String) :
    orderedDict (mapValues f kvs) preferred = mapValues f (orderedDict kvs preferred) := by
  rw [orderedDict_eq, orderedDict_eq, prefHits_mapValues, restKeysOf_mapValues,
    filterMap_lookup_mapValues]
  rw [show mapValues f (prefHits kvs preferred ++
      (restKeysOf kvs preferred).filterMap
        (fun k => (lookup kvs k).map (fun v => (k, v)))) =
    mapValues f (prefHits kvs preferred) ++
      mapValues f ((restKeysOf kvs preferred).filterMap
        (fun k => (lookup kvs k).map (fun v => (k, v)))) from List.map_append ..]

end Fmt

namespace Fmt

open Json

theorem filterMap_lookup_congr {A B : List (String × Json)}
    (h : ∀ k, lookup A k = lookup B k) (ks : List String) :
    ks.filterMap (fun k => (lookup A k).map (fun v => (k, v))) =
      ks.filterMap (fun k => (lookup B k).map (fun v => (k, v))) := by
  induction ks with
  | nil => rfl
  | cons k ks ih =>
    rw [List.filterMap_cons, List.filterMap_cons, h k]
    cases lookup B k with
    | none => exact ih
    | some v =>
      simp only [Option.map_some']
      exact congrArg _ ih

theorem sortStrs_idem (l : List String) : sortStrs (sortStrs l) = sortStrs l :=
  List.Sorted.insertionSort_eq (List.sorted_insertionSort _ l)

theorem restKeysOf_orderedDict {kvs : List (String × Json)} {preferred : List String}
    (hpref : preferred.Nodup) (hnd : (keysOf kvs).Nodup) :
    restKeysOf (orderedDict kvs preferred) preferred = restKeysOf kvs preferred := by
  have hfc : preferred.filter (fun k => hasKey (orderedDict kvs preferred) k)
      = preferred.filter (fun k => hasKey kvs k) :=
    List.filter_congr (fun k _ => hasKey_orderedDict kvs preferred k)
  rw [restKeysOf, keysOf_orderedDict]
  rw [show (prefHits (orderedDict kvs preferred) preferred).map Prod.fst =
      preferred.filter (fun k => hasKey (orderedDict kvs preferred) k) from
    keysOf_prefHits ..]
  rw [hfc, List.filter_append]
  have h1 : (preferred.filter (fun k => hasKey kvs k)).filter
      (fun k => !((preferred.filter (fun k => hasKey kvs k)).contains k)) = [] :=
    List.filter_eq_nil_iff.2 (fun k hk => by
      have hc : (preferred.filter (fun k2 => hasKey kvs k2)).contains k = true :=
        List.elem_iff.2 hk
      intro hcontra
      rw [hc] at hcontra
      exact absurd hcontra (by decide))
  have h2 : (restKeysOf kvs preferred).filter
      (fun k => !((preferred.filter (fun k => hasKey kvs k)).contains k))
      = restKeysOf kvs preferred :=
    List.filter_eq_self.2 (fun k hk => by
      have h3 := (mem_restKeysOf.1 hk).2
      rw [keysOf_prefHits] at h3
      have hc : (preferred.filter (fun k2 => hasKey kvs k2)).contains k = false := by
        rw [← Bool.not_eq_true, List.elem_iff]
        exact h3
      rw [hc]
      rfl)
  rw [h1, h2, List.nil_append]
  rw [restKeysOf]
  exact sortStrs_idem _

theorem orderedDict_idem {kvs : List (String × Json)} {preferred : List String}
    (hpref : preferred.Nodup) (hnd : (keysOf kvs).Nodup) :
    orderedDict (orderedDict kvs preferred) preferred = orderedDict kvs preferred := by
  conv_lhs => rw [orderedDict_eq]
  rw [show prefHits (orderedDict kvs preferred) preferred = prefHits kvs preferred from
    filterMap_lookup_congr (lookup_orderedDict hpref hnd) preferred]
  rw [restKeysOf_orderedDict hpref hnd]
  rw [filterMap_lookup_congr (lookup_orderedDict hpref hnd) (restKeysOf kvs preferred)]
  rw [← orderedDict_eq]

/-- The key/value selection performed by the `obj` expression-wrapper branch
of `fmt.canonicalize` (record fields in sorted key order). -/
def sortedSel (kvs : List (String × Json)) : List (String × Json) :=
  (sortStrs (keysOf kvs)).filterMap (fun k => (lookup kvs k).map (fun v => (k, v)))

theorem mem_sortedSel {kvs : List (String × Json)} {kv : String × Json}
    (h : kv ∈ sortedSel kvs) : kv ∈ kvs :=
  mem_filterMap_lookup h

theorem keysOf_sortedSel (kvs : List (String × Json)) :
    keysOf (sortedSel kvs) = sortStrs (keysOf kvs) := by
  rw [sortedSel, keysOf]
  exact keysOf_filterMap_lookup kvs _ (fun k hk => by
    rw [sortStrs, List.mem_insertionSort] at hk
    exact hk)

theorem nodup_keysOf_sortedSel {kvs : List (String × Json)}
    (hnd : (keysOf kvs).Nodup) : (keysOf (sortedSel kvs)).Nodup := by
  rw [keysOf_sortedSel, sortStrs]
  exact ((List.perm_insertionSort _ _).nodup_iff).2 hnd

theorem lookup_sortedSel {kvs : List (String × Json)} (hnd : (keysOf kvs).Nodup)
    (k : String) : lookup (sortedSel kvs) k = lookup kvs k := by
  by_cases h : k ∈ keysOf kvs
  · obtain ⟨v, hv⟩ := Option.isSome_iff_exists.1 (lookup_isSome_iff.2 h)
    rw [hv]
    refine lookup_of_mem_nodup (nodup_keysOf_sortedSel hnd) ?_
    rw [sortedSel]
    refine List.mem_filterMap.2 ⟨k, ?_, ?_⟩
    · rw [sortStrs, List.mem_insertionSort]
      exact h
    · rw [hv]; rfl
  · rw [lookup_eq_none_iff.2 h, lookup_eq_none_iff.2 ?_]
    rw [keysOf_sortedSel, sortStrs, List.mem_insertionSort]
    exact h

theorem sortedSel_mapValues (f : Json → Json) (kvs : List (String × Json)) :
    sortedSel (mapValues f kvs) = mapValues f (sortedSel kvs) := by
  rw [sortedSel, sortedSel, keysOf_mapValues]
  exact filterMap_lookup_mapValues f kvs _

theorem sortedSel_idem {kvs : List (String × Json)} (hnd : (keysOf kvs).Nodup) :
    sortedSel (sortedSel kvs) = sortedSel kvs := by
  conv_lhs => rw [sortedSel]
  rw [keysOf_sortedSel, sortStrs_idem]
  rw [filterMap_lookup_congr (lookup_sortedSel hnd) _]
  rw [← sortedSel]

theorem filter_not_isNull_eq_self {l : List (String × Json)}
    (h : ∀ kv ∈ l, isNull kv.2 = false) :
    l.filter (fun kv => !(isNull kv.2)) = l :=
  List.filter_eq_self.2 (fun kv hkv => by rw [h kv hkv]; rfl)

end Fmt

namespace Fmt

open Json

theorem canon_null : canonicalize .null = .null := by rw [canonicalize.eq_def]

theorem canon_bool (b : Bool) : canonicalize (.bool b) = .bool b := by
  rw [canonicalize.eq_def]

theorem canon_int (n : Int) : canonicalize (.int n) = .int n := by
  rw [canonicalize.eq_def]

theorem canon_str (s : String) : canonicalize (.str s) = .str s := by
  rw [canonicalize.eq_def]

theorem canon_arr (xs : List Json) :
    canonicalize (.arr xs) = .arr (xs.map canonicalize) := by
  rw [canonicalize.eq_def]
  dsimp only
  rw [List.attach_map_val xs canonicalize]

theorem canon_obj_module {kvs : List (String × Json)}
    (h : (hasKey kvs "module" && hasKey kvs "functions") = true) :
    canonicalize (.obj kvs) =
      .obj (mapValues canonicalize (orderedDict kvs MODULE_KEY_ORDER)) := by
  rw [canonicalize.eq_def]
  dsimp only
  rw [if_pos h]
  exact congrArg Json.obj (List.attach_map_val _
    (fun kv : String × Json => (kv.1, canonicalize kv.2)))

theorem canon_obj_function {kvs : List (String × Json)}
    (h1 : (hasKey kvs "module" && hasKey kvs "functions") = false)
    (h2 : (hasKey kvs "name" && hasKey kvs "params" && hasKey kvs "effects" &&
      hasKey kvs "body") = true) :
    canonicalize (.obj kvs) =
      .obj (mapValues canonicalize
        ((orderedDict kvs FUNCTION_KEY_ORDER).filter (fun kv => !(isNull kv.2)))) := by
  rw [canonicalize.eq_def]
  dsimp only
  rw [h1]
  rw [if_neg (by decide), if_pos h2]
  exact congrArg Json.obj (List.attach_map_val _
    (fun kv : String × Json => (kv.1, canonicalize kv.2)))

theorem canon_obj_test {kvs : List (String × Json)}
    (h1 : (hasKey kvs "module" && hasKey kvs "functions") = false)
    (h2 : (hasKey kvs "name" && hasKey kvs "params" && hasKey kvs "effects" &&
      hasKey kvs "body") = false)
    (h3 : (hasKey kvs "fn" && hasKey kvs "args" && hasKey kvs "expect" &&
      !(hasKey kvs "strategy")) = true) :
    canonicalize (.obj kvs) =
      .obj (mapValues canonicalize
        ((orderedDict kvs TEST_KEY_ORDER).filter (fun kv => !(isNull kv.2)))) := by
  rw [canonicalize.eq_def]
  dsimp only
  rw [h1, h2]
  rw [if_neg (by decide), if_neg (by decide), if_pos h3]
  exact congrArg Json.obj (List.attach_map_val _
    (fun kv : String × Json => (kv.1, canonicalize kv.2)))

theorem canon_obj_property {kvs : List (String × Json)}
    (h1 : (hasKey kvs "module" && hasKey kvs "functions") = false)
    (h2 : (hasKey kvs "name" && hasKey kvs "params" && hasKey kvs "effects" &&
      hasKey kvs "body") = false)
    (h3 : (hasKey kvs "fn" && hasKey kvs "args" && hasKey kvs "expect" &&
      !(hasKey kvs "strategy")) = false)
    (h4 : (hasKey kvs "fn" && hasKey kvs "strategy" && hasKey kvs "expect") = true) :
    canonicalize (.obj kvs) =
      .obj (mapValues canonicalize
        ((orderedDict kvs PROPERTY_KEY_ORDER).filter (fun kv => !(isNull kv.2)))) := by
  rw [canonicalize.eq_def]
  dsimp only
  rw [h1, h2, h3]
  rw [if_neg (by decide), if_neg (by decide), if_neg (by decide), if_pos h4]
  exact congrArg Json.obj (List.attach_map_val _
    (fun kv : String × Json => (kv.1, canonicalize kv.2)))

end Fmt

namespace Fmt

open Json

theorem hasKey_singleton (t : String) (v : Json) (k : String) :
    hasKey [(t, v)] k = (k == t) := by
  simp [hasKey, keysOf, List.contains]
  exact (Bool.beq_eq_decide_eq ..).symm

theorem singleton_cond_two (t : String) (v : Json) (k1 k2 : String) (hne : ¬ k1 = k2) :
    (hasKey [(t, v)] k1 && hasKey [(t, v)] k2) = false := by
  rw [hasKey_singleton, hasKey_singleton]
  cases hb : (k1 == t) with
  | false => rfl
  | true =>
    have ht : t = k1 := (beq_iff_eq.1 hb).symm
    subst ht
    rw [Bool.true_and]
    rw [← Bool.not_eq_true, beq_iff_eq]
    intro h
    exact hne h.symm

/-- On a single-key dict, the four container heuristics of
`fmt.canonicalize` never fire: each requires at least two distinct keys. -/
theorem singleton_conds (t : String) (v : Json) :
    ((hasKey [(t, v)] "module" && hasKey [(t, v)] "functions") = false) ∧
    ((hasKey [(t, v)] "name" && hasKey [(t, v)] "params" && hasKey [(t, v)] "effects" &&
      hasKey [(t, v)] "body") = false) ∧
    ((hasKey [(t, v)] "fn" && hasKey [(t, v)] "args" && hasKey [(t, v)] "expect" &&
      !(hasKey [(t, v)] "strategy")) = false) ∧
    ((hasKey [(t, v)] "fn" && hasKey [(t, v)] "strategy" && hasKey [(t, v)] "expect") =
      false) := by
  refine ⟨singleton_cond_two t v "module" "functions" (by decide), ?_, ?_, ?_⟩
  · rw [singleton_cond_two t v "name" "params" (by decide), Bool.false_and, Bool.false_and]
  · rw [singleton_cond_two t v "fn" "args" (by decide), Bool.false_and, Bool.false_and]
  · rw [singleton_cond_two t v "fn" "strategy" (by decide), Bool.false_and]

theorem canon_obj_if_dict (inner : List (String × Json)) :
    canonicalize (.obj [("if", .obj inner)]) =
      .obj [("if", .obj (mapValues canonicalize
        ((orderedDict inner IF_KEY_ORDER).filter (fun kv => !(isNull kv.2)))))] := by
  obtain ⟨c1, c2, c3, c4⟩ := singleton_conds "if" (Json.obj inner)
  rw [canonicalize.eq_def]
  dsimp only
  rw [c1, c2, c3, c4]
  rw [if_neg (by decide), if_neg (by decide), if_neg (by decide), if_neg (by decide)]
  rw [if_pos (by decide : STMT_TAGS.contains "if" = true), if_pos rfl]
  exact congrArg (fun l => Json.obj [("if", Json.obj l)]) (List.attach_map_val _
    (fun kv : String × Json => (kv.1, canonicalize kv.2)))

theorem canon_obj_let_dict (inner : List (String × Json)) :
    canonicalize (.obj [("let", .obj inner)]) =
      .obj [("let", .obj (mapValues canonicalize
        ((orderedDict inner LET_KEY_ORDER).filter (fun kv => !(isNull kv.2)))))] := by
  obtain ⟨c1, c2, c3, c4⟩ := singleton_conds "let" (Json.obj inner)
  rw [canonicalize.eq_def]
  dsimp only
  rw [c1, c2, c3, c4]
  rw [if_neg (by decide), if_neg (by decide), if_neg (by decide), if_neg (by decide)]
  rw [if_pos (by decide : STMT_TAGS.contains "let" = true), if_neg (by decide), if_pos rfl]
  exact congrArg (fun l => Json.obj [("let", Json.obj l)]) (List.attach_map_val _
    (fun kv : String × Json => (kv.1, canonicalize kv.2)))

theorem canon_obj_assert_dict (inner : List (String × Json)) :
    canonicalize (.obj [("assert", .obj inner)]) =
      .obj [("assert", .obj (mapValues canonicalize
        ((orderedDict inner ASSERT_KEY_ORDER).filter (fun kv => !(isNull kv.2)))))] := by
  obtain ⟨c1, c2, c3, c4⟩ := singleton_conds "assert" (Json.obj inner)
  rw [canonicalize.eq_def]
  dsimp only
  rw [c1, c2, c3, c4]
  rw [if_neg (by decide), if_neg (by decide), if_neg (by decide), if_neg (by decide)]
  rw [if_pos (by decide : STMT_TAGS.contains "assert" = true), if_neg (by decide),
    if_neg (by decide), if_pos rfl]
  exact congrArg (fun l => Json.obj [("assert", Json.obj l)]) (List.attach_map_val _
    (fun kv : String × Json => (kv.1, canonicalize kv.2)))

theorem canon_obj_call_dict (inner : List (String × Json)) :
    canonicalize (.obj [("call", .obj inner)]) =
      .obj [("call", .obj (mapValues canonicalize
        ((orderedDict inner CALL_KEY_ORDER).filter (fun kv => !(isNull kv.2)))))] := by
  obtain ⟨c1, c2, c3, c4⟩ := singleton_conds "call" (Json.obj inner)
  rw [canonicalize.eq_def]
  dsimp only
  rw [c1, c2, c3, c4]
  rw [if_neg (by decide), if_neg (by decide), if_neg (by decide), if_neg (by decide)]
  rw [if_neg (by decide : ¬ STMT_TAGS.contains "call" = true),
    if_pos (by decide : EXPR_TAGS.contains "call" = true), if_pos rfl]
  exact congrArg (fun l => Json.obj [("call", Json.obj l)]) (List.attach_map_val _
    (fun kv : String × Json => (kv.1, canonicalize kv.2)))

theorem canon_obj_objtag_dict (inner : List (String × Json)) :
    canonicalize (.obj [("obj", .obj inner)]) =
      .obj [("obj", .obj (mapValues canonicalize (sortedSel inner)))] := by
  obtain ⟨c1, c2, c3, c4⟩ := singleton_conds "obj" (Json.obj inner)
  rw [canonicalize.eq_def]
  dsimp only
  rw [c1, c2, c3, c4]
  rw [if_neg (by decide), if_neg (by decide), if_neg (by decide), if_neg (by decide)]
  rw [if_neg (by decide : ¬ STMT_TAGS.contains "obj" = true),
    if_pos (by decide : EXPR_TAGS.contains "obj" = true), if_neg (by decide), if_pos rfl]
  exact congrArg (fun l => Json.obj [("obj", Json.obj l)]) (List.attach_map_val _
    (fun kv : String × Json => (kv.1, canonicalize kv.2)))

end Fmt

namespace Fmt

open Json

theorem canon_obj_stmt_plain (tag : String) (val : Json)
    (h1 : STMT_TAGS.contains tag = true)
    (h2 : ¬ tag = "if") (h3 : ¬ tag = "let") (h4 : ¬ tag = "assert") :
    canonicalize (.obj [(tag, val)]) = .obj [(tag, canonicalize val)] := by
  obtain ⟨c1, c2, c3, c4⟩ := singleton_conds tag val
  rw [canonicalize.eq_def]
  dsimp only
  rw [c1, c2, c3, c4]
  rw [if_neg (by decide), if_neg (by decide), if_neg (by decide), if_neg (by decide)]
  rw [if_pos h1, if_neg h2, if_neg h3, if_neg h4]

theorem canon_obj_stmt_nondict (tag : String) (val : Json)
    (h1 : STMT_TAGS.contains tag = true) (hv : ∀ i, ¬ val = .obj i) :
    canonicalize (.obj [(tag, val)]) = .obj [(tag, canonicalize val)] := by
  obtain ⟨c1, c2, c3, c4⟩ := singleton_conds tag val
  rw [canonicalize.eq_def]
  dsimp only
  rw [c1, c2, c3, c4]
  rw [if_neg (by decide), if_neg (by decide), if_neg (by decide), if_neg (by decide)]
  rw [if_pos h1]
  by_cases t1 : tag = "if"
  · rw [if_pos t1]
    cases val with
    | obj i => exact absurd rfl (hv i)
    | null => rfl
    | bool b => rfl
    | int n => rfl
    | str s => rfl
    | arr xs => rfl
  · rw [if_neg t1]
    by_cases t2 : tag = "let"
    · rw [if_pos t2]
      cases val with
      | obj i => exact absurd rfl (hv i)
      | null => rfl
      | bool b => rfl
      | int n => rfl
      | str s => rfl
      | arr xs => rfl
    · rw [if_neg t2]
      by_cases t3 : tag = "assert"
      · rw [if_pos t3]
        cases val with
        | obj i => exact absurd rfl (hv i)
        | null => rfl
        | bool b => rfl
        | int n => rfl
        | str s => rfl
        | arr xs => rfl
      · rw [if_neg t3]

theorem canon_obj_expr_plain (tag : String) (val : Json)
    (h0 : STMT_TAGS.contains tag = false)
    (h1 : EXPR_TAGS.contains tag = true)
    (h2 : ¬ tag = "call") (h3 : ¬ tag = "obj") :
    canonicalize (.obj [(tag, val)]) = .obj [(tag, canonicalize val)] := by
  obtain ⟨c1, c2, c3, c4⟩ := singleton_conds tag val
  rw [canonicalize.eq_def]
  dsimp only
  rw [c1, c2, c3, c4]
  rw [if_neg (by decide), if_neg (by decide), if_neg (by decide), if_neg (by decide)]
  rw [h0]
  rw [if_neg (by decide), if_pos h1, if_neg h2, if_neg h3]

theorem canon_obj_expr_nondict (tag : String) (val : Json)
    (h0 : STMT_TAGS.contains tag = false)
    (h1 : EXPR_TAGS.contains tag = true) (hv : ∀ i, ¬ val = .obj i) :
    canonicalize (.obj [(tag, val)]) = .obj [(tag, canonicalize val)] := by
  obtain ⟨c1, c2, c3, c4⟩ := singleton_conds tag val
  rw [canonicalize.eq_def]
  dsimp only
  rw [c1, c2, c3, c4]
  rw [if_neg (by decide), if_neg (by decide), if_neg (by decide), if_neg (by decide)]
  rw [h0]
  rw [if_neg (by decide), if_pos h1]
  by_cases t1 : tag = "call"
  · rw [if_pos t1]
    cases val with
    | obj i => exact absurd rfl (hv i)
    | null => rfl
    | bool b => rfl
    | int n => rfl
    | str s => rfl
    | arr xs => rfl
  · rw [if_neg t1]
    by_cases t2 : tag = "obj"
    · rw [if_pos t2]
      cases val with
      | obj i => exact absurd rfl (hv i)
      | null => rfl
      | bool b => rfl
      | int n => rfl
      | str s => rfl
      | arr xs => rfl
    · rw [if_neg t2]

theorem canon_obj_fallback_single (tag : String) (val : Json)
    (h0 : STMT_TAGS.contains tag = false)
    (h1 : EXPR_TAGS.contains tag = false) :
    canonicalize (.obj [(tag, val)]) =
      .obj (mapValues canonicalize (orderedDict [(tag, val)] [])) := by
  obtain ⟨c1, c2, c3, c4⟩ := singleton_conds tag val
  rw [canonicalize.eq_def]
  dsimp only
  rw [c1, c2, c3, c4]
  rw [if_neg (by decide), if_neg (by decide), if_neg (by decide), if_neg (by decide)]
  rw [h0, h1]
  rw [if_neg (by decide), if_neg (by decide)]
  exact congrArg Json.obj (List.attach_map_val _
    (fun kv : String × Json => (kv.1, canonicalize kv.2)))

theorem canon_obj_fallback_big {kvs : List (String × Json)}
    (h1 : (hasKey kvs "module" && hasKey kvs "functions") = false)
    (h2 : (hasKey kvs "name" && hasKey kvs "params" && hasKey kvs "effects" &&
      hasKey kvs "body") = false)
    (h3 : (hasKey kvs "fn" && hasKey kvs "args" && hasKey kvs "expect" &&
      !(hasKey kvs "strategy")) = false)
    (h4 : (hasKey kvs "fn" && hasKey kvs "strategy" && hasKey kvs "expect") = false)
    (hshape : ∀ t v, ¬ kvs = [(t, v)]) :
    canonicalize (.obj kvs) =
      .obj (mapValues canonicalize (orderedDict kvs [])) := by
  rw [canonicalize.eq_def]
  dsimp only
  rw [h1, h2, h3, h4]
  rw [if_neg (by decide), if_neg (by decide), if_neg (by decide), if_neg (by decide)]
  cases kvs with
  | nil =>
    exact congrArg Json.obj (List.attach_map_val _
      (fun kv : String × Json => (kv.1, canonicalize kv.2)))
  | cons kv rest =>
    cases rest with
    | nil =>
      obtain ⟨t, v⟩ := kv
      exact absurd rfl (hshape t v)
    | cons kv2 rest2 =>
      exact congrArg Json.obj (List.attach_map_val _
        (fun kv : String × Json => (kv.1, canonicalize kv.2)))

end Fmt

namespace Fmt

open Json

theorem canon_obj_shape (kvs : List (String × Json)) :
    ∃ l, canonicalize (.obj kvs) = .obj l := by
  rw [canonicalize.eq_def]
  dsimp only
  repeat' split
  all_goals exact ⟨_, rfl⟩

theorem isNull_canonicalize (j : Json) : isNull (canonicalize j) = isNull j := by
  cases j with
  | null => rw [canon_null]
  | bool b => rw [canon_bool]
  | int n => rw [canon_int]
  | str s => rw [canon_str]
  | arr xs => rw [canon_arr]; rfl
  | obj kvs =>
    obtain ⟨l, hl⟩ := canon_obj_shape kvs
    rw [hl]; rfl

theorem canon_nondict {v : Json} (hv : ∀ i, ¬ v = .obj i) :
    ∀ i, ¬ canonicalize v = .obj i := by
  cases v with
  | null => rw [canon_null]; intro i h; cases h
  | bool b => rw [canon_bool]; intro i h; cases h
  | int n => rw [canon_int]; intro i h; cases h
  | str s => rw [canon_str]; intro i h; cases h
  | arr xs => rw [canon_arr]; intro i h; cases h
  | obj kvs => exact absurd rfl (hv kvs)

theorem one_le_sizeOf (j : Json) : 1 ≤ sizeOf j := by
  cases j <;> simp

mutual

/-- No object member anywhere in the tree has the value null (Python None).
The heuristic branches of `fmt.canonicalize` drop exactly such members. -/
def nfB : Json → Bool
  | .null => true
  | .bool _ => true
  | .int _ => true
  | .str _ => true
  | .arr xs => nfListB xs
  | .obj kvs => nfKvsB kvs

def nfListB : List Json → Bool
  | [] => true
  | x :: xs => nfB x && nfListB xs

def nfKvsB : List (String × Json) → Bool
  | [] => true
  | kv :: kvs => !(isNull kv.2) && nfB kv.2 && nfKvsB kvs

end

mutual

/-- Every object in the tree has pairwise distinct keys, as Python dicts
guarantee for values produced by json.loads. -/
def ndB : Json → Bool
  | .null => true
  | .bool _ => true
  | .int _ => true
  | .str _ => true
  | .arr xs => ndListB xs
  | .obj kvs => decide (keysOf kvs).Nodup && ndKvsB kvs

def ndListB : List Json → Bool
  | [] => true
  | x :: xs => ndB x && ndListB xs

def ndKvsB : List (String × Json) → Bool
  | [] => true
  | kv :: kvs => ndB kv.2 && ndKvsB kvs

end

theorem nfListB_iff {xs : List Json} :
    nfListB xs = true ↔ ∀ x ∈ xs, nfB x = true := by
  induction xs with
  | nil => simp [nfListB]
  | cons x xs ih => rw [nfListB, Bool.and_eq_true, ih]; simp

theorem nfKvsB_iff {kvs : List (String × Json)} :
    nfKvsB kvs = true ↔ ∀ kv ∈ kvs, isNull kv.2 = false ∧ nfB kv.2 = true := by
  induction kvs with
  | nil => simp [nfKvsB]
  | cons kv kvs ih =>
    rw [nfKvsB, Bool.and_eq_true, Bool.and_eq_true, ih]
    constructor
    · rintro ⟨⟨h1, h2⟩, h3⟩ kv2 hm
      rcases List.mem_cons.1 hm with heq | hm2
      · subst heq
        exact ⟨(Bool.not_eq_true' _) ▸ h1, h2⟩
      · exact h3 kv2 hm2
    · intro h
      refine ⟨⟨?_, (h kv (List.mem_cons_self ..)).2⟩,
        fun kv2 hm => h kv2 (List.mem_cons_of_mem _ hm)⟩
      rw [Bool.not_eq_true' (isNull kv.2)]
      exact (h kv (List.mem_cons_self ..)).1

theorem ndListB_iff {xs : List Json} :
    ndListB xs = true ↔ ∀ x ∈ xs, ndB x = true := by
  induction xs with
  | nil => simp [ndListB]
  | cons x xs ih => rw [ndListB, Bool.and_eq_true, ih]; simp

theorem ndKvsB_iff {kvs : List (String × Json)} :
    ndKvsB kvs = true ↔ ∀ kv ∈ kvs, ndB kv.2 = true := by
  induction kvs with
  | nil => simp [ndKvsB]
  | cons kv kvs ih => rw [ndKvsB, Bool.and_eq_true, ih]; simp

theorem mem_mapValues {f : Json → Json} {kvs : List (String × Json)}
    {kv : String × Json} :
    kv ∈ mapValues f kvs ↔ ∃ kv0, kv0 ∈ kvs ∧ kv = (kv0.1, f kv0.2) := by
  rw [mapValues, List.mem_map]
  constructor
  · rintro ⟨a, h1, h2⟩
    exact ⟨a, h1, h2.symm⟩
  · rintro ⟨a, h1, h2⟩
    exact ⟨a, h1, h2.symm⟩

theorem core_idem (P : List String) (kvs : List (String × Json))
    (hP : P.Nodup) (hnd : (keysOf kvs).Nodup)
    (hIH : ∀ kv ∈ kvs, canonicalize (canonicalize kv.2) = canonicalize kv.2) :
    mapValues canonicalize (orderedDict (mapValues canonicalize (orderedDict kvs P)) P)
      = mapValues canonicalize (orderedDict kvs P) := by
  rw [orderedDict_mapValues, orderedDict_idem hP hnd]
  simp only [mapValues, List.map_map]
  refine List.map_congr_left (fun kv hkv => ?_)
  simp only [Function.comp_apply]
  rw [hIH kv (mem_orderedDict hkv)]

theorem core_idem_sorted (kvs : List (String × Json))
    (hnd : (keysOf kvs).Nodup)
    (hIH : ∀ kv ∈ kvs, canonicalize (canonicalize kv.2) = canonicalize kv.2) :
    mapValues canonicalize (sortedSel (mapValues canonicalize (sortedSel kvs)))
      = mapValues canonicalize (sortedSel kvs) := by
  rw [sortedSel_mapValues, sortedSel_idem hnd]
  simp only [mapValues, List.map_map]
  refine List.map_congr_left (fun kv hkv => ?_)
  simp only [Function.comp_apply]
  rw [hIH kv (mem_sortedSel hkv)]

end Fmt

namespace Fmt

open Json

theorem hasKey_canonValues (P : List String) (kvs : List (String × Json)) (k : String) :
    hasKey (mapValues canonicalize (orderedDict kvs P)) k = hasKey kvs k := by
  rw [hasKey_mapValues, hasKey_orderedDict]

theorem filter_orderedDict_canonValues (P Q : List String) (X : List (String × Json))
    (hX : ∀ kv ∈ X, isNull kv.2 = false) :
    (orderedDict (mapValues canonicalize X) P).filter (fun kv => !(isNull kv.2))
      = orderedDict (mapValues canonicalize X) P :=
  filter_not_isNull_eq_self (fun kv hkv => by
    obtain ⟨kv0, h0, he⟩ := mem_mapValues.1 (mem_orderedDict hkv)
    rw [he]
    show isNull (canonicalize kv0.2) = false
    rw [isNull_canonicalize]
    exact hX kv0 h0)

theorem filter_sortedSel_canonValues (X : List (String × Json))
    (hX : ∀ kv ∈ X, isNull kv.2 = false) :
    (sortedSel (mapValues canonicalize X)).filter (fun kv => !(isNull kv.2))
      = sortedSel (mapValues canonicalize X) :=
  filter_not_isNull_eq_self (fun kv hkv => by
    obtain ⟨kv0, h0, he⟩ := mem_mapValues.1 (mem_sortedSel hkv)
    rw [he]
    show isNull (canonicalize kv0.2) = false
    rw [isNull_canonicalize]
    exact hX kv0 h0)

theorem sortStrs_single (t : String) : sortStrs [t] = [t] := rfl

theorem orderedDict_single_nil (t : String) (v : Json) :
    orderedDict [(t, v)] [] = [(t, v)] := by
  rw [orderedDict_eq]
  rw [show prefHits [(t, v)] [] = [] from rfl]
  rw [show restKeysOf [(t, v)] [] = [t] by
    rw [restKeysOf]
    rw [show (keysOf [(t, v)]).filter
        (fun k => !(((prefHits [(t, v)] []).map Prod.fst).contains k)) = [t] from rfl]
    exact sortStrs_single t]
  rw [List.nil_append, List.filterMap_cons]
  rw [show lookup [(t, v)] t = some v by rw [lookup, if_pos rfl]]
  rfl

theorem length_orderedDict_nil {kvs : List (String × Json)} :
    (orderedDict kvs []).length = kvs.length := by
  have h1 : (keysOf (orderedDict kvs [])).length = (orderedDict kvs []).length := by
    rw [keysOf, List.length_map]
  have h2 : (keysOf kvs).length = kvs.length := by
    rw [keysOf, List.length_map]
  rw [← h1, keysOf_orderedDict]
  rw [show ([] : List String).filter (fun k => hasKey kvs k) = [] from rfl]
  rw [List.nil_append, restKeysOf]
  rw [show (keysOf kvs).filter
      (fun k => !(((prefHits kvs []).map Prod.fst).contains k)) = keysOf kvs from
    List.filter_eq_self.2 (fun k _ => rfl)]
  rw [sortStrs, List.length_insertionSort]
  exact h2

end Fmt

namespace Fmt

open Json

theorem canonicalize_idem_bounded :
    ∀ (n : Nat) (j : Json), sizeOf j ≤ n → nfB j = true → ndB j = true →
      canonicalize (canonicalize j) = canonicalize j := by
  intro n
  induction n with
  | zero =>
    intro j hs _ _
    have := one_le_sizeOf j
    omega
  | succ n ih =>
    intro j hs hnf hnd
    cases j with
    | null => rw [canon_null, canon_null]
    | bool b => rw [canon_bool, canon_bool]
    | int k => rw [canon_int, canon_int]
    | str s => rw [canon_str, canon_str]
    | arr xs =>
      have hsz : sizeOf (Json.arr xs) = 1 + sizeOf xs := by simp
      simp only [nfB] at hnf
      simp only [ndB] at hnd
      rw [canon_arr, canon_arr, List.map_map]
      refine congrArg Json.arr (List.map_congr_left (fun x hx => ?_))
      simp only [Function.comp_apply]
      have hlt := sizeOf_mem_lt hx
      exact ih x (by omega) (nfListB_iff.1 hnf x hx) (ndListB_iff.1 hnd x hx)
    | obj kvs =>
      have hszObj : sizeOf (Json.obj kvs) = 1 + sizeOf kvs := by simp
      simp only [nfB] at hnf
      simp only [ndB, Bool.and_eq_true] at hnd
      have hndKeys : (keysOf kvs).Nodup := of_decide_eq_true hnd.1
      have hndVals := ndKvsB_iff.1 hnd.2
      have hnfk := nfKvsB_iff.1 hnf
      have hIH : ∀ kv ∈ kvs, canonicalize (canonicalize kv.2) = canonicalize kv.2 := by
        intro kv hkv
        have hlt := sizeOf_snd_lt hkv
        exact ih kv.2 (by omega) (hnfk kv hkv).2 (hndVals kv hkv)
      by_cases c1 : (hasKey kvs "module" && hasKey kvs "functions") = true
      · rw [canon_obj_module c1]
        rw [canon_obj_module (by simp only [hasKey_canonValues]; exact c1)]
        exact congrArg Json.obj (core_idem MODULE_KEY_ORDER kvs (by decide) hndKeys hIH)
      · have c1f : (hasKey kvs "module" && hasKey kvs "functions") = false :=
          Bool.eq_false_iff.mpr c1
        by_cases c2 : (hasKey kvs "name" && hasKey kvs "params" && hasKey kvs "effects" &&
            hasKey kvs "body") = true
        · rw [canon_obj_function c1f c2]
          rw [filter_not_isNull_eq_self
            (fun kv hkv => (hnfk kv (mem_orderedDict hkv)).1)]
          rw [canon_obj_function (by simp only [hasKey_canonValues]; exact c1f)
            (by simp only [hasKey_canonValues]; exact c2)]
          rw [filter_orderedDict_canonValues FUNCTION_KEY_ORDER FUNCTION_KEY_ORDER _
            (fun kv hkv => (hnfk kv (mem_orderedDict hkv)).1)]
          exact congrArg Json.obj
            (core_idem FUNCTION_KEY_ORDER kvs (by decide) hndKeys hIH)
        · have c2f : (hasKey kvs "name" && hasKey kvs "params" && hasKey kvs "effects" &&
              hasKey kvs "body") = false := Bool.eq_false_iff.mpr c2
          by_cases c3 : (hasKey kvs "fn" && hasKey kvs "args" && hasKey kvs "expect" &&
              !(hasKey kvs "strategy")) = true
          · rw [canon_obj_test c1f c2f c3]
            rw [filter_not_isNull_eq_self
              (fun kv hkv => (hnfk kv (mem_orderedDict hkv)).1)]
            rw [canon_obj_test (by simp only [hasKey_canonValues]; exact c1f)
              (by simp only [hasKey_canonValues]; exact c2f)
              (by simp only [hasKey_canonValues]; exact c3)]
            rw [filter_orderedDict_canonValues TEST_KEY_ORDER TEST_KEY_ORDER _
              (fun kv hkv => (hnfk kv (mem_orderedDict hkv)).1)]
            exact congrArg Json.obj
              (core_idem TEST_KEY_ORDER kvs (by decide) hndKeys hIH)
          · have c3f : (hasKey kvs "fn" && hasKey kvs "args" && hasKey kvs "expect" &&
                !(hasKey kvs "strategy")) = false := Bool.eq_false_iff.mpr c3
            by_cases c4 : (hasKey kvs "fn" && hasKey kvs "strategy" &&
                hasKey kvs "expect") = true
            · rw [canon_obj_property c1f c2f c3f c4]
              rw [filter_not_isNull_eq_self
                (fun kv hkv => (hnfk kv (mem_orderedDict hkv)).1)]
              rw [canon_obj_property (by simp only [hasKey_canonValues]; exact c1f)
                (by simp only [hasKey_canonValues]; exact c2f)
                (by simp only [hasKey_canonValues]; exact c3f)
                (by simp only [hasKey_canonValues]; exact c4)]
              rw [filter_orderedDict_canonValues PROPERTY_KEY_ORDER PROPERTY_KEY_ORDER _
                (fun kv hkv => (hnfk kv (mem_orderedDict hkv)).1)]
              exact congrArg Json.obj
                (core_idem PROPERTY_KEY_ORDER kvs (by decide) hndKeys hIH)
            · have c4f : (hasKey kvs "fn" && hasKey kvs "strategy" &&
                  hasKey kvs "expect") = false := Bool.eq_false_iff.mpr c4
              cases kvs with
              | nil =>
                rw [canon_obj_fallback_big c1f c2f c3f c4f (fun t v h => by cases h)]
                rw [show mapValues canonicalize (orderedDict [] []) = [] from rfl]
                rw [canon_obj_fallback_big c1f c2f c3f c4f (fun t v h => by cases h)]
                rw [show mapValues canonicalize (orderedDict [] []) = [] from rfl]
              | cons kv rest =>
                cases rest with
                | cons kv2 rest2 =>
                  have hshape : ∀ t v, ¬ (kv :: kv2 :: rest2) = [(t, v)] := by
                    intro t v h
                    simp at h
                  rw [canon_obj_fallback_big c1f c2f c3f c4f hshape]
                  have hlen : (mapValues canonicalize
                      (orderedDict (kv :: kv2 :: rest2) [])).length =
                      (kv :: kv2 :: rest2).length := by
                    rw [mapValues, List.length_map, length_orderedDict_nil]
                  rw [canon_obj_fallback_big
                    (by simp only [hasKey_canonValues]; exact c1f)
                    (by simp only [hasKey_canonValues]; exact c2f)
                    (by simp only [hasKey_canonValues]; exact c3f)
                    (by simp only [hasKey_canonValues]; exact c4f)
                    (by
                      intro t v h
                      rw [h] at hlen
                      simp at hlen)]
                  exact congrArg Json.obj (core_idem [] _ (by decide) hndKeys hIH)
                | nil =>
                  obtain ⟨tag, val⟩ := kv
                  have hmem0 : (tag, val) ∈ [(tag, val)] := List.mem_cons_self ..
                  have hIHval : canonicalize (canonicalize val) = canonicalize val :=
                    hIH (tag, val) hmem0
                  by_cases hstmt : STMT_TAGS.contains tag = true
                  · by_cases hvd : ∃ i, val = .obj i
                    · obtain ⟨inner, hveq⟩ := hvd
                      subst hveq
                      have hnfInner := nfKvsB_iff.1 (by
                        have := (hnfk (tag, Json.obj inner) hmem0).2
                        simpa [nfB] using this)
                      have hndInner := (by
                        have := hndVals (tag, Json.obj inner) hmem0
                        simp only [ndB, Bool.and_eq_true] at this
                        exact this : decide (keysOf inner).Nodup = true ∧
                          ndKvsB inner = true)
                      have hndInnerKeys : (keysOf inner).Nodup :=
                        of_decide_eq_true hndInner.1
                      have hndInnerVals := ndKvsB_iff.1 hndInner.2
                      have hIHinner : ∀ kv ∈ inner,
                          canonicalize (canonicalize kv.2) = canonicalize kv.2 := by
                        intro kv hkv
                        have h1 := sizeOf_snd_lt hkv
                        have h2 : sizeOf (Json.obj inner) <
                          sizeOf [(tag, Json.obj inner)] := sizeOf_snd_lt hmem0
                        have h3 : sizeOf (Json.obj inner) = 1 + sizeOf inner := by simp
                        have h6 : sizeOf (Json.obj [(tag, Json.obj inner)]) =
                          1 + sizeOf [(tag, Json.obj inner)] := by simp
                        exact ih kv.2 (by omega) (hnfInner kv hkv).2
                          (hndInnerVals kv hkv)
                      by_cases t1 : tag = "if"
                      · subst t1
                        rw [canon_obj_if_dict inner]
                        rw [filter_not_isNull_eq_self
                          (fun kv hkv => (hnfInner kv (mem_orderedDict hkv)).1)]
                        rw [canon_obj_if_dict
                          (mapValues canonicalize (orderedDict inner IF_KEY_ORDER))]
                        rw [filter_orderedDict_canonValues IF_KEY_ORDER IF_KEY_ORDER _
                          (fun kv hkv => (hnfInner kv (mem_orderedDict hkv)).1)]
                        exact congrArg (fun l => Json.obj [("if", Json.obj l)])
                          (core_idem IF_KEY_ORDER inner (by decide) hndInnerKeys hIHinner)
                      · by_cases t2 : tag = "let"
                        · subst t2
                          rw [canon_obj_let_dict inner]
                          rw [filter_not_isNull_eq_self
                            (fun kv hkv => (hnfInner kv (mem_orderedDict hkv)).1)]
                          rw [canon_obj_let_dict
                            (mapValues canonicalize (orderedDict inner LET_KEY_ORDER))]
                          rw [filter_orderedDict_canonValues LET_KEY_ORDER LET_KEY_ORDER _
                            (fun kv hkv => (hnfInner kv (mem_orderedDict hkv)).1)]
                          exact congrArg (fun l => Json.obj [("let", Json.obj l)])
                            (core_idem LET_KEY_ORDER inner (by decide) hndInnerKeys
                              hIHinner)
                        · by_cases t3 : tag = "assert"
                          · subst t3
                            rw [canon_obj_assert_dict inner]
                            rw [filter_not_isNull_eq_self
                              (fun kv hkv => (hnfInner kv (mem_orderedDict hkv)).1)]
                            rw [canon_obj_assert_dict
                              (mapValues canonicalize
                                (orderedDict inner ASSERT_KEY_ORDER))]
                            rw [filter_orderedDict_canonValues ASSERT_KEY_ORDER
                              ASSERT_KEY_ORDER _
                              (fun kv hkv => (hnfInner kv (mem_orderedDict hkv)).1)]
                            exact congrArg (fun l => Json.obj [("assert", Json.obj l)])
                              (core_idem ASSERT_KEY_ORDER inner (by decide)
                                hndInnerKeys hIHinner)
                          · rw [canon_obj_stmt_plain tag _ hstmt t1 t2 t3]
                            rw [canon_obj_stmt_plain tag _ hstmt t1 t2 t3]
                            rw [hIHval]
                    · have hv : ∀ i, ¬ val = .obj i := fun i h => hvd ⟨i, h⟩
                      rw [canon_obj_stmt_nondict tag val hstmt hv]
                      rw [canon_obj_stmt_nondict tag _ hstmt (canon_nondict hv)]
                      rw [hIHval]
                  · have hstmtf : STMT_TAGS.contains tag = false :=
                      Bool.eq_false_iff.mpr hstmt
                    by_cases hexpr : EXPR_TAGS.contains tag = true
                    · by_cases hvd : ∃ i, val = .obj i
                      · obtain ⟨inner, hveq⟩ := hvd
                        subst hveq
                        have hnfInner := nfKvsB_iff.1 (by
                          have := (hnfk (tag, Json.obj inner) hmem0).2
                          simpa [nfB] using this)
                        have hndInner := (by
                          have := hndVals (tag, Json.obj inner) hmem0
                          simp only [ndB, Bool.and_eq_true] at this
                          exact this : decide (keysOf inner).Nodup = true ∧
                            ndKvsB inner = true)
                        have hndInnerKeys : (keysOf inner).Nodup :=
                          of_decide_eq_true hndInner.1
                        have hndInnerVals := ndKvsB_iff.1 hndInner.2
                        have hIHinner : ∀ kv ∈ inner,
                            canonicalize (canonicalize kv.2) = canonicalize kv.2 := by
                          intro kv hkv
                          have h1 := sizeOf_snd_lt hkv
                          have h2 : sizeOf (Json.obj inner) <
                            sizeOf [(tag, Json.obj inner)] := sizeOf_snd_lt hmem0
                          have h3 : sizeOf (Json.obj inner) = 1 + sizeOf inner := by simp
                          have h6 : sizeOf (Json.obj [(tag, Json.obj inner)]) =
                            1 + sizeOf [(tag, Json.obj inner)] := by simp
                          exact ih kv.2 (by omega) (hnfInner kv hkv).2
                            (hndInnerVals kv hkv)
                        by_cases t1 : tag = "call"
                        · subst t1
                          rw [canon_obj_call_dict inner]
                          rw [filter_not_isNull_eq_self
                            (fun kv hkv => (hnfInner kv (mem_orderedDict hkv)).1)]
                          rw [canon_obj_call_dict
                            (mapValues canonicalize (orderedDict inner CALL_KEY_ORDER))]
                          rw [filter_orderedDict_canonValues CALL_KEY_ORDER
                            CALL_KEY_ORDER _
                            (fun kv hkv => (hnfInner kv (mem_orderedDict hkv)).1)]
                          exact congrArg (fun l => Json.obj [("call", Json.obj l)])
                            (core_idem CALL_KEY_ORDER inner (by decide) hndInnerKeys
                              hIHinner)
                        · by_cases t2 : tag = "obj"
                          · subst t2
                            rw [canon_obj_objtag_dict inner]
                            rw [canon_obj_objtag_dict
                              (mapValues canonicalize (sortedSel inner))]
                            exact congrArg (fun l => Json.obj [("obj", Json.obj l)])
                              (core_idem_sorted inner hndInnerKeys hIHinner)
                          · rw [canon_obj_expr_plain tag _ hstmtf hexpr t1 t2]
                            rw [canon_obj_expr_plain tag _ hstmtf hexpr t1 t2]
                            rw [hIHval]
                      · have hv : ∀ i, ¬ val = .obj i := fun i h => hvd ⟨i, h⟩
                        rw [canon_obj_expr_nondict tag val hstmtf hexpr hv]
                        rw [canon_obj_expr_nondict tag _ hstmtf hexpr (canon_nondict hv)]
                        rw [hIHval]
                    · have hexprf : EXPR_TAGS.contains tag = false :=
                        Bool.eq_false_iff.mpr hexpr
                      rw [canon_obj_fallback_single tag val hstmtf hexprf]
                      rw [orderedDict_single_nil]
                      rw [show mapValues canonicalize [(tag, val)] =
                        [(tag, canonicalize val)] from rfl]
                      rw [canon_obj_fallback_single tag _ hstmtf hexprf]
                      rw [orderedDict_single_nil]
                      rw [show mapValues canonicalize [(tag, canonicalize val)] =
                        [(tag, canonicalize (canonicalize val))] from rfl]
                      rw [hIHval]

end Fmt

namespace Fmt

open Json

/-- The JSON value refuting claim C1: a dict that matches the function
heuristic of `fmt.canonicalize` (keys name/params/effects/body) but whose
`effects` member is null.  The first pass drops the null member, so the
second pass no longer matches the function heuristic and orders the keys
alphabetically instead. -/
def cexC1 : Json :=
  .obj [("name", .str "f"), ("params", .arr []), ("effects", .null), ("body", .arr [])]

theorem canonicalize_cexC1 :
    canonicalize cexC1 =
      .obj [("name", .str "f"), ("params", .arr []), ("body", .arr [])] := by
  rw [cexC1]
  rw [canon_obj_function (by decide) (by decide)]
  rw [show (orderedDict
      [("name", Json.str "f"), ("params", Json.arr []), ("effects", Json.null),
        ("body", Json.arr [])] FUNCTION_KEY_ORDER).filter (fun kv => !(isNull kv.2)) =
    [("name", Json.str "f"), ("params", Json.arr []), ("body", Json.arr [])] from
    by decide]
  rw [show mapValues canonicalize
      [("name", Json.str "f"), ("params", Json.arr []), ("body", Json.arr [])] =
    [("name", canonicalize (Json.str "f")), ("params", canonicalize (Json.arr [])),
      ("body", canonicalize (Json.arr []))] from rfl]
  rw [canon_str, canon_arr]
  rfl

theorem canonicalize_canonicalize_cexC1 :
    canonicalize (canonicalize cexC1) =
      .obj [("body", .arr []), ("name", .str "f"), ("params", .arr [])] := by
  rw [canonicalize_cexC1]
  rw [canon_obj_fallback_big (by decide) (by decide) (by decide) (by decide)
    (by intro t v h; simp at h)]
  rw [show orderedDict
      [("name", Json.str "f"), ("params", Json.arr []), ("body", Json.arr [])] [] =
    [("body", Json.arr []), ("name", Json.str "f"), ("params", Json.arr [])] from
    by decide]
  rw [show mapValues canonicalize
      [("body", Json.arr []), ("name", Json.str "f"), ("params", Json.arr [])] =
    [("body", canonicalize (Json.arr [])), ("name", canonicalize (Json.str "f")),
      ("params", canonicalize (Json.arr []))] from rfl]
  rw [canon_str, canon_arr]
  rfl

end Fmt

/-- C1 counterexample.  The claim asserts canonicalisation is idempotent for
every JSON value, byte-for-byte.  It fails on
`{"name": "f", "params": [], "effects": null, "body": []}`: the first pass
orders the keys as name, params, body (dropping the null `effects`), while
the second pass no longer sees the `effects` key, misses the function
heuristic, and emits body, name, params.  Both the value trees (whose
member order fixes the serialised bytes) and the `dumps_canonical` outputs
differ; `canon(canon(M))` is `dumps_canonical` of `canonicalize M` because
parsing the canonical text returns exactly the canonicalised tree. -/
theorem C1_counterexample :
    Fmt.canonicalize (Fmt.canonicalize Fmt.cexC1) ≠ Fmt.canonicalize Fmt.cexC1 ∧
    Fmt.dumps_canonical (Fmt.canonicalize Fmt.cexC1) ≠ Fmt.dumps_canonical Fmt.cexC1 := by
  constructor
  · rw [Fmt.canonicalize_canonicalize_cexC1, Fmt.canonicalize_cexC1]
    decide
  · rw [Fmt.dumps_canonical, Fmt.dumps_canonical,
      Fmt.canonicalize_canonicalize_cexC1, Fmt.canonicalize_cexC1]
    decide

/-- C1 (amended): canonicalisation is idempotent — byte-for-byte equality of
the canonical serialisation included — for every JSON value whose objects
have pairwise-distinct keys (as Python dicts guarantee) and map no key to
null.  The null restriction is forced by the counterexample: the heuristic
branches of `fmt.canonicalize` drop null-valued members, which can change
which ordering branch the second pass takes. -/
theorem C1_canonicalize_idempotent_nullfree (j : Json)
    (hnf : Fmt.nfB j = true) (hnd : Fmt.ndB j = true) :
    Fmt.canonicalize (Fmt.canonicalize j) = Fmt.canonicalize j ∧
    Fmt.dumps_canonical (Fmt.canonicalize j) = Fmt.dumps_canonical j := by
  have h := Fmt.canonicalize_idem_bounded (sizeOf j) j le_rfl hnf hnd
  refine ⟨h, ?_⟩
  rw [Fmt.dumps_canonical, Fmt.dumps_canonical, h]

/-- C1 witness: the amended idempotence theorem applied to a concrete
module value. -/
theorem C1_witness :
    Fmt.nfB (Json.obj [("module", .str "m"), ("functions", .arr []),
      ("version", .str "1.0")]) = true ∧
    Fmt.ndB (Json.obj [("module", .str "m"), ("functions", .arr []),
      ("version", .str "1.0")]) = true ∧
    (Fmt.canonicalize (Fmt.canonicalize (Json.obj [("module", .str "m"),
        ("functions", .arr []), ("version", .str "1.0")])) =
      Fmt.canonicalize (Json.obj [("module", .str "m"), ("functions", .arr []),
        ("version", .str "1.0")]) ∧
    Fmt.dumps_canonical (Fmt.canonicalize (Json.obj [("module", .str "m"),
        ("functions", .arr []), ("version", .str "1.0")])) =
      Fmt.dumps_canonical (Json.obj [("module", .str "m"), ("functions", .arr []),
        ("version", .str "1.0")])) :=
  ⟨by decide, by decide,
    C1_canonicalize_idempotent_nullfree _ (by decide) (by decide)⟩

/-! ## `src/astra/tools/pointer.py` — JSON Pointer and JSON Patch subset

Python strings are sequences of code points, modelled as `String`
(operations work on the underlying `List Char`).  Exceptions
(`PatchError`, `KeyError`, `IndexError`, `ValueError`) are modelled by the
error type `PErr` of an `Except` monad.  The in-place mutation of the
resolved parent container is modelled functionally: the document is
rebuilt along the resolved path with the mutated parent (`updateAt`),
which is what the Python aliasing achieves. -/

namespace Pointer

open Json

inductive PErr where
  | patchError (msg : String)
  | keyError (msg : String)
  | indexError
  | valueError (msg : String)
deriving DecidableEq, Repr

/-- Left-to-right scan replacing the two-character sequence `p1 p2` by `r`
(Python str.replace with a two-character pattern).  The `Option Char`
state holds a just-seen `p1` that may start a match. -/
def replacePairGo (p1 p2 r : Char) : Option Char → List Char → List Char
  | none, [] => []
  | some c, [] => [c]
  | none, c :: rest =>
    if c = p1 then replacePairGo p1 p2 r (some c) rest
    else c :: replacePairGo p1 p2 r none rest
  | some cprev, c :: rest =>
    if c = p2 then r :: replacePairGo p1 p2 r none rest
    else
      if c = p1 then cprev :: replacePairGo p1 p2 r (some c) rest
      else cprev :: c :: replacePairGo p1 p2 r none rest

/-- Replace every occurrence of the two-character sequence `p1 p2` by `r`. -/
def replacePair (p1 p2 r : Char) (l : List Char) : List Char :=
  replacePairGo p1 p2 r none l

/-- Replace every occurrence of character `p` by the sequence `r`
(Python str.replace with a one-character pattern). -/
def replaceChar (p : Char) (r : List Char) : List Char → List Char
  | [] => []
  | c :: rest => (if c = p then r else [c]) ++ replaceChar p r rest

/-- `pointer.escape_segment`: `~` → `~0` then `/` → `~1`. -/
def escape_segment (seg : List Char) : List Char :=
  replaceChar '/' ['~', '1'] (replaceChar '~' ['~', '0'] seg)

/-- `pointer.unescape_segment`: `~1` → `/` then `~0` → `~`. -/
def unescape_segment (seg : List Char) : List Char :=
  replacePair '~' '0' '~' (replacePair '~' '1' '/' seg)

/-- Python str.lstrip("/"). -/
def lstripSlash : List Char → List Char
  | [] => []
  | c :: rest => if c = '/' then lstripSlash rest else c :: rest

/-- Python str.split("/") (empty segments preserved). -/
def splitOnSlashAux (cur : List Char) : List Char → List (List Char)
  | [] => [cur.reverse]
  | c :: rest =>
    if c = '/' then cur.reverse :: splitOnSlashAux [] rest
    else splitOnSlashAux (c :: cur) rest

/-- `pointer.split_pointer`. -/
def split_pointer (pointer : String) : Except PErr (List String) :=
  if pointer = "" ∨ pointer = "/" then .ok []
  else
    match pointer.data with
    | '/' :: _ =>
      .ok ((splitOnSlashAux [] (lstripSlash pointer.data)).map
        (fun cs => String.mk (unescape_segment cs)))
    | _ => .error (.valueError "Invalid JSON pointer (must start with /)")

/-- `pointer.join_pointer` (segments here are already strings). -/
def join_pointer (segments : List String) : String :=
  if segments = [] then ""
  else String.mk ('/' :: List.intercalate ['/']
    (segments.map (fun s => escape_segment s.data)))

/-- Python str.isdigit restricted to ASCII digits (the segments produced
by the repair tools are ASCII). -/
def isDigitSeg (s : List Char) : Bool :=
  !(s.isEmpty) && s.all (fun c => c.isDigit)

/-- Python int() on a digit string. -/
def segToNat (s : List Char) : Nat :=
  s.foldl (fun acc c => acc * 10 + (c.toNat - 48)) 0

/-- `pointer._coerce_index`: interpret the segment as an int index only if
the current container is a list. -/
def coerce_index (seg : String) (cur : Json) : String ⊕ Nat :=
  match cur with
  | .arr _ =>
    if seg ≠ "-" ∧ isDigitSeg seg.data then .inr (segToNat seg.data) else .inl seg
  | _ => .inl seg

/-- The traversal loop of `pointer.resolve`, after the pointer has been
split into segments. -/
def resolveSegs : Json → List String → Except PErr Json
  | cur, [] => .ok cur
  | cur, raw :: rest =>
    match cur with
    | .arr xs =>
      match coerce_index raw (.arr xs) with
      | .inl s =>
        if s = "-" then .error (.keyError "- is not valid for resolve")
        else .error (.keyError "Expected list index")
      | .inr i =>
        if h : i < xs.length then resolveSegs (xs.get ⟨i, h⟩) rest
        else .error .indexError
    | .obj kvs =>
      match coerce_index raw (.obj kvs) with
      | .inr _ => .error (.keyError "Expected object key")
      | .inl s =>
        match lookup kvs s with
        | some v => resolveSegs v rest
        | none => .error (.keyError "key not found")
    | _ => .error (.keyError "Cannot traverse into non-container")

/-- `pointer.resolve`. -/
def resolve (doc : Json) (pointer : String) : Except PErr Json := do
  let segs ← split_pointer pointer
  resolveSegs doc segs

/-- Python dict assignment `d[k] = v`: overwrite in place, else append. -/
def assocSet : List (String × Json) → String → Json → List (String × Json)
  | [], k, v => [(k, v)]
  | (k1, v1) :: rest, k, v =>
    if k1 = k then (k1, v) :: rest else (k1, v1) :: assocSet rest k v

/-- Python dict.pop(k, None): drop the key if present. -/
def eraseKey : List (String × Json) → String → List (String × Json)
  | [], _ => []
  | (k1, v1) :: rest, k =>
    if k1 = k then rest else (k1, v1) :: eraseKey rest k

/-- Python list.insert(i, v) for a non-negative index: insert before
position i, clamping to the list length (an out-of-range index appends). -/
def pyInsert (xs : List Json) (i : Nat) (v : Json) : List Json :=
  xs.take i ++ [v] ++ xs.drop i

/-- Navigate to the node at `segs` exactly as `resolve` does and replace it
by the result of the mutator `f`; models the in-place mutation of the
resolved parent performed by `apply_patch`. -/
def updateAt : Json → List String → (Json → Except PErr Json) → Except PErr Json
  | cur, [], f => f cur
  | cur, raw :: rest, f =>
    match cur with
    | .arr xs =>
      match coerce_index raw (.arr xs) with
      | .inl s =>
        if s = "-" then .error (.keyError "- is not valid for resolve")
        else .error (.keyError "Expected list index")
      | .inr i =>
        if h : i < xs.length then
          (updateAt (xs.get ⟨i, h⟩) rest f).map (fun v2 => .arr (xs.set i v2))
        else .error .indexError
    | .obj kvs =>
      match coerce_index raw (.obj kvs) with
      | .inr _ => .error (.keyError "Expected object key")
      | .inl s =>
        match lookup kvs s with
        | some v => (updateAt v rest f).map (fun v2 => .obj (assocSet kvs s v2))
        | none => .error (.keyError "key not found")
    | _ => .error (.keyError "Cannot traverse into non-container")

/-- The list/dict mutation performed by `apply_patch` for a remove
operation, applied to the resolved parent container. -/
def mutate_remove (lastRaw : String) (parent : Json) : Except PErr Json :=
  match parent with
  | .arr xs =>
    match coerce_index lastRaw (.arr xs) with
    | .inl _ => .error (.patchError "Invalid list index for remove")
    | .inr i =>
      if i < xs.length then .ok (.arr (xs.eraseIdx i))
      else .error .indexError
  | .obj kvs =>
    match coerce_index lastRaw (.obj kvs) with
    | .inr _ => .error (.patchError "Invalid object key for remove")
    | .inl s => .ok (.obj (eraseKey kvs s))
  | _ => .error (.patchError "Parent is not container")

/-- The list/dict mutation performed by `apply_patch` for add/replace,
applied to the resolved parent container (`-` appends; add inserts via
list.insert, replace assigns). -/
def mutate_addrep (kind : String) (lastRaw : String) (value : Json) (parent : Json) :
    Except PErr Json :=
  match parent with
  | .arr xs =>
    match coerce_index lastRaw (.arr xs) with
    | .inl s =>
      if s = "-" then .ok (.arr (xs ++ [value]))
      else .error (.patchError "Invalid list index")
    | .inr i =>
      if kind = "add" then .ok (.arr (pyInsert xs i value))
      else
        if i < xs.length then .ok (.arr (xs.set i value))
        else .error .indexError
  | .obj kvs =>
    match coerce_index lastRaw (.obj kvs) with
    | .inr _ => .error (.patchError "Invalid object key")
    | .inl s => .ok (.obj (assocSet kvs s value))
  | _ => .error (.patchError "Parent is not container")

/-- The remove block of the `apply_patch` loop body
(`_resolve_parent` followed by the in-place pop). -/
def apply_remove (doc : Json) (path : String) : Except PErr Json := do
  let segs ← split_pointer path
  if hne : segs = [] then
    .error (.valueError "Pointer refers to document root; no parent")
  else do
    let psegs ← split_pointer (join_pointer segs.dropLast)
    updateAt doc psegs (mutate_remove (segs.getLast hne))

/-- The add/replace block of the `apply_patch` loop body after the root
check (`_resolve_parent` followed by the in-place insert/assign). -/
def apply_addrep (doc : Json) (kind : String) (path : String) (value : Json) :
    Except PErr Json := do
  let segs ← split_pointer path
  if hne : segs = [] then
    .error (.valueError "Pointer refers to document root; no parent")
  else do
    let psegs ← split_pointer (join_pointer segs.dropLast)
    updateAt doc psegs (mutate_addrep kind (segs.getLast hne) value)

/-- One operation of `pointer.apply_patch` (the loop body). -/
def apply_one (doc : Json) (op : Json) : Except PErr Json :=
  match op with
  | .obj okvs =>
    match lookup okvs "op" with
    | some (.str kind) =>
      if kind = "add" ∨ kind = "replace" ∨ kind = "remove" then
        match lookup okvs "path" with
        | some (.str path) =>
          if kind = "remove" then apply_remove doc path
          else
            if !(hasKey okvs "value") then
              .error (.patchError "Patch op missing value")
            else
              let value := (lookup okvs "value").getD .null
              if path = "" ∨ path = "/" then .ok value
              else apply_addrep doc kind path value
        | _ => .error (.patchError "Patch op missing string path")
      else .error (.patchError "Unsupported patch op")
    | _ => .error (.patchError "Unsupported patch op")
  | _ => .error (.patchError "Patch operation must be an object")

/-- `pointer.apply_patch`: left-to-right application of the operations. -/
def apply_patch (doc : Json) (patch : List Json) : Except PErr Json :=
  match patch with
  | [] => .ok doc
  | op :: rest => do
    let d ← apply_one doc op
    apply_patch d rest

end Pointer

namespace Pointer

open Json

theorem lookup_assocSet_self (kvs : List (String × Json)) (k : String) (v : Json) :
    lookup (assocSet kvs k v) k = some v := by
  induction kvs with
  | nil => rw [assocSet, lookup, if_pos rfl]
  | cons kv rest ih =>
    obtain ⟨k1, v1⟩ := kv
    rw [assocSet]
    by_cases h : k1 = k
    · rw [if_pos h, lookup, if_pos h]
    · rw [if_neg h, lookup, if_neg h]
      exact ih

theorem updateAt_error {doc : Json} {segs : List String} {p : Json}
    (h : resolveSegs doc segs = .ok p) {f : Json → Except PErr Json} {e : PErr}
    (hf : f p = .error e) : updateAt doc segs f = .error e := by
  induction segs generalizing doc with
  | nil =>
    rw [resolveSegs] at h
    cases h
    rw [updateAt]
    exact hf
  | cons raw rest ih =>
    cases doc with
    | arr xs =>
      rw [resolveSegs] at h
      rw [updateAt]
      cases hc : coerce_index raw (Json.arr xs) with
      | inl s =>
        try rw [hc] at h
        try rw [hc]
        try dsimp only at h
        try dsimp only
        by_cases hs : s = "-"
        · rw [if_pos hs] at h; cases h
        · rw [if_neg hs] at h; cases h
      | inr i =>
        try rw [hc] at h
        try rw [hc]
        try dsimp only at h
        try dsimp only
        by_cases hi : i < xs.length
        · rw [dif_pos hi] at h
          rw [dif_pos hi, ih h]
          rfl
        · rw [dif_neg hi] at h; cases h
    | obj kvs =>
      rw [resolveSegs] at h
      rw [updateAt]
      cases hc : coerce_index raw (Json.obj kvs) with
      | inr i =>
        try rw [hc] at h
        try dsimp only at h
        cases h
      | inl s =>
        try rw [hc] at h
        try rw [hc]
        try dsimp only at h
        try dsimp only
        cases hl : lookup kvs s with
        | none => rw [hl] at h; cases h
        | some v =>
          try rw [hl] at h
          try dsimp only at h
          try dsimp only
          rw [ih h]
          rfl
    | null => simp only [resolveSegs] at h; exact Except.noConfusion h
    | bool b => simp only [resolveSegs] at h; exact Except.noConfusion h
    | int n => simp only [resolveSegs] at h; exact Except.noConfusion h
    | str s => simp only [resolveSegs] at h; exact Except.noConfusion h

theorem updateAt_ok {doc : Json} {segs : List String} {p : Json}
    (h : resolveSegs doc segs = .ok p) {f : Json → Except PErr Json} {q : Json}
    (hf : f p = .ok q) :
    ∃ d2, updateAt doc segs f = .ok d2 ∧ resolveSegs d2 segs = .ok q := by
  induction segs generalizing doc with
  | nil =>
    rw [resolveSegs] at h
    cases h
    refine ⟨q, ?_, ?_⟩
    · rw [updateAt]; exact hf
    · rw [resolveSegs]
  | cons raw rest ih =>
    cases doc with
    | arr xs =>
      rw [resolveSegs] at h
      cases hc : coerce_index raw (Json.arr xs) with
      | inl s =>
        try rw [hc] at h
        try dsimp only at h
        by_cases hs : s = "-"
        · rw [if_pos hs] at h; cases h
        · rw [if_neg hs] at h; cases h
      | inr i =>
        try rw [hc] at h
        try dsimp only at h
        by_cases hi : i < xs.length
        · rw [dif_pos hi] at h
          obtain ⟨d2, hd1, hd2⟩ := ih h
          refine ⟨.arr (xs.set i d2), ?_, ?_⟩
          · rw [updateAt, hc]
            dsimp only
            rw [dif_pos hi, hd1]
            rfl
          · have hc2 : coerce_index raw (Json.arr (xs.set i d2)) = .inr i := hc
            have hlen : i < (xs.set i d2).length := by
              rw [List.length_set]
              exact hi
            rw [resolveSegs, hc2]
            dsimp only
            rw [dif_pos hlen]
            rw [show (xs.set i d2).get ⟨i, hlen⟩ = d2 from by
              rw [List.get_eq_getElem, List.getElem_set_self]]
            exact hd2
        · rw [dif_neg hi] at h; cases h
    | obj kvs =>
      rw [resolveSegs] at h
      cases hc : coerce_index raw (Json.obj kvs) with
      | inr i =>
        try rw [hc] at h
        try dsimp only at h
        cases h
      | inl s =>
        try rw [hc] at h
        try dsimp only at h
        cases hl : lookup kvs s with
        | none => rw [hl] at h; cases h
        | some v =>
          rw [hl] at h
          obtain ⟨d2, hd1, hd2⟩ := ih h
          refine ⟨.obj (assocSet kvs s d2), ?_, ?_⟩
          · rw [updateAt, hc]
            dsimp only
            rw [hl]
            dsimp only
            rw [hd1]
            rfl
          · have hc2 : coerce_index raw (Json.obj (assocSet kvs s d2)) = .inl s := hc
            rw [resolveSegs, hc2]
            dsimp only
            rw [lookup_assocSet_self]
            exact hd2
    | null => simp only [resolveSegs] at h; exact Except.noConfusion h
    | bool b => simp only [resolveSegs] at h; exact Except.noConfusion h
    | int n => simp only [resolveSegs] at h; exact Except.noConfusion h
    | str s => simp only [resolveSegs] at h; exact Except.noConfusion h

end Pointer

namespace Pointer

/-- A well-formed `remove` patch operation object. -/
def removeOpJ (path : String) : Json :=
  .obj [("op", .str "remove"), ("path", .str path)]

/-- A well-formed `add` patch operation object. -/
def addOpJ (path : String) (v : Json) : Json :=
  .obj [("op", .str "add"), ("path", .str path), ("value", v)]

/-- A well-formed `replace` patch operation object. -/
def replaceOpJ (path : String) (v : Json) : Json :=
  .obj [("op", .str "replace"), ("path", .str path), ("value", v)]

theorem coerce_index_digit (s : String) (xs : List Json)
    (hdig : isDigitSeg s.data = true) :
    coerce_index s (.arr xs) = .inr (segToNat s.data) := by
  have hne : s ≠ "-" := by
    intro he
    subst he
    exact absurd hdig (by decide)
  show (if s ≠ "-" ∧ isDigitSeg s.data then Sum.inr (segToNat s.data)
        else Sum.inl s) = Sum.inr (segToNat s.data)
  rw [if_pos ⟨hne, hdig⟩]

theorem pyInsert_ge (xs : List Json) (i : Nat) (v : Json) (h : xs.length ≤ i) :
    pyInsert xs i v = xs ++ [v] := by
  unfold pyInsert
  rw [List.take_of_length_le h, List.drop_eq_nil_of_le h]
  simp

theorem mutate_addrep_replace_oob (s : String) (v : Json) (l : List Json)
    (hdig : isDigitSeg s.data = true) (hge : l.length ≤ segToNat s.data) :
    mutate_addrep "replace" s v (.arr l) = .error .indexError := by
  rw [mutate_addrep.eq_def]
  dsimp only
  rw [coerce_index_digit s l hdig]
  dsimp only
  rw [if_neg (by decide : ¬ ("replace" : String) = "add")]
  rw [if_neg (Nat.not_lt.mpr hge)]

theorem mutate_remove_oob (s : String) (l : List Json)
    (hdig : isDigitSeg s.data = true) (hge : l.length ≤ segToNat s.data) :
    mutate_remove s (.arr l) = .error .indexError := by
  rw [mutate_remove.eq_def]
  dsimp only
  rw [coerce_index_digit s l hdig]
  dsimp only
  rw [if_neg (Nat.not_lt.mpr hge)]

theorem mutate_addrep_add_oob (s : String) (v : Json) (l : List Json)
    (hdig : isDigitSeg s.data = true) (hge : l.length ≤ segToNat s.data) :
    mutate_addrep "add" s v (.arr l) = .ok (.arr (l ++ [v])) := by
  rw [mutate_addrep.eq_def]
  dsimp only
  rw [coerce_index_digit s l hdig]
  dsimp only
  rw [if_pos rfl]
  rw [pyInsert_ge l (segToNat s.data) v hge]

theorem apply_addrep_eq (doc : Json) (kind path : String) (v : Json)
    (front : List String) (s : String)
    (hsplit : split_pointer path = .ok (front ++ [s]))
    (hround : split_pointer (join_pointer front) = .ok front) :
    apply_addrep doc kind path v = updateAt doc front (mutate_addrep kind s v) := by
  have hne : ¬ (front ++ [s] = []) := by simp
  rw [apply_addrep, hsplit]
  show (if h2 : front ++ [s] = [] then
          (Except.error (PErr.valueError "Pointer refers to document root; no parent") :
            Except PErr Json)
        else
          Except.bind (split_pointer (join_pointer (front ++ [s]).dropLast))
            (fun psegs =>
              updateAt doc psegs (mutate_addrep kind ((front ++ [s]).getLast h2) v))) =
    updateAt doc front (mutate_addrep kind s v)
  rw [dif_neg hne]
  rw [List.dropLast_concat, hround]
  show updateAt doc front (mutate_addrep kind ((front ++ [s]).getLast hne) v) =
    updateAt doc front (mutate_addrep kind s v)
  rw [List.getLast_concat]

theorem apply_remove_eq (doc : Json) (path : String)
    (front : List String) (s : String)
    (hsplit : split_pointer path = .ok (front ++ [s]))
    (hround : split_pointer (join_pointer front) = .ok front) :
    apply_remove doc path = updateAt doc front (mutate_remove s) := by
  have hne : ¬ (front ++ [s] = []) := by simp
  rw [apply_remove, hsplit]
  show (if h2 : front ++ [s] = [] then
          (Except.error (PErr.valueError "Pointer refers to document root; no parent") :
            Except PErr Json)
        else
          Except.bind (split_pointer (join_pointer (front ++ [s]).dropLast))
            (fun psegs =>
              updateAt doc psegs (mutate_remove ((front ++ [s]).getLast h2)))) =
    updateAt doc front (mutate_remove s)
  rw [dif_neg hne]
  rw [List.dropLast_concat, hround]
  show updateAt doc front (mutate_remove ((front ++ [s]).getLast hne)) =
    updateAt doc front (mutate_remove s)
  rw [List.getLast_concat]

theorem apply_patch_single_error {doc op : Json} {e : PErr}
    (h : apply_one doc op = .error e) :
    apply_patch doc [op] = .error e := by
  show Except.bind (apply_one doc op) (fun d => apply_patch d []) = Except.error e
  rw [h]
  rfl

theorem apply_patch_single_ok {doc op d : Json}
    (h : apply_one doc op = .ok d) :
    apply_patch doc [op] = .ok d := by
  show Except.bind (apply_one doc op) (fun d2 => apply_patch d2 []) = Except.ok d
  rw [h]
  rfl

theorem apply_one_removeOp (doc : Json) (path : String) :
    apply_one doc (removeOpJ path) = apply_remove doc path := rfl

theorem apply_one_addOp (doc : Json) (path : String) (v : Json)
    (h : ¬ (path = "" ∨ path = "/")) :
    apply_one doc (addOpJ path v) = apply_addrep doc "add" path v := by
  show (if path = "" ∨ path = "/" then Except.ok v
        else apply_addrep doc "add" path v) = apply_addrep doc "add" path v
  rw [if_neg h]

theorem apply_one_replaceOp (doc : Json) (path : String) (v : Json)
    (h : ¬ (path = "" ∨ path = "/")) :
    apply_one doc (replaceOpJ path v) = apply_addrep doc "replace" path v := by
  show (if path = "" ∨ path = "/" then Except.ok v
        else apply_addrep doc "replace" path v) = apply_addrep doc "replace" path v
  rw [if_neg h]

end Pointer

open Pointer

/-- C4 counterexample: `apply_patch` does NOT fail on an `add` whose numeric
index (5) is greater than the list length (2): Python `list.insert` clamps
the index, so the operation succeeds and appends the value. -/
theorem C4_counterexample :
    Pointer.apply_patch (.arr [.int 1, .int 2])
        [.obj [("op", .str "add"), ("path", .str "/5"), ("value", .int 9)]] =
      .ok (.arr [.int 1, .int 2, .int 9]) := by decide

/-- C4 (amended): for a patch path whose parent resolves to a list `l` and
whose last segment is a numeric index `≥ l.length`, a `replace` and a
`remove` operation make `apply_patch` fail with an index error, while an
`add` operation succeeds, appending the value to `l` (Python `list.insert`
clamps an out-of-range index). -/
theorem C4_out_of_range_amended (doc : Json) (path : String) (v : Json)
    (front : List String) (s : String) (l : List Json)
    (hsplit : split_pointer path = .ok (front ++ [s]))
    (hround : split_pointer (join_pointer front) = .ok front)
    (hpath : ¬ (path = "" ∨ path = "/"))
    (hres : resolveSegs doc front = .ok (.arr l))
    (hdig : isDigitSeg s.data = true)
    (hge : l.length ≤ segToNat s.data) :
    Pointer.apply_patch doc [replaceOpJ path v] = .error .indexError ∧
    Pointer.apply_patch doc [removeOpJ path] = .error .indexError ∧
    ∃ d2, Pointer.apply_patch doc [addOpJ path v] = .ok d2 ∧
      resolveSegs d2 front = .ok (.arr (l ++ [v])) := by
  refine ⟨?_, ?_, ?_⟩
  · apply apply_patch_single_error
    rw [apply_one_replaceOp doc path v hpath]
    rw [apply_addrep_eq doc "replace" path v front s hsplit hround]
    exact updateAt_error hres (mutate_addrep_replace_oob s v l hdig hge)
  · apply apply_patch_single_error
    rw [apply_one_removeOp doc path]
    rw [apply_remove_eq doc path front s hsplit hround]
    exact updateAt_error hres (mutate_remove_oob s l hdig hge)
  · obtain ⟨d2, hd1, hd2⟩ :=
      updateAt_ok hres (mutate_addrep_add_oob s v l hdig hge)
    refine ⟨d2, ?_, hd2⟩
    apply apply_patch_single_ok
    rw [apply_one_addOp doc path v hpath]
    rw [apply_addrep_eq doc "add" path v front s hsplit hround]
    exact hd1

/-- C4 witness: the amended theorem applied to the document `[1, 2]` and
the out-of-range path `/5`. -/
theorem C4_witness :
    Pointer.apply_patch (.arr [.int 1, .int 2]) [replaceOpJ "/5" (.int 9)] =
      .error .indexError ∧
    Pointer.apply_patch (.arr [.int 1, .int 2]) [removeOpJ "/5"] =
      .error .indexError ∧
    ∃ d2, Pointer.apply_patch (.arr [.int 1, .int 2]) [addOpJ "/5" (.int 9)] =
        .ok d2 ∧
      resolveSegs d2 [] = .ok (.arr ([.int 1, .int 2] ++ [.int 9])) := by
  exact C4_out_of_range_amended (.arr [.int 1, .int 2]) "/5" (.int 9) [] "5"
    [.int 1, .int 2] (by decide) (by decide) (by decide) (by decide)
    (by decide) (by decide)

namespace Sandbox

open Json

/-- Exceptions raised by `sandbox_ast` and `runtime_guarded`.  Only the
exception class is tracked (plus the message for `SandboxError`, which the
interpreter raises itself); `unsupported` marks builtins whose Python
implementation leaves the modelled value domain (float arithmetic) or
performs real I/O (network access), and `outOfFuel` models exhaustion of
the Python call stack (`RecursionError`): the source interpreter has no
other guard against unbounded recursion. -/
inductive SbErr
  | sandboxError (msg : String)
  | effectError
  | assertionError
  | keyError
  | indexError
  | typeError
  | valueError
  | unsupported (what : String)
  | outOfFuel
deriving DecidableEq, Repr

/-- Variable environments are Python dicts keyed by strings (insertion
ordered, assignment via `assocSet`). -/
abbrev Env := List (String × Json)

/-- The function table built by `run_module` / `eval_post_expr`:
function name to function object. -/
abbrev Fns := List (String × Json)

/-- `runtime_guarded.set_allowed_effects`: `set(effects or [])`, defaulting
to `{"pure"}` when empty (membership is all that matters, so the set is
kept as the list). -/
def normAllowed (effects : List String) : List String :=
  if effects = [] then ["pure"] else effects

/-- `runtime_guarded.require`: the effect must be in the allowlist. -/
def require (effect : String) (allowed : List String) : Except SbErr Unit :=
  if effect ∈ allowed then .ok () else .error .effectError

/-- `sandbox_ast._qual_last`: `name.split(".")[-1]`. -/
def qualLastAux (cur : List Char) : List Char → List Char
  | [] => cur.reverse
  | c :: rest => if c = '.' then qualLastAux [] rest else qualLastAux (c :: cur) rest

def qualLast (s : String) : String := String.mk (qualLastAux [] s.data)

/-- Python `bool(x)` on the modelled value domain. -/
def truthy : Json → Bool
  | .null => false
  | .bool b => b
  | .int n => decide (n ≠ 0)
  | .str s => decide (s ≠ "")
  | .arr xs => !xs.isEmpty
  | .obj kvs => !kvs.isEmpty

/-- Numeric view: Python `bool` is a subtype of `int` (`True == 1`), so
arithmetic and comparisons treat both uniformly.  Floats are outside the
modelled domain. -/
def numOf : Json → Option Int
  | .bool b => some (if b then 1 else 0)
  | .int n => some n
  | _ => none

/-- Python `list(x)` / iteration order: lists yield their elements,
strings their characters, dicts their keys; other values raise
`TypeError`. -/
def toPyList : Json → Except SbErr (List Json)
  | .arr xs => .ok xs
  | .str s => .ok (s.data.map (fun c => .str (String.mk [c])))
  | .obj kvs => .ok (kvs.map (fun kv => .str kv.1))
  | _ => .error .typeError

/-- Python `len(x)`. -/
def pyLen : Json → Except SbErr Int
  | .str s => .ok s.data.length
  | .arr xs => .ok xs.length
  | .obj kvs => .ok kvs.length
  | _ => .error .typeError

/-- Python `==` on the modelled values (`runtime_guarded.eq`).  Numeric
values compare by value across `bool`/`int`; dict equality ignores
insertion order.  The fuel makes the recursion through dict lookups
structural; `jsize a + jsize b` is always adequate. -/
def pyEqF : Nat → Json → Json → Bool
  | 0, _, _ => false
  | fuel+1, a, b =>
    match numOf a, numOf b with
    | some x, some y => decide (x = y)
    | _, _ =>
      match a, b with
      | .null, .null => true
      | .str s, .str t => decide (s = t)
      | .arr xs, .arr ys =>
        decide (xs.length = ys.length) &&
        (xs.zip ys).all (fun p => pyEqF fuel p.1 p.2)
      | .obj xs, .obj ys =>
        decide (xs.length = ys.length) &&
        xs.all (fun kv =>
          match lookup ys kv.1 with
          | some w => pyEqF fuel kv.2 w
          | none => false)
      | _, _ => false

def pyEq (a b : Json) : Bool := pyEqF (Fmt.jsize a + Fmt.jsize b) a b

/-- Python substring test: `sub in s` for strings. -/
def startsWithCh : List Char → List Char → Bool
  | [], _ => true
  | _ :: _, [] => false
  | a :: as2, b :: bs => a = b && startsWithCh as2 bs

def containsSub (sub : List Char) : List Char → Bool
  | [] => startsWithCh sub []
  | c :: rest => startsWithCh sub (c :: rest) || containsSub sub rest

/-- Python `in` (`runtime_guarded.str_contains` / `obj_has`): substring
test on strings, membership by `==` on lists, key membership on dicts. -/
def pyIn (item container : Json) : Except SbErr Bool :=
  match container with
  | .str s =>
    match item with
    | .str sub => .ok (containsSub sub.data s.data)
    | _ => .error .typeError
  | .arr xs => .ok (xs.any (fun x => pyEq item x))
  | .obj kvs =>
    match item with
    | .str k => .ok (hasKey kvs k)
    | _ => .ok false
  | _ => .error .typeError

/-- Python `<` (`runtime_guarded.lt`): numbers by value, strings by code
point, lists lexicographically (elementwise `==` then `<`); mixed operand
types raise `TypeError`.  Fuel for the list recursion; `jsize` adequate. -/
def pyLtF : Nat → Json → Json → Except SbErr Bool
  | 0, _, _ => .error .outOfFuel
  | fuel+1, a, b =>
    match numOf a, numOf b with
    | some x, some y => .ok (decide (x < y))
    | _, _ =>
      match a, b with
      | .str s, .str t =>
        .ok (Fmt.lexLe s.data t.data && decide (s ≠ t))
      | .arr [], .arr [] => .ok false
      | .arr [], .arr (_ :: _) => .ok true
      | .arr (_ :: _), .arr [] => .ok false
      | .arr (x :: xs), .arr (y :: ys) =>
        if pyEq x y then pyLtF fuel (.arr xs) (.arr ys)
        else pyLtF fuel x y
      | _, _ => .error .typeError

def pyLt (a b : Json) : Except SbErr Bool := pyLtF (Fmt.jsize a + Fmt.jsize b) a b

/-- Python `<=`: equal or less (lists compare elementwise by `==` first,
so equal values never reach an elementwise `<`). -/
def pyLe (a b : Json) : Except SbErr Bool :=
  if pyEq a b then .ok true else pyLt a b

/-- Python `+` (`runtime_guarded.add`): numbers add, strings and lists
concatenate, anything else raises `TypeError`. -/
def pyAdd (a b : Json) : Except SbErr Json :=
  match numOf a, numOf b with
  | some x, some y => .ok (.int (x + y))
  | _, _ =>
    match a, b with
    | .str s, .str t => .ok (.str (String.mk (s.data ++ t.data)))
    | .arr xs, .arr ys => .ok (.arr (xs ++ ys))
    | _, _ => .error .typeError

/-- Python `-` (`runtime_guarded.sub`): numbers only in the modelled
domain. -/
def pySub (a b : Json) : Except SbErr Json :=
  match numOf a, numOf b with
  | some x, some y => .ok (.int (x - y))
  | _, _ => .error .typeError

/-- Python sequence repetition `l * n` (empty for `n <= 0`). -/
def pyRepeat (l : List α) (n : Int) : List α :=
  (List.replicate n.toNat l).flatten

/-- Python `*` (`runtime_guarded.mul`): numbers multiply; a string or
list times an integer repeats it. -/
def pyMul (a b : Json) : Except SbErr Json :=
  match numOf a, numOf b with
  | some x, some y => .ok (.int (x * y))
  | none, some n =>
    match a with
    | .str s => .ok (.str (String.mk (pyRepeat s.data n)))
    | .arr xs => .ok (.arr (pyRepeat xs n))
    | _ => .error .typeError
  | some n, none =>
    match b with
    | .str s => .ok (.str (String.mk (pyRepeat s.data n)))
    | .arr xs => .ok (.arr (pyRepeat xs n))
    | _ => .error .typeError
  | none, none => .error .typeError

/-- Python subscript `container[key]` (`runtime_guarded.list_get` and
`obj_get` are both plain subscripts): lists and strings index by number
(negative indices count from the end), dicts look up string keys;
an unhashable key (list/dict) raises `TypeError`. -/
def pySubscript (container key : Json) : Except SbErr Json :=
  match container with
  | .arr xs =>
    match numOf key with
    | some n =>
      let i := if n < 0 then n + xs.length else n
      if 0 ≤ i then
        match xs[i.toNat]? with
        | some v => .ok v
        | none => .error .indexError
      else .error .indexError
    | none => .error .typeError
  | .str s =>
    match numOf key with
    | some n =>
      let i := if n < 0 then n + s.data.length else n
      if 0 ≤ i then
        match s.data[i.toNat]? with
        | some c => .ok (.str (String.mk [c]))
        | none => .error .indexError
      else .error .indexError
    | none => .error .typeError
  | .obj kvs =>
    match key with
    | .str k =>
      match lookup kvs k with
      | some v => .ok v
      | none => .error .keyError
    | .arr _ => .error .typeError
    | .obj _ => .error .typeError
    | _ => .error .keyError
  | _ => .error .typeError

/-- One bound of a Python slice: clamped to `[0, n]`, negative counts
from the end. -/
def sliceBound (v : Option Int) (dflt : Int) (n : Int) : Int :=
  match v with
  | none => dflt
  | some x => if x < 0 then max 0 (n + x) else min x n

/-- Python `xs[s:e]` on a list. -/
def pySliceList (xs : List Json) (s e : Option Int) : List Json :=
  let n : Int := xs.length
  ((xs.take (sliceBound e n n).toNat).drop (sliceBound s 0 n).toNat)

/-- Python `sum(xs)` (`runtime_guarded.list_sum`) on the modelled
domain: numbers only. -/
def pySum : List Json → Except SbErr Int
  | [] => .ok 0
  | x :: rest =>
    match numOf x with
    | some v => (pySum rest).map (fun acc => v + acc)
    | none => .error .typeError

/-- `runtime_guarded.call_builtin` restricted to the first-order
builtins (the higher-order `list_map`/`list_filter`/`list_reduce` need
the dispatcher and live in the interpreter's mutual block).  A wrong
number of arguments raises `TypeError`, an unknown name `KeyError`.
`div` and `list_mean` always produce Python floats and `http_get`
performs network I/O, all outside the modelled fragment, so after their
guards (`ZeroDivisionError`/`ValueError`/effect gate) they map to
`unsupported`.  `list_slice` models only numeric (or null) bounds:
Python `int()` would additionally parse numeric strings, which the tools
never produce. -/
def callBuiltinPure (name : String) (args : List Json) (allowed : List String) :
    Except SbErr Json :=
  match name with
  | "add" => match args with | [a, b] => pyAdd a b | _ => .error .typeError
  | "sub" => match args with | [a, b] => pySub a b | _ => .error .typeError
  | "mul" => match args with | [a, b] => pyMul a b | _ => .error .typeError
  | "div" =>
    match args with
    | [a, b] =>
      match numOf a, numOf b with
      | some _, some _ => .error (.unsupported "float division")
      | _, _ => .error .typeError
    | _ => .error .typeError
  | "eq" => match args with | [a, b] => .ok (.bool (pyEq a b)) | _ => .error .typeError
  | "neq" => match args with | [a, b] => .ok (.bool (!pyEq a b)) | _ => .error .typeError
  | "lt" => match args with | [a, b] => (pyLt a b).map .bool | _ => .error .typeError
  | "lte" => match args with | [a, b] => (pyLe a b).map .bool | _ => .error .typeError
  | "gt" => match args with | [a, b] => (pyLt b a).map .bool | _ => .error .typeError
  | "gte" => match args with | [a, b] => (pyLe b a).map .bool | _ => .error .typeError
  | "and" => match args with | [a, b] => .ok (.bool (truthy a && truthy b)) | _ => .error .typeError
  | "or" => match args with | [a, b] => .ok (.bool (truthy a || truthy b)) | _ => .error .typeError
  | "not" => match args with | [a] => .ok (.bool (!truthy a)) | _ => .error .typeError
  | "str_len" => match args with | [a] => (pyLen a).map .int | _ => .error .typeError
  | "str_concat" =>
    match args with
    | [.str a, .str b] => .ok (.str (String.mk (a.data ++ b.data)))
    | [_, _] => .error .typeError
    | _ => .error .typeError
  | "str_contains" => match args with | [s, sub] => (pyIn sub s).map .bool | _ => .error .typeError
  | "len" => match args with | [a] => (pyLen a).map .int | _ => .error .typeError
  | "list_get" => match args with | [xs, i] => pySubscript xs i | _ => .error .typeError
  | "list_set" =>
    match args with
    | [xs, i, v] => do
      let ys ← toPyList xs
      match numOf i with
      | some n =>
        let idx := if n < 0 then n + ys.length else n
        if 0 ≤ idx ∧ idx.toNat < ys.length then .ok (.arr (ys.set idx.toNat v))
        else .error .indexError
      | none => .error .typeError
    | _ => .error .typeError
  | "list_append" =>
    match args with
    | [xs, v] => (toPyList xs).map (fun ys => .arr (ys ++ [v]))
    | _ => .error .typeError
  | "list_concat" =>
    match args with
    | [xs, ys] => do
      let a ← toPyList xs
      let b ← toPyList ys
      .ok (.arr (a ++ b))
    | _ => .error .typeError
  | "list_slice" =>
    match args with
    | [xs, s, e] => do
      let ys ← toPyList xs
      let s2 ← match s with
        | .null => .ok (none : Option Int)
        | _ => match numOf s with
          | some n => .ok (some n)
          | none => .error .typeError
      let e2 ← match e with
        | .null => .ok (none : Option Int)
        | _ => match numOf e with
          | some n => .ok (some n)
          | none => .error .typeError
      .ok (.arr (pySliceList ys s2 e2))
    | _ => .error .typeError
  | "list_range" =>
    match args with
    | [n] =>
      match numOf n with
      | some v => .ok (.arr ((List.range v.toNat).map (fun k => .int k)))
      | none => .error .typeError
    | _ => .error .typeError
  | "list_sum" =>
    match args with
    | [xs] => do
      let ys ← toPyList xs
      (pySum ys).map .int
    | _ => .error .typeError
  | "list_mean" =>
    match args with
    | [.arr xs] =>
      if xs.isEmpty then .error .valueError
      else .error (.unsupported "float mean")
    | [_] => .error .typeError
    | _ => .error .typeError
  | "obj_get" => match args with | [o, k] => pySubscript o k | _ => .error .typeError
  | "obj_get_or" =>
    match args with
    | [.obj kvs, .str k, d] => .ok ((lookup kvs k).getD d)
    | [.obj _, .arr _, _] => .error .typeError
    | [.obj _, .obj _, _] => .error .typeError
    | [.obj _, _, d] => .ok d
    | [_, _, _] => .error .typeError
    | _ => .error .typeError
  | "obj_has" => match args with | [o, k] => (pyIn k o).map .bool | _ => .error .typeError
  | "obj_set" =>
    match args with
    | [.obj kvs, .str k, v] => .ok (.obj (Pointer.assocSet kvs k v))
    | [.obj _, _, _] => .error .typeError
    | [_, _, _] => .error .typeError
    | _ => .error .typeError
  | "obj_del" =>
    match args with
    | [.obj kvs, .str k] =>
      .ok (.obj (if hasKey kvs k then Pointer.eraseKey kvs k else kvs))
    | [.obj kvs, .arr _] => .error .typeError
    | [.obj kvs, .obj _] => .error .typeError
    | [.obj kvs, _] => .ok (.obj kvs)
    | [_, _] => .error .typeError
    | _ => .error .typeError
  | "obj_keys" =>
    match args with
    | [.obj kvs] => .ok (.arr ((Fmt.sortStrs (kvs.map (fun kv => kv.1))).map .str))
    | [_] => .error .typeError
    | _ => .error .typeError
  | "obj_merge" =>
    match args with
    | [.obj a, .obj b] => .ok (.obj (b.foldl (fun acc kv => Pointer.assocSet acc kv.1 kv.2) a))
    | [_, _] => .error .typeError
    | _ => .error .typeError
  | "print" =>
    match args with
    | [_] => (require "io.print" allowed).map (fun _ => .null)
    | _ => .error .typeError
  | "http_get" =>
    match args with
    | [_] => do
      let _ ← require "net.http" allowed
      .error (.unsupported "network")
    | _ => .error .typeError
  | _ => .error .keyError

/-- The keys of `runtime_guarded.BUILTINS`. -/
def BUILTIN_NAMES : List String :=
  ["add", "sub", "mul", "div",
   "eq", "neq", "lt", "lte", "gt", "gte",
   "and", "or", "not",
   "str_len", "str_concat", "str_contains",
   "len", "list_get", "list_set", "list_append", "list_concat",
   "list_slice", "list_range", "list_sum", "list_mean",
   "list_map", "list_filter", "list_reduce",
   "obj_get", "obj_get_or", "obj_has", "obj_set", "obj_del",
   "obj_keys", "obj_merge",
   "print", "http_get"]

/-- Function parameter names must all be strings to serve as environment
keys (Python would accept any hashable object as a dict key, but such a
parameter could never be referenced by a `var` node; the schema requires
strings). -/
def strNames : List Json → Option (List String)
  | [] => some []
  | .str s :: rest => (strNames rest).map (fun l => s :: l)
  | _ => none

/-- Python `x or []` applied to a maybe-missing list field, followed by
iteration: a falsy value yields the empty list. -/
def fieldList (j : Json) : Except SbErr (List Json) :=
  if truthy j then toPyList j else .ok []

/-- The environment `call_user` builds: `{p: a for p, a in zip(params, args)}`
(duplicate parameter names overwrite left to right). -/
def mkCallEnv (params : List String) (args : List Json) : Env :=
  (params.zip args).foldl (fun acc pa => Pointer.assocSet acc pa.1 pa.2) []

mutual

/-- `sandbox_ast.eval_expr`.  Fuel decreases on every recursive call;
Python bounds the recursion only by its call stack. -/
def evalExpr : Nat → Json → Env → Fns → List String → Except SbErr Json
  | 0, _, _, _, _ => .error .outOfFuel
  | fuel+1, expr, env, fns, allowed =>
    match expr with
    | .int n => .ok (.int n)
    | .str s => .ok (.str s)
    | .bool b => .ok (.bool b)
    | .null => .ok .null
    | .arr _ => .error (.sandboxError "Invalid expr node")
    | .obj ekvs =>
      if hasKey ekvs "var" then
        match lookup ekvs "var" with
        | some (.str name) =>
          match lookup env name with
          | some v => .ok v
          | none => .error (.sandboxError "Undefined variable")
        | _ => .error (.sandboxError "Undefined variable")
      else if hasKey ekvs "list" then
        match toPyList ((lookup ekvs "list").getD .null) with
        | .ok items => (evalList fuel items env fns allowed).map .arr
        | .error e => .error e
      else if hasKey ekvs "obj" then
        match (lookup ekvs "obj").getD .null with
        | .obj okvs =>
          (evalKvs fuel okvs env fns allowed).map (fun ps =>
            .obj (ps.foldl (fun acc kv => Pointer.assocSet acc kv.1 kv.2) []))
        | _ => .error .typeError
      else if hasKey ekvs "call" then
        match (lookup ekvs "call").getD .null with
        | .obj ckvs =>
          match lookup ckvs "fn" with
          | some (.str fnQ) =>
            let fn := qualLast fnQ
            match toPyList ((lookup ckvs "args").getD (.arr [])) with
            | .ok argEs =>
              match evalList fuel argEs env fns allowed with
              | .ok args =>
                if fn ∈ BUILTIN_NAMES then callBuiltin fuel fn args fns allowed
                else if hasKey fns fn then callUser fuel fn args fns allowed
                else .error (.sandboxError "Unknown function")
              | .error e => .error e
            | .error e => .error e
          | some _ => .error .typeError
          | none => .error .keyError
        | _ => .error .typeError
      else .error (.sandboxError "Unknown expr form")

/-- Left-to-right evaluation of a list of expressions. -/
def evalList : Nat → List Json → Env → Fns → List String → Except SbErr (List Json)
  | 0, _, _, _, _ => .error .outOfFuel
  | _+1, [], _, _, _ => .ok []
  | fuel+1, e :: rest, env, fns, allowed => do
    let v ← evalExpr fuel e env fns allowed
    let vs ← evalList fuel rest env fns allowed
    .ok (v :: vs)

/-- Left-to-right evaluation of the values of an `obj` literal. -/
def evalKvs : Nat → List (String × Json) → Env → Fns → List String →
    Except SbErr (List (String × Json))
  | 0, _, _, _, _ => .error .outOfFuel
  | _+1, [], _, _, _ => .ok []
  | fuel+1, (k, e) :: rest, env, fns, allowed => do
    let v ← evalExpr fuel e env fns allowed
    let vs ← evalKvs fuel rest env fns allowed
    .ok ((k, v) :: vs)

/-- `sandbox_ast.exec_stmt`.  `.inl env` is normal completion with the
updated environment (the Python code mutates `env` in place); `.inr v` is
a `ReturnSignal` carrying `v`. -/
def execStmt : Nat → Json → Env → Fns → List String → Except SbErr (Env ⊕ Json)
  | 0, _, _, _, _ => .error .outOfFuel
  | fuel+1, stmt, env, fns, allowed =>
    match stmt with
    | .obj [(tag, sval)] =>
      if tag = "let" then
        match sval with
        | .obj lkvs =>
          match lookup lkvs "name" with
          | some (.str name) =>
            match evalExpr fuel ((lookup lkvs "expr").getD .null) env fns allowed with
            | .ok v => .ok (.inl (Pointer.assocSet env name v))
            | .error e => .error e
          | some _ => .error .typeError
          | none => .error .keyError
        | _ => .error .typeError
      else if tag = "expr" then
        match evalExpr fuel sval env fns allowed with
        | .ok _ => .ok (.inl env)
        | .error e => .error e
      else if tag = "assert" then
        match sval with
        | .obj akvs =>
          match evalExpr fuel ((lookup akvs "expr").getD .null) env fns allowed with
          | .ok c => if truthy c then .ok (.inl env) else .error .assertionError
          | .error e => .error e
        | _ => .error .typeError
      else if tag = "return" then
        match evalExpr fuel sval env fns allowed with
        | .ok v => .ok (.inr v)
        | .error e => .error e
      else if tag = "if" then
        match sval with
        | .obj ikvs =>
          match evalExpr fuel ((lookup ikvs "cond").getD .null) env fns allowed with
          | .ok cond =>
            match toPyList (if truthy cond then (lookup ikvs "then").getD (.arr [])
                            else (lookup ikvs "else").getD (.arr [])) with
            | .ok stmts => execBlock fuel stmts env fns allowed
            | .error e => .error e
          | .error e => .error e
        | _ => .error .typeError
      else .error (.sandboxError "Unknown stmt")
    | _ => .error (.sandboxError "Invalid stmt shape")

/-- `sandbox_ast.exec_block`: run statements in order; a `ReturnSignal`
(`.inr`) propagates out of the remaining statements. -/
def execBlock : Nat → List Json → Env → Fns → List String → Except SbErr (Env ⊕ Json)
  | 0, _, _, _, _ => .error .outOfFuel
  | _+1, [], env, _, _ => .ok (.inl env)
  | fuel+1, s :: rest, env, fns, allowed =>
    match execStmt fuel s env fns allowed with
    | .ok (.inl env2) => execBlock fuel rest env2 fns allowed
    | .ok (.inr v) => .ok (.inr v)
    | .error e => .error e

/-- `sandbox_ast.call_user`. -/
def callUser : Nat → String → List Json → Fns → List String → Except SbErr Json
  | 0, _, _, _, _ => .error .outOfFuel
  | fuel+1, fnName, args, fns, allowed =>
    match lookup fns fnName with
    | none => .error .keyError
    | some (.obj fkvs) =>
      match fieldList ((lookup fkvs "params").getD .null) with
      | .error e => .error e
      | .ok paramVals =>
        if paramVals.length ≠ args.length then .error (.sandboxError "Arity mismatch")
        else
          match strNames paramVals with
          | none => .error .typeError
          | some params =>
            let env := mkCallEnv params args
            match fieldList ((lookup fkvs "body").getD .null) with
            | .error e => .error e
            | .ok body =>
              match execBlock fuel body env fns allowed with
              | .ok (.inl _) => .ok .null
              | .ok (.inr v) => .ok v
              | .error e => .error e
    | some _ => .error .typeError

/-- `runtime_guarded.call_builtin`, including the higher-order builtins,
which go through the dispatcher installed by `run_module`. -/
def callBuiltin : Nat → String → List Json → Fns → List String → Except SbErr Json
  | 0, _, _, _, _ => .error .outOfFuel
  | fuel+1, name, args, fns, allowed =>
    if name = "list_map" then
      match args with
      | [.str fn, xs] =>
        match toPyList xs with
        | .ok items => (mapDispatch fuel fn items fns allowed).map .arr
        | .error e => .error e
      | [_, _] => .error .typeError
      | _ => .error .typeError
    else if name = "list_filter" then
      match args with
      | [.str fn, xs] =>
        match toPyList xs with
        | .ok items => (filterDispatch fuel fn items fns allowed).map .arr
        | .error e => .error e
      | [_, _] => .error .typeError
      | _ => .error .typeError
    else if name = "list_reduce" then
      match args with
      | [.str fn, init, xs] =>
        match toPyList xs with
        | .ok items => reduceDispatch fuel fn init items fns allowed
        | .error e => .error e
      | [_, _, _] => .error .typeError
      | _ => .error .typeError
    else callBuiltinPure name args allowed

/-- The dispatcher `run_module` installs via `rt.set_dispatch`. -/
def dispatchCall : Nat → String → List Json → Fns → List String → Except SbErr Json
  | 0, _, _, _, _ => .error .outOfFuel
  | fuel+1, fnQ, args, fns, allowed =>
    let name := qualLast fnQ
    if name ∈ BUILTIN_NAMES then callBuiltin fuel name args fns allowed
    else if hasKey fns name then callUser fuel name args fns allowed
    else .error (.sandboxError "Unknown function")

/-- `runtime_guarded.list_map` body. -/
def mapDispatch : Nat → String → List Json → Fns → List String → Except SbErr (List Json)
  | 0, _, _, _, _ => .error .outOfFuel
  | _+1, _, [], _, _ => .ok []
  | fuel+1, fn, x :: rest, fns, allowed => do
    let y ← dispatchCall fuel fn [x] fns allowed
    let ys ← mapDispatch fuel fn rest fns allowed
    .ok (y :: ys)

/-- `runtime_guarded.list_filter` body. -/
def filterDispatch : Nat → String → List Json → Fns → List String → Except SbErr (List Json)
  | 0, _, _, _, _ => .error .outOfFuel
  | _+1, _, [], _, _ => .ok []
  | fuel+1, fn, x :: rest, fns, allowed => do
    let keep ← dispatchCall fuel fn [x] fns allowed
    let ys ← filterDispatch fuel fn rest fns allowed
    .ok (if truthy keep then x :: ys else ys)

/-- `runtime_guarded.list_reduce` body. -/
def reduceDispatch : Nat → String → Json → List Json → Fns → List String → Except SbErr Json
  | 0, _, _, _, _, _ => .error .outOfFuel
  | _+1, _, acc, [], _, _ => .ok acc
  | fuel+1, fn, acc, x :: rest, fns, allowed => do
    let acc2 ← dispatchCall fuel fn [acc, x] fns allowed
    reduceDispatch fuel fn acc2 rest fns allowed

end

/-- The function table `run_module` (and `eval_post_expr`) builds from
`module.get("functions")`: dict functions with a string name, keyed by
name, later entries overwriting earlier ones. -/
def indexFns (module : Json) : Except SbErr Fns :=
  match module with
  | .obj mkvs =>
    match fieldList ((lookup mkvs "functions").getD .null) with
    | .error e => .error e
    | .ok items =>
      .ok (items.foldl (fun acc f =>
        match f with
        | .obj fkvs =>
          match lookup fkvs "name" with
          | some (.str nm) => Pointer.assocSet acc nm (.obj fkvs)
          | _ => acc
        | _ => acc) [])
  | _ => .error .typeError

/-- `sandbox_ast.run_module`. -/
def run_module (fuel : Nat) (module : Json) (fn : String) (args : List Json)
    (allowed_effects : List String) : Except SbErr Json :=
  let allowed := normAllowed allowed_effects
  match indexFns module with
  | .error e => .error e
  | .ok fns =>
    let fnLast := qualLast fn
    if ¬ hasKey fns fnLast ∧ fnLast ∉ BUILTIN_NAMES then
      .error (.sandboxError "Unknown function")
    else if fnLast ∈ BUILTIN_NAMES then callBuiltin fuel fnLast args fns allowed
    else callUser fuel fnLast args fns allowed

end Sandbox

open Sandbox in
/-- C9: `call_user` semantics of return.  If the function's body executes
to completion without a `ReturnSignal`, `call_user` returns null; if it
raises a `ReturnSignal` carrying `v`, `call_user` returns `v`; and a
`return` statement at the head of a block aborts the whole remaining
block (a non-local transfer), producing the signal with the evaluated
value no matter what statements follow. -/
theorem C9_call_user_return_null (fuel : Nat) (fnName : String) (args : List Json)
    (fns : Fns) (allowed : List String) (fkvs : List (String × Json))
    (paramVals : List Json) (params : List String) (body : List Json)
    (hlk : Json.lookup fns fnName = some (.obj fkvs))
    (hp : fieldList ((Json.lookup fkvs "params").getD .null) = .ok paramVals)
    (hlen : paramVals.length = args.length)
    (hsn : strNames paramVals = some params)
    (hb : fieldList ((Json.lookup fkvs "body").getD .null) = .ok body) :
    (∀ e, execBlock fuel body (mkCallEnv params args) fns allowed = .ok (.inl e) →
       callUser (fuel+1) fnName args fns allowed = .ok .null) ∧
    (∀ v, execBlock fuel body (mkCallEnv params args) fns allowed = .ok (.inr v) →
       callUser (fuel+1) fnName args fns allowed = .ok v) ∧
    (∀ g retE rest env2 v, evalExpr g retE env2 fns allowed = .ok v →
       execBlock (g+2) (.obj [("return", retE)] :: rest) env2 fns allowed =
         .ok (.inr v)) := by
  refine ⟨?_, ?_, ?_⟩
  · intro e he
    rw [callUser]
    rw [hlk]
    dsimp only
    rw [hp]
    dsimp only
    rw [if_neg (show ¬ (paramVals.length ≠ args.length) from fun hne => hne hlen)]
    rw [hsn]
    dsimp only
    rw [hb]
    dsimp only
    rw [he]
  · intro v hv
    rw [callUser]
    rw [hlk]
    dsimp only
    rw [hp]
    dsimp only
    rw [if_neg (show ¬ (paramVals.length ≠ args.length) from fun hne => hne hlen)]
    rw [hsn]
    dsimp only
    rw [hb]
    dsimp only
    rw [hv]
  · intro g retE rest env2 v hev
    have h1 : execStmt (g+1) (.obj [("return", retE)]) env2 fns allowed =
        .ok (.inr v) := by
      show (match evalExpr g retE env2 fns allowed with
            | .ok v2 => (Except.ok (.inr v2) : Except SbErr (Env ⊕ Json))
            | .error e2 => .error e2) = .ok (.inr v)
      rw [hev]
    rw [execBlock]
    rw [h1]

/-- Function table for the C9 witness: `fret` returns its argument and
then contains a further (ill-formed) statement that a completed return
must skip; `gthru` falls through without a return. -/
def C9fns : Sandbox.Fns :=
  [("fret", .obj [("name", .str "fret"), ("params", .arr [.str "x"]),
      ("body", .arr [.obj [("return", .obj [("var", .str "x")])],
                     .obj [("expr", .arr [])]])]),
   ("gthru", .obj [("name", .str "gthru"), ("params", .arr [.str "x"]),
      ("body", .arr [.obj [("let", .obj [("name", .str "y"),
                                         ("expr", .obj [("var", .str "x")])])]])])]

open Sandbox in
/-- C9 witness: `gthru` (no return) yields null, `fret` yields its
argument, and the head `return` aborts past a statement that would
otherwise fail. -/
theorem C9_witness :
    callUser (5+1) "gthru" [.int 7] C9fns ["pure"] = .ok .null ∧
    callUser (5+1) "fret" [.int 7] C9fns ["pure"] = .ok (.int 7) ∧
    execBlock (1+2) [.obj [("return", .int 5)], .obj [("expr", .arr [])]]
      [] C9fns ["pure"] = .ok (.inr (.int 5)) := by
  have hg := C9_call_user_return_null 5 "gthru" [.int 7] C9fns ["pure"]
    [("name", .str "gthru"), ("params", .arr [.str "x"]),
     ("body", .arr [.obj [("let", .obj [("name", .str "y"),
                                        ("expr", .obj [("var", .str "x")])])]])]
    [.str "x"] ["x"]
    [.obj [("let", .obj [("name", .str "y"), ("expr", .obj [("var", .str "x")])])]]
    (by decide) (by decide) (by decide) (by decide) (by decide)
  have hf := C9_call_user_return_null 5 "fret" [.int 7] C9fns ["pure"]
    [("name", .str "fret"), ("params", .arr [.str "x"]),
     ("body", .arr [.obj [("return", .obj [("var", .str "x")])],
                    .obj [("expr", .arr [])]])]
    [.str "x"] ["x"]
    [.obj [("return", .obj [("var", .str "x")])], .obj [("expr", .arr [])]]
    (by decide) (by decide) (by decide) (by decide) (by decide)
  refine ⟨?_, ?_, ?_⟩
  · exact hg.1 [("x", .int 7), ("y", .int 7)] (by decide)
  · exact hf.2.1 (.int 7) (by decide)
  · exact hf.2.2 1 (.int 5) [.obj [("expr", .arr [])]] [] (.int 5) (by decide)

namespace Typecheck

/-- `typecheck.Type`: primitives, type variables, `List[T]`,
`Record{...}` (insertion-ordered field dict), and `Any`. -/
inductive Ty
  | anyT
  | prim (name : String)
  | var (name : String)
  | listT (elem : Ty)
  | recordT (fields : List (String × Ty))

/-- Assoc lookup on a field/mapping dict of types. -/
def lookupTy : List (String × Ty) → String → Option Ty
  | [], _ => none
  | (k, t) :: rest, key => if k = key then some t else lookupTy rest key

end Typecheck

namespace Propcheck

open Sandbox Typecheck Json

/-- `name.split("#")[0]`: the part of a type-variable name before the
first `#` (freshening suffix). -/
def hashHead : List Char → List Char
  | [] => []
  | c :: rest => if c = '#' then [] else c :: hashHead rest

mutual

/-- `propcheck._subst_typevars`: replace variables by their mapping entry
(default `Prim Int`), recursively under `List`/`Record` (the mapped type
itself is substituted no further, exactly as in the source). -/
def substTypevars : Ty → List (String × Ty) → Ty
  | .var name, m => (lookupTy m (String.mk (hashHead name.data))).getD (.prim "Int")
  | .listT te, m => .listT (substTypevars te m)
  | .recordT fields, m => .recordT (substTypevarsKvs fields m)
  | .anyT, _ => .anyT
  | .prim p, _ => .prim p

def substTypevarsKvs : List (String × Ty) → List (String × Ty) → List (String × Ty)
  | [], _ => []
  | (k, t) :: rest, m => (k, substTypevars t m) :: substTypevarsKvs rest m

end

/-- The halving loop of `propcheck.shrink_int`
(`while cur != 0: cur = int(cur / 2); if cur != 0: yield cur`).
Python terminates because `|cur|` strictly decreases, so `n.natAbs` fuel
makes the recursion structural; `int(cur / 2)` truncates toward zero
(`Int.div`; Python computes it through float division, exact for
`|cur| < 2^53`, and the tools only shrink generated ints far below
that). -/
def halveAux : Nat → Int → List Int
  | 0, _ => []
  | fuel+1, cur =>
    if cur.tdiv 2 = 0 then [] else cur.tdiv 2 :: halveAux fuel (cur.tdiv 2)

/-- `propcheck.shrink_int`, with the generator reified as the list of
yielded candidates. -/
def shrink_int (n : Int) : List Int :=
  if n = 0 then [] else [0, 1, -1] ++ halveAux n.natAbs n

/-- `propcheck.shrink_list`: empty list, halves, then each single-element
drop. -/
def shrink_list (xs : List Json) : List (List Json) :=
  (if xs.isEmpty then [] else [[]]) ++
  (if xs.length ≥ 2 then [xs.take (xs.length / 2), xs.drop (xs.length / 2)] else []) ++
  (List.range xs.length).map (fun i => xs.take i ++ xs.drop (i+1))

/-- `propcheck.shrink_value` with the generator reified as a list.  The
fuel covers the one non-structural recursion, through the typevar-default
mapping in the `Var` case (Python would not terminate on a cyclic
mapping; the runner only ever passes `{tp: Prim Int}`).  Python
`isinstance(v, int)` is true for bools too (`numOf`). -/
def shrink_value : Nat → Ty → Json → List (String × Ty) → List Json
  | 0, _, _, _ => []
  | fuel+1, t0, v, tvd =>
    match substTypevars t0 tvd with
    | .anyT =>
      match numOf v with
      | some n => (shrink_int n).map .int
      | none => []
    | .prim name =>
      (if name = "Int" then
        match numOf v with
        | some n => (shrink_int n).map .int
        | none => []
      else []) ++
      (if name = "Bool" then
        match v with
        | .bool true => [.bool false]
        | _ => []
      else []) ++
      (if name = "String" then
        match v with
        | .str s =>
          if s = "" then []
          else [.str "", .str (String.mk (s.data.take (s.data.length / 2)))]
        | _ => []
      else [])
    | .listT te =>
      match v with
      | .arr xs =>
        (shrink_list xs).map .arr ++
        (List.range xs.length).flatMap (fun i =>
          (shrink_value fuel te (xs.getD i .null) tvd).map
            (fun cand => .arr (xs.set i cand)))
      | _ => []
    | .recordT fields =>
      match v with
      | .obj kvs =>
        fields.flatMap (fun kft =>
          match lookup kvs kft.1 with
          | none => []
          | some fv =>
            (shrink_value fuel kft.2 fv tvd).map
              (fun cand => .obj (Pointer.assocSet kvs kft.1 cand)))
      | _ => []
    | .var name =>
      shrink_value fuel ((lookupTy tvd name).getD (.prim "Int")) v tvd

/-- The `fails` closure of `propcheck.minimize_failure`: run the target
function, bind `result`, evaluate the postcondition with
`eval_post_expr`; "fails" means the postcondition is falsy, and any
exception (including fuel exhaustion) counts as failure, exactly as the
bare `except` does. -/
def failsTrial (ifuel : Nat) (module : Json) (fnName : String)
    (paramNames : List String) (post : Json) (allowed : List String)
    (candidate : List Json) : Bool :=
  match run_module ifuel module fnName candidate allowed with
  | .error _ => true
  | .ok result =>
    match indexFns module with
    | .error _ => true
    | .ok fns =>
      match evalExpr ifuel post
          (Pointer.assocSet (mkCallEnv paramNames candidate) "result" result)
          fns allowed with
      | .error _ => true
      | .ok v => !truthy v

/-- One shrink attempt for argument slot `i` of the loop body of
`minimize_failure`: the first shrink candidate whose trial still fails is
adopted (the `break`); `param_types[i]` defaults to `AnyType` past the
end, and `i` is always in range for `cur`. -/
def shrinkArgStep (failsF : List Json → Bool) (tvd : List (String × Ty))
    (sfuel : Nat) (paramTypes : List Ty) (cur : List Json) (i : Nat) :
    Option (List Json) :=
  ((shrink_value sfuel (paramTypes.getD i .anyT) (cur.getD i .null) tvd).find?
    (fun cand => failsF (cur.set i cand))).map (fun cand => cur.set i cand)

/-- One iteration of `while changed` in `minimize_failure`: the `for i in
range(len(cur))` loop, threading the current arguments and the `changed`
flag. -/
def minimizePass (failsF : List Json → Bool) (tvd : List (String × Ty))
    (sfuel : Nat) (paramTypes : List Ty) :
    List Nat → List Json → Bool → (List Json × Bool)
  | [], cur, changed => (cur, changed)
  | i :: rest, cur, changed =>
    match shrinkArgStep failsF tvd sfuel paramTypes cur i with
    | some cur2 => minimizePass failsF tvd sfuel paramTypes rest cur2 true
    | none => minimizePass failsF tvd sfuel paramTypes rest cur changed

/-- The `while changed` loop of `minimize_failure`, unrolled at most `n`
times: `none` means the loop is still running after `n` iterations.  The
source loop is unbounded, so it terminates on an input exactly when some
unrolling returns `some`. -/
def minimizeLoop (failsF : List Json → Bool) (tvd : List (String × Ty))
    (sfuel : Nat) (paramTypes : List Ty) : Nat → List Json → Option (List Json)
  | 0, _ => none
  | n+1, cur =>
    match minimizePass failsF tvd sfuel paramTypes (List.range cur.length) cur false with
    | (cur2, changed) =>
      if changed then minimizeLoop failsF tvd sfuel paramTypes n cur2 else some cur2

end Propcheck

/-- The module for the C3 divergence: `f(x)` returns `x`. -/
def C3module : Json := .obj [("functions", .arr [
  .obj [("name", .str "f"), ("params", .arr [.str "x"]),
        ("body", .arr [.obj [("return", .obj [("var", .str "x")])]])]])]

/-- Postcondition `neq(result, 1)`: fails exactly when the result is 1. -/
def C3post : Json := .obj [("call", .obj [("fn", .str "neq"),
  ("args", .arr [.obj [("var", .str "result")], .int 1])])]

/-- The `fails` predicate `minimize_failure` closes over, for `C3module`
and `C3post` (interpreter fuel 30 is ample for this recursion-free
module, so exhaustion never occurs on any reached trial). -/
def C3fails : List Json → Bool :=
  Propcheck.failsTrial 30 C3module "f" ["x"] C3post ["pure"]

open Propcheck in
/-- C3: the greedy shrinker does NOT terminate on every input.  With
`f(x) = x`, postcondition `neq(result, 1)` and failing argument `[1]`,
`shrink_int 1` yields the candidate `1` itself; the trial `[1]` still
fails, so the loop adopts it, sets `changed`, and repeats forever: no
finite unrolling of `while changed` returns.  (The candidate `0` is
tried first and genuinely passes, so the loop is not stuck for lack of
passing candidates.) -/
theorem C3_shrinker_diverges :
    C3fails [.int 1] = true ∧
    C3fails [.int 0] = false ∧
    ∀ sfuel n, minimizeLoop C3fails [] (sfuel+1) [.anyT] n [.int 1] = none := by
  refine ⟨by decide, by decide, ?_⟩
  intro sfuel n
  have hfind : [Json.int 0, Json.int 1, Json.int (-1)].find?
      (fun cand => C3fails ([Json.int 1].set 0 cand)) = some (Json.int 1) := by decide
  have hstep : shrinkArgStep C3fails [] (sfuel+1) [.anyT] [.int 1] 0 =
      some [.int 1] := by
    show (([Json.int 0, Json.int 1, Json.int (-1)].find?
      (fun cand => C3fails ([Json.int 1].set 0 cand))).map
      (fun cand => [Json.int 1].set 0 cand)) = some [Json.int 1]
    rw [hfind]
    rfl
  have hpass : minimizePass C3fails [] (sfuel+1) [.anyT]
      (List.range [Json.int 1].length) [Json.int 1] false = ([Json.int 1], true) := by
    show minimizePass C3fails [] (sfuel+1) [.anyT] [0] [Json.int 1] false =
      ([Json.int 1], true)
    rw [minimizePass, hstep]
    rfl
  induction n with
  | zero => rfl
  | succ n ih =>
    rw [minimizeLoop, hpass]
    exact ih

namespace Effects

open Json Sandbox

/-- Decimal rendering of a natural number (for JSON pointer segments);
the fuel `n+1` always suffices since `n / 10 < n` for `n > 0`. -/
def natToCharsAux : Nat → Nat → List Char
  | 0, _ => []
  | fuel+1, n =>
    if n < 10 then [Char.ofNat (48 + n)]
    else natToCharsAux fuel (n / 10) ++ [Char.ofNat (48 + n % 10)]

def natToStr (n : Nat) : String := String.mk (natToCharsAux (n+1) n)

/-- `effects.BUILTIN_EFFECTS`: builtin name to (arity, required effects). -/
def BUILTIN_EFFECTS : List (String × (Nat × List String)) :=
  [("add", (2, ["pure"])), ("sub", (2, ["pure"])), ("mul", (2, ["pure"])),
   ("div", (2, ["pure"])),
   ("eq", (2, ["pure"])), ("neq", (2, ["pure"])), ("lt", (2, ["pure"])),
   ("lte", (2, ["pure"])), ("gt", (2, ["pure"])), ("gte", (2, ["pure"])),
   ("and", (2, ["pure"])), ("or", (2, ["pure"])), ("not", (1, ["pure"])),
   ("str_len", (1, ["pure"])), ("str_concat", (2, ["pure"])),
   ("str_contains", (2, ["pure"])),
   ("len", (1, ["pure"])), ("list_get", (2, ["pure"])),
   ("list_set", (3, ["pure"])), ("list_append", (2, ["pure"])),
   ("list_concat", (2, ["pure"])), ("list_slice", (3, ["pure"])),
   ("list_range", (1, ["pure"])), ("list_sum", (1, ["pure"])),
   ("list_mean", (1, ["pure"])), ("list_map", (2, ["pure"])),
   ("list_filter", (2, ["pure"])), ("list_reduce", (3, ["pure"])),
   ("obj_get", (2, ["pure"])), ("obj_get_or", (3, ["pure"])),
   ("obj_has", (2, ["pure"])), ("obj_set", (3, ["pure"])),
   ("obj_del", (2, ["pure"])), ("obj_keys", (1, ["pure"])),
   ("obj_merge", (2, ["pure"])),
   ("print", (1, ["io.print"])), ("http_get", (1, ["net.http"]))]

def builtinEff (name : String) : Option (Nat × List String) :=
  (BUILTIN_EFFECTS.find? (fun kv => kv.1 = name)).map (fun kv => kv.2)

def isBuiltinEff (name : String) : Bool := (builtinEff name).isSome

/-- `effects.EffectIssue`, with the free-text `message` elided (no claim
mentions it; `severity` and the machine-readable fields are kept). -/
structure EffectIssue where
  pointer : String
  code : String
  severity : String
deriving DecidableEq, Repr

/-- Python `Set[str]` values are modelled as insertion-ordered duplicate-
free string lists; only membership matters to the checker's behaviour. -/
def unionS (a b : List String) : List String := (a ++ b).dedup

/-- Set difference `a - b`. -/
def diffS (a b : List String) : List String := a.filter (fun x => !b.contains x)

/-- Assoc lookup/overwrite for the `memo` dict. -/
def lookupS : List (String × List String) → String → Option (List String)
  | [], _ => none
  | (k, v) :: rest, key => if k = key then some v else lookupS rest key

def memoSet : List (String × List String) → String → List String →
    List (String × List String)
  | [], k, v => [(k, v)]
  | (k1, v1) :: rest, k, v =>
    if k1 = k then (k1, v) :: rest else (k1, v1) :: memoSet rest k v

/-- Assoc lookup on the user-function table (name to the function
object's fields). -/
def lookupUF : List (String × List (String × Json)) → String →
    Option (List (String × Json))
  | [], _ => none
  | (k, v) :: rest, key => if k = key then some v else lookupUF rest key

def ufSet : List (String × List (String × Json)) → String → List (String × Json) →
    List (String × List (String × Json))
  | [], k, v => [(k, v)]
  | (k1, v1) :: rest, k, v =>
    if k1 = k then (k1, v) :: rest else (k1, v1) :: ufSet rest k v

def lookupN : List (String × Nat) → String → Option Nat
  | [], _ => none
  | (k, v) :: rest, key => if k = key then some v else lookupN rest key

def idxSet : List (String × Nat) → String → Nat → List (String × Nat)
  | [], k, v => [(k, v)]
  | (k1, v1) :: rest, k, v =>
    if k1 = k then (k1, v) :: rest else (k1, v1) :: idxSet rest k v

/-- The string elements of an `effects` field read as a Python set
(`set(fn.get("effects", []) or [])`): duplicates collapse; non-string
entries (forbidden by the schema) are dropped, and a non-list value
contributes nothing iterable but strings would (the tools only ever
write lists of strings here). -/
def effStrs : Json → List String
  | .arr xs => (xs.filterMap (fun x => match x with
      | .str s => some s
      | _ => none)).dedup
  | _ => []

/-- `set(fn.get("effects", []) or []) or {"pure"}`. -/
def declaredOrPure (fkvs : List (String × Json)) : List String :=
  let eff := effStrs ((lookup fkvs "effects").getD .null)
  if eff = [] then ["pure"] else eff

/-- `set(user_funcs.get(fn_name, {}).get("effects", []) or []) or {"pure"}`
(the recursion guard's declaration read, tolerating an unknown name). -/
def declaredOrPureName (uf : List (String × List (String × Json)))
    (fnName : String) : List String :=
  declaredOrPure ((lookupUF uf fnName).getD [])

mutual

/-- `effects.iter_calls` with the generator reified as the yielded list
of (callee, pointer) pairs, in yield order.  `f"{ptr}/..." if ptr else
"/..."` is plain concatenation in both cases. -/
def iterCalls : Json → String → List (String × String)
  | .obj kvs, ptr =>
    (match lookup kvs "call" with
     | some (.obj ckvs) =>
       (match lookup ckvs "fn" with
        | some (.str fn) =>
          (qualLast fn, ptr ++ "/call/fn") ::
          (if qualLast fn = "list_map" ∨ qualLast fn = "list_filter" ∨
              qualLast fn = "list_reduce" then
            match lookup ckvs "args" with
            | some (.arr (.str callee :: _)) =>
              [(qualLast callee, ptr ++ "/call/args/0")]
            | _ => []
          else [])
        | _ => [])
     | _ => []) ++ iterCallsKvs kvs ptr
  | .arr xs, ptr => iterCallsList xs ptr 0
  | _, _ => []

def iterCallsKvs : List (String × Json) → String → List (String × String)
  | [], _ => []
  | (k, v) :: rest, ptr => iterCalls v (ptr ++ "/" ++ k) ++ iterCallsKvs rest ptr

def iterCallsList : List Json → String → Nat → List (String × String)
  | [], _, _ => []
  | v :: rest, ptr, i =>
    iterCalls v (ptr ++ "/" ++ natToStr i) ++ iterCallsList rest ptr (i+1)

end

/-- The body of a function as iterated by the checker (`fn.get("body",
[]) or []`): a non-list body contributes no call sites. -/
def bodyStmts (fkvs : List (String × Json)) : List Json :=
  match (lookup fkvs "body").getD .null with
  | .arr xs => xs
  | _ => []

/-- All call sites of a function body:
`for stmt_i, stmt in enumerate(body): iter_calls(stmt, f"{fn_ptr}/{stmt_i}")`. -/
def bodyCallsAux : List Json → String → Nat → List (String × String)
  | [], _, _ => []
  | stmt :: rest, fnPtr, i =>
    iterCalls stmt (fnPtr ++ "/" ++ natToStr i) ++ bodyCallsAux rest fnPtr (i+1)

def bodyCalls (fkvs : List (String × Json)) (fnPtr : String) :
    List (String × String) :=
  bodyCallsAux (bodyStmts fkvs) fnPtr 0

/-- `effects._user_function_index`: the functions list to (name-to-fields,
name-to-index) tables, later entries overwriting earlier. -/
def userFunctionIndex (fs : List Json) :
    List (String × List (String × Json)) × List (String × Nat) :=
  (fs.enum).foldl
    (fun acc fi =>
      match fi.2 with
      | .obj fkvs =>
        match lookup fkvs "name" with
        | some (.str name) => (ufSet acc.1 name fkvs, idxSet acc.2 name fi.1)
        | _ => acc
      | _ => acc)
    ([], [])

/-- `module.get("functions", []) or []` as iterated by the index builder:
only a list yields function candidates. -/
def moduleFunctions (module : Json) : List Json :=
  match module with
  | .obj mkvs =>
    match (lookup mkvs "functions").getD .null with
    | .arr xs => xs
    | _ => []
  | _ => []

def userFuncsOf (module : Json) : List (String × List (String × Json)) :=
  (userFunctionIndex (moduleFunctions module)).1

def funcIndexOf (module : Json) : List (String × Nat) :=
  (userFunctionIndex (moduleFunctions module)).2

/-- `f"/functions/{func_index[fn_name]}/body"` (the index is always
present for a visited user function). -/
def fnPtrOf (fi : List (String × Nat)) (fnName : String) : String :=
  "/functions/" ++ natToStr ((lookupN fi fnName).getD 0) ++ "/body"

/-- The mutable state of `compute_transitive_effects`: the memo dict,
the `visiting` set and the accumulated issues. -/
structure EffState where
  memo : List (String × List String)
  visiting : List String
  issues : List EffectIssue

end Effects

namespace Effects

open Json

mutual

/-- The `visit` closure of `effects.compute_transitive_effects`, with
fuel (`none` = fuel ran out; Python terminates because the `visiting`
guard bounds the recursion, so ample fuel always yields `some`).  Check
order follows the source: memo hit, recursion guard, builtin, unknown,
then the full traversal, which adds the name to `visiting`, folds the
body's call sites, then removes the name and memoises the result. -/
def visitF : Nat → String → List (String × List (String × Json)) →
    List (String × Nat) → EffState → Option (EffState × List String)
  | 0, _, _, _, _ => none
  | fuel+1, fnName, uf, fi, st =>
    match lookupS st.memo fnName with
    | some v => some (st, v)
    | none =>
      if fnName ∈ st.visiting then
        some ({ st with memo := memoSet st.memo fnName (declaredOrPureName uf fnName) },
          declaredOrPureName uf fnName)
      else
        match builtinEff fnName with
        | some be =>
          some ({ st with memo := memoSet st.memo fnName be.2 }, be.2)
        | none =>
          match lookupUF uf fnName with
          | none => some ({ st with memo := memoSet st.memo fnName [] }, [])
          | some fkvs =>
            match visitCallsF fuel (bodyCalls fkvs (fnPtrOf fi fnName)) uf fi
                { st with visiting := fnName :: st.visiting }
                (declaredOrPure fkvs) with
            | none => none
            | some (st2, req2) =>
              some (⟨memoSet st2.memo fnName req2,
                     st2.visiting.erase fnName, st2.issues⟩, req2)

/-- The `for callee, callee_ptr in iter_calls(...)` loop body of `visit`:
known callees (builtin or user) are visited and their effects unioned
into `required`; unknown callees append an `UnknownFunctionCall` issue. -/
def visitCallsF : Nat → List (String × String) →
    List (String × List (String × Json)) → List (String × Nat) →
    EffState → List String → Option (EffState × List String)
  | 0, _, _, _, _, _ => none
  | _+1, [], _, _, st, req => some (st, req)
  | fuel+1, (callee, calleePtr) :: rest, uf, fi, st, req =>
    if isBuiltinEff callee || (lookupUF uf callee).isSome then
      match visitF fuel callee uf fi st with
      | none => none
      | some (st2, eff) => visitCallsF fuel rest uf fi st2 (unionS req eff)
    else
      visitCallsF fuel rest uf fi
        { st with issues := st.issues ++
            [⟨calleePtr, "UnknownFunctionCall", "error"⟩] } req

end

/-- `for name in user_funcs.keys(): visit(name)`. -/
def visitAllF : Nat → List String → List (String × List (String × Json)) →
    List (String × Nat) → EffState → Option EffState
  | 0, _, _, _, _ => none
  | _+1, [], _, _, st => some st
  | fuel+1, n :: rest, uf, fi, st =>
    match visitF fuel n uf fi st with
    | none => none
    | some (st2, _) => visitAllF fuel rest uf fi st2

/-- `effects.compute_transitive_effects`: returns (memo, issues);
`none` only on fuel exhaustion. -/
def compute_transitive_effects (fuel : Nat) (module : Json) :
    Option (List (String × List String) × List EffectIssue) :=
  match userFunctionIndex (moduleFunctions module) with
  | (uf, fi) =>
    (visitAllF fuel (uf.map (fun kv => kv.1)) uf fi ⟨[], [], []⟩).map
      (fun st => (st.memo, st.issues))

/-- The reporting loop of `effects.check_effects` over
`effects_map.items()`. -/
def checkLoop : List (String × List String) →
    List (String × List (String × Json)) → List (String × Nat) →
    List EffectIssue
  | [], _, _ => []
  | (fnName, required) :: rest, uf, fi =>
    (if isBuiltinEff fnName then []
     else match lookupUF uf fnName with
     | none => []
     | some fkvs =>
       (if diffS required (declaredOrPure fkvs) ≠ [] then
         [⟨"/functions/" ++ natToStr ((lookupN fi fnName).getD 0) ++ "/effects",
           "MissingEffect", "error"⟩]
       else []) ++
       (if "pure" ∈ declaredOrPure fkvs ∧ (declaredOrPure fkvs).length > 1 then
         [⟨"/functions/" ++ natToStr ((lookupN fi fnName).getD 0) ++ "/effects",
           "NotPure", "warning"⟩]
       else [])) ++ checkLoop rest uf fi

/-- `effects.check_effects`. -/
def check_effects (fuel : Nat) (module : Json) : Option (List EffectIssue) :=
  match userFunctionIndex (moduleFunctions module) with
  | (uf, fi) =>
    match compute_transitive_effects fuel module with
    | none => none
    | some (emap, issues) => some (issues ++ checkLoop emap uf fi)

end Effects

namespace Repair

open Json Effects

/-- `ptr.strip("/")`: drop leading and trailing slashes. -/
def stripSlashes (l : List Char) : List Char :=
  (Pointer.lstripSlash ((Pointer.lstripSlash l).reverse)).reverse

/-- `[p for p in ptr.strip("/").split("/") if p]`. -/
def ptrParts (s : String) : List String :=
  ((Pointer.splitOnSlashAux [] (stripSlashes s.data)).map
    (fun cs => String.mk cs)).filter (fun p => p ≠ "")

/-- The MissingReturn loop of `repair_suggest.suggest_patches`. -/
def missingReturnPatches : List EffectIssue → List Json
  | [] => []
  | it :: rest =>
    (if it.code = "MissingReturn" then
      match ptrParts it.pointer with
      | p0 :: p1 :: _ =>
        if p0 = "functions" ∧ Pointer.isDigitSeg p1.data then
          [.obj [("op", .str "add"),
                 ("path", .str ("/functions/" ++ natToStr (Pointer.segToNat p1.data)
                   ++ "/body/-")),
                 ("value", .obj [("return", .null)])]]
        else []
      | _ => []
    else []) ++ missingReturnPatches rest

/-- The NotPure loop of `suggest_patches`; `none` models the uncaught
IndexError Python raises on an out-of-range function index. -/
def notPurePatches (module : Json) : List EffectIssue → Option (List Json)
  | [] => some []
  | it :: rest => do
    let here ← (if it.code = "NotPure" then
      match ptrParts it.pointer with
      | p0 :: p1 :: p2 :: _ =>
        if p0 = "functions" ∧ Pointer.isDigitSeg p1.data ∧ p2 = "effects" then
          match (moduleFunctions module)[Pointer.segToNat p1.data]? with
          | none => none
          | some fn =>
            match (match fn with
                   | .obj fkvs => (lookup fkvs "effects").getD (.arr [])
                   | _ => .arr []) with
            | .arr es =>
              if es.contains (.str "pure") ∧ es.length > 1 then
                some [Json.obj [("op", .str "remove"),
                  ("path", .str ("/functions/" ++ natToStr (Pointer.segToNat p1.data)
                    ++ "/effects/"
                    ++ natToStr (es.findIdx (fun e => e = .str "pure"))))]]
              else some []
            | _ => some []
        else some []
      | _ => some []
    else some ([] : List Json))
    let more ← notPurePatches module rest
    some (here ++ more)

/-- The MissingEffect loop of `suggest_patches`.  `missing` is disjoint
from `declared` by construction, so the `if m not in new_eff` guard when
appending the sorted missing effects never fires and the appended list is
`declared ++ sorted(missing)`. -/
def missingEffectPatches (module : Json) (emap : List (String × List String)) :
    List EffectIssue → Option (List Json)
  | [] => some []
  | it :: rest => do
    let here ← (if it.code = "MissingEffect" then
      match ptrParts it.pointer with
      | p0 :: p1 :: p2 :: _ =>
        if p0 = "functions" ∧ Pointer.isDigitSeg p1.data ∧ p2 = "effects" then
          match (moduleFunctions module)[Pointer.segToNat p1.data]? with
          | none => none
          | some (.obj fkvs) =>
            match lookup fkvs "name" with
            | some (.str name) =>
              let required := (lookupS emap name).getD []
              let declaredList := match (lookup fkvs "effects").getD (.arr []) with
                | .arr es => es
                | _ => []
              let declared := if declaredList = [] then [Json.str "pure"] else declaredList
              let missing := required.filter (fun r => !declared.contains (.str r))
              if missing = [] then some []
              else
                let newEff := declared ++ (Fmt.sortStrs missing).map .str
                let newEff2 := if newEff.contains (.str "pure") ∧ newEff.length > 1 then
                    newEff.filter (fun e => e ≠ .str "pure")
                  else newEff
                some [Json.obj [("op", .str "replace"),
                  ("path", .str ("/functions/" ++ natToStr (Pointer.segToNat p1.data)
                    ++ "/effects")),
                  ("value", .arr newEff2)]]
            | _ => some []
          | some _ => some []
        else some []
      | _ => some []
    else some ([] : List Json))
    let more ← missingEffectPatches module emap rest
    some (here ++ more)

/-- `repair_suggest.suggest_patches`.  The effects map is precomputed only
when a MissingEffect issue is present, with exceptions swallowed to `{}`
(fuel exhaustion lands in the same default).  De-duplication keeps the
first of any structurally equal patches (Python keys them by their
sorted-key JSON dump; all patches here are built with one fixed key
order). -/
def suggest_patches (fuel : Nat) (module : Json) (issues : List EffectIssue) :
    Option (List Json) := do
  let emap := if issues.any (fun it => it.code = "MissingEffect") then
      match compute_transitive_effects fuel module with
      | some (em, _) => em
      | none => []
    else []
  let p2 ← notPurePatches module issues
  let p3 ← missingEffectPatches module emap issues
  some ((missingReturnPatches issues ++ p2 ++ p3).dedup)

end Repair

/-- The C5 module: a single function `g` declaring `["pure"]` whose body
calls `print`. -/
def C5module : Json := .obj [("functions", .arr [
  .obj [("name", .str "g"), ("params", .arr []),
        ("effects", .arr [.str "pure"]),
        ("body", .arr [
          .obj [("expr", .obj [("call", .obj [("fn", .str "print"),
                ("args", .arr [.str "hi"])])])]])]])]

/-- C5: the same module after the suggested repair. -/
def C5moduleFixed : Json := .obj [("functions", .arr [
  .obj [("name", .str "g"), ("params", .arr []),
        ("effects", .arr [.str "io.print"]),
        ("body", .arr [
          .obj [("expr", .obj [("call", .obj [("fn", .str "print"),
                ("args", .arr [.str "hi"])])])]])]])]

open Effects Repair in
/-- C5: MissingEffect closure end-to-end.  `check_effects` reports exactly
one MissingEffect error at `/functions/0/effects`; `suggest_patches`
emits exactly one patch, replacing the effects list by `["io.print"]`;
applying it with `pointer.apply_patch` yields the fixed module, on which
`check_effects` returns the empty list. -/
theorem C5_missing_effect_closure :
    check_effects 20 C5module =
      some [⟨"/functions/0/effects", "MissingEffect", "error"⟩] ∧
    suggest_patches 20 C5module
        [⟨"/functions/0/effects", "MissingEffect", "error"⟩] =
      some [.obj [("op", .str "replace"),
                  ("path", .str "/functions/0/effects"),
                  ("value", .arr [.str "io.print"])]] ∧
    Pointer.apply_patch C5module
        [.obj [("op", .str "replace"),
               ("path", .str "/functions/0/effects"),
               ("value", .arr [.str "io.print"])]] = .ok C5moduleFixed ∧
    check_effects 20 C5moduleFixed = some [] := by
  refine ⟨by decide, by decide, by decide, by decide⟩

/-- The C2 module: `f` (declares nothing) calls `g` and then `http_get`;
`g` (declares nothing) calls `f` back. -/
def C2module : Json := .obj [("functions", .arr [
  .obj [("name", .str "f"), ("params", .arr []), ("effects", .arr []),
        ("body", .arr [
          .obj [("expr", .obj [("call", .obj [("fn", .str "g"),
                ("args", .arr [])])])],
          .obj [("expr", .obj [("call", .obj [("fn", .str "http_get"),
                ("args", .arr [.str "u"])])])]])],
  .obj [("name", .str "g"), ("params", .arr []), ("effects", .arr []),
        ("body", .arr [
          .obj [("expr", .obj [("call", .obj [("fn", .str "f"),
                ("args", .arr [])])])]])]])]

open Effects in
/-- C2 counterexample: effect monotonicity fails on `C2module`.  `g`
calls `f`, yet the returned map has `effects_map(g) = {pure}` while
`effects_map(f) = {pure, net.http}`: when `g`'s body was traversed, the
in-progress `f` hit the `visiting` recursion guard and contributed only
its declaration (`{pure}`), missing the `net.http` that `f` picks up
from the later `http_get` call. -/
theorem C2_counterexample :
    compute_transitive_effects 20 C2module =
      some ([("f", ["pure", "net.http"]), ("g", ["pure"]),
             ("http_get", ["net.http"])], []) ∧
    ("f", "/functions/1/body/0/expr/call/fn") ∈
      bodyCalls [("name", .str "g"), ("params", .arr []), ("effects", .arr []),
        ("body", .arr [
          .obj [("expr", .obj [("call", .obj [("fn", .str "f"),
                ("args", .arr [])])])]])] "/functions/1/body" ∧
    "net.http" ∉ ["pure"] := by
  refine ⟨by decide, by decide, by decide⟩

namespace Effects

open Json

theorem lookupS_memoSet (m : List (String × List String)) (k k2 : String)
    (v : List String) :
    lookupS (memoSet m k v) k2 = if k = k2 then some v else lookupS m k2 := by
  induction m with
  | nil =>
    simp only [memoSet, lookupS]
  | cons kv rest ih =>
    match kv with
    | (k1, v1) =>
      rw [memoSet]
      by_cases h1 : k1 = k
      · subst h1
        rw [if_pos rfl, lookupS, lookupS]
        by_cases h2 : k1 = k2 <;> simp [h2]
      · rw [if_neg h1, lookupS, ih, lookupS]
        by_cases h2 : k = k2
        · subst h2
          simp [h1]
        · simp [h2]

theorem mem_unionS_left {a b : List String} {x : String} (h : x ∈ a) :
    x ∈ unionS a b := by
  rw [unionS, List.mem_dedup]
  exact List.mem_append_left b h

theorem mem_unionS_right {a b : List String} {x : String} (h : x ∈ b) :
    x ∈ unionS a b := by
  rw [unionS, List.mem_dedup]
  exact List.mem_append_right a h

theorem declaredOrPureName_eq {uf : List (String × List (String × Json))}
    {fn : String} {kk : List (String × Json)} (h : lookupUF uf fn = some kk) :
    declaredOrPureName uf fn = declaredOrPure kk := by
  rw [declaredOrPureName, h]
  rfl


/-- What the final effect set of a caller must contain for one callee
occurrence: the builtin's declared effects if the callee is a builtin
name, else the callee's declared-or-pure set if it is a user function. -/
def CALLGOOD (uf : List (String × List (String × Json))) (c : String)
    (v : List String) : Prop :=
  (∀ are : Nat × List String, builtinEff c = some are → are.2 ⊆ v) ∧
  (isBuiltinEff c = false → ∀ ckvs, lookupUF uf c = some ckvs →
    declaredOrPure ckvs ⊆ v)

def GOODCALLS (uf : List (String × List (String × Json)))
    (fi : List (String × Nat)) (k : String) (kk : List (String × Json))
    (v : List String) : Prop :=
  ∀ cp ∈ bodyCalls kk (fnPtrOf fi k), CALLGOOD uf cp.1 v

/-- Invariant of the traversal state. -/
def INV (uf : List (String × List (String × Json))) (fi : List (String × Nat))
    (st : EffState) : Prop :=
  (∀ b v, lookupS st.memo b = some v →
     ∀ are : Nat × List String, builtinEff b = some are → v = are.2) ∧
  (∀ k v kk, isBuiltinEff k = false → lookupUF uf k = some kk →
     lookupS st.memo k = some v → declaredOrPure kk ⊆ v) ∧
  (∀ k v kk, isBuiltinEff k = false → lookupUF uf k = some kk →
     k ∉ st.visiting → lookupS st.memo k = some v → GOODCALLS uf fi k kk v) ∧
  (∀ x ∈ st.visiting, isBuiltinEff x = false)

def RET (uf : List (String × List (String × Json))) (fn : String)
    (eff : List String) : Prop :=
  (∀ are : Nat × List String, builtinEff fn = some are → eff = are.2) ∧
  (isBuiltinEff fn = false → ∀ kk, lookupUF uf fn = some kk →
    declaredOrPure kk ⊆ eff)

theorem visit_inv : ∀ fuel : Nat,
    (∀ fn uf fi st st2 eff, INV uf fi st →
      visitF fuel fn uf fi st = some (st2, eff) →
      INV uf fi st2 ∧ st2.visiting = st.visiting ∧ RET uf fn eff) ∧
    (∀ calls uf fi st req st2 req2, INV uf fi st →
      visitCallsF fuel calls uf fi st req = some (st2, req2) →
      INV uf fi st2 ∧ st2.visiting = st.visiting ∧ req ⊆ req2 ∧
        ∀ cp ∈ calls, CALLGOOD uf cp.1 req2) := by
  intro fuel
  induction fuel with
  | zero =>
    constructor
    · intro fn uf fi st st2 eff _ h
      rw [visitF] at h
      exact Option.noConfusion h
    · intro calls uf fi st req st2 req2 _ h
      rw [visitCallsF] at h
      exact Option.noConfusion h
  | succ fuel ih =>
    obtain ⟨ihV, ihC⟩ := ih
    constructor
    · -- visitF case
      intro fn uf fi st st2 eff hinv h
      obtain ⟨hA, hB, hC, hD⟩ := hinv
      rw [visitF] at h
      cases hm : lookupS st.memo fn with
      | some v =>
        rw [hm] at h
        dsimp only at h
        simp only [Option.some.injEq, Prod.mk.injEq] at h
        obtain ⟨h1, h2⟩ := h
        subst h1
        subst h2
        exact ⟨⟨hA, hB, hC, hD⟩, rfl,
          fun are hbe => hA fn _ hm are hbe,
          fun hnb kk hkk => hB fn _ kk hnb hkk hm⟩
      | none =>
        rw [hm] at h
        dsimp only at h
        by_cases hv : fn ∈ st.visiting
        · -- recursion guard
          rw [if_pos hv] at h
          simp only [Option.some.injEq, Prod.mk.injEq] at h
          obtain ⟨h1, h2⟩ := h
          subst h1
          subst h2
          have hbfn : isBuiltinEff fn = false := hD fn hv
          refine ⟨⟨?_, ?_, ?_, hD⟩, rfl, ?_, ?_⟩
          · intro b v hl are hbe
            rw [lookupS_memoSet] at hl
            by_cases hfb : fn = b
            · subst hfb
              rw [isBuiltinEff, hbe] at hbfn
              exact Bool.noConfusion hbfn
            · rw [if_neg hfb] at hl
              exact hA b v hl are hbe
          · intro k v kk hnb hkk hl
            rw [lookupS_memoSet] at hl
            by_cases hfk : fn = k
            · subst hfk
              rw [if_pos rfl] at hl
              obtain rfl : declaredOrPureName uf fn = v := Option.some.inj hl
              rw [declaredOrPureName_eq hkk]
              exact fun x hx => hx
            · rw [if_neg hfk] at hl
              exact hB k v kk hnb hkk hl
          · intro k v kk hnb hkk hkv hl
            rw [lookupS_memoSet] at hl
            by_cases hfk : fn = k
            · subst hfk
              exact absurd hv hkv
            · rw [if_neg hfk] at hl
              exact hC k v kk hnb hkk hkv hl
          · intro are hbe
            rw [isBuiltinEff, hbe] at hbfn
            exact Bool.noConfusion hbfn
          · intro _ kk hkk
            rw [declaredOrPureName_eq hkk]
            exact fun x hx => hx
        · rw [if_neg hv] at h
          cases hb : builtinEff fn with
          | some be =>
            rw [hb] at h
            dsimp only at h
            simp only [Option.some.injEq, Prod.mk.injEq] at h
            obtain ⟨h1, h2⟩ := h
            subst h1
            subst h2
            have hbfn : isBuiltinEff fn = true := by
              rw [isBuiltinEff, hb]
              rfl
            refine ⟨⟨?_, ?_, ?_, hD⟩, rfl, ?_, ?_⟩
            · intro b v hl are hbe
              rw [lookupS_memoSet] at hl
              by_cases hfb : fn = b
              · subst hfb
                rw [if_pos rfl] at hl
                obtain rfl : be.2 = v := Option.some.inj hl
                obtain rfl : be = are := Option.some.inj (hb.symm.trans hbe)
                rfl
              · rw [if_neg hfb] at hl
                exact hA b v hl are hbe
            · intro k v kk hnb hkk hl
              rw [lookupS_memoSet] at hl
              by_cases hfk : fn = k
              · subst hfk
                rw [hbfn] at hnb
                exact Bool.noConfusion hnb
              · rw [if_neg hfk] at hl
                exact hB k v kk hnb hkk hl
            · intro k v kk hnb hkk hkv hl
              rw [lookupS_memoSet] at hl
              by_cases hfk : fn = k
              · subst hfk
                rw [hbfn] at hnb
                exact Bool.noConfusion hnb
              · rw [if_neg hfk] at hl
                exact hC k v kk hnb hkk hkv hl
            · intro are hbe
              obtain rfl : be = are := Option.some.inj (hb.symm.trans hbe)
              rfl
            · intro hnb
              rw [hbfn] at hnb
              exact Bool.noConfusion hnb
          | none =>
            rw [hb] at h
            dsimp only at h
            have hbfn : isBuiltinEff fn = false := by
              rw [isBuiltinEff, hb]
              rfl
            cases hu : lookupUF uf fn with
            | none =>
              rw [hu] at h
              dsimp only at h
              simp only [Option.some.injEq, Prod.mk.injEq] at h
              obtain ⟨h1, h2⟩ := h
              subst h1
              subst h2
              refine ⟨⟨?_, ?_, ?_, hD⟩, rfl, ?_, ?_⟩
              · intro b v hl are hbe
                rw [lookupS_memoSet] at hl
                by_cases hfb : fn = b
                · subst hfb
                  exact absurd hbe (by rw [hb]; exact Option.noConfusion)
                · rw [if_neg hfb] at hl
                  exact hA b v hl are hbe
              · intro k v kk hnb hkk hl
                rw [lookupS_memoSet] at hl
                by_cases hfk : fn = k
                · subst hfk
                  rw [hu] at hkk
                  exact Option.noConfusion hkk
                · rw [if_neg hfk] at hl
                  exact hB k v kk hnb hkk hl
              · intro k v kk hnb hkk hkv hl
                rw [lookupS_memoSet] at hl
                by_cases hfk : fn = k
                · subst hfk
                  rw [hu] at hkk
                  exact Option.noConfusion hkk
                · rw [if_neg hfk] at hl
                  exact hC k v kk hnb hkk hkv hl
              · intro are hbe
                rw [hb] at hbe
                exact Option.noConfusion hbe
              · intro _ kk hkk
                rw [hu] at hkk
                exact Option.noConfusion hkk
            | some fkvs =>
              rw [hu] at h
              dsimp only at h
              cases hvc : visitCallsF fuel (bodyCalls fkvs (fnPtrOf fi fn)) uf fi
                  { st with visiting := fn :: st.visiting }
                  (declaredOrPure fkvs) with
              | none =>
                rw [hvc] at h
                exact Option.noConfusion h
              | some pr =>
                match pr with
                | (stM, req2) =>
                  rw [hvc] at h
                  dsimp only at h
                  simp only [Option.some.injEq, Prod.mk.injEq] at h
                  obtain ⟨h1, h2⟩ := h
                  subst h1
                  subst h2
                  have hinv1 : INV uf fi { st with visiting := fn :: st.visiting } := by
                    refine ⟨hA, hB, ?_, ?_⟩
                    · intro k v kk hnb hkk hkv hl
                      exact hC k v kk hnb hkk
                        (fun hmem => hkv (List.mem_cons_of_mem fn hmem)) hl
                    · intro x hx
                      cases List.mem_cons.mp hx with
                      | inl he =>
                        subst he
                        exact hbfn
                      | inr hmem => exact hD x hmem
                  obtain ⟨⟨hAM, hBM, hCM, hDM⟩, hvisM, hreqM, hcallsM⟩ :=
                    ihC (bodyCalls fkvs (fnPtrOf fi fn)) uf fi _ _ _ _ hinv1 hvc
                  have hvis2 : stM.visiting.erase fn = st.visiting := by
                    rw [show stM.visiting = fn :: st.visiting from hvisM]
                    exact List.erase_cons_head fn st.visiting
                  refine ⟨⟨?_, ?_, ?_, ?_⟩, hvis2, ?_, ?_⟩
                  · intro b v hl are hbe
                    rw [lookupS_memoSet] at hl
                    by_cases hfb : fn = b
                    · subst hfb
                      rw [hb] at hbe
                      exact Option.noConfusion hbe
                    · rw [if_neg hfb] at hl
                      exact hAM b v hl are hbe
                  · intro k v kk hnb hkk hl
                    rw [lookupS_memoSet] at hl
                    by_cases hfk : fn = k
                    · subst hfk
                      rw [if_pos rfl] at hl
                      obtain rfl : req2 = v := Option.some.inj hl
                      obtain rfl : fkvs = kk := Option.some.inj (hu.symm.trans hkk)
                      exact fun x hx => hreqM hx
                    · rw [if_neg hfk] at hl
                      exact hBM k v kk hnb hkk hl
                  · intro k v kk hnb hkk hkv hl
                    rw [lookupS_memoSet] at hl
                    by_cases hfk : fn = k
                    · subst hfk
                      rw [if_pos rfl] at hl
                      obtain rfl : req2 = v := Option.some.inj hl
                      obtain rfl : fkvs = kk := Option.some.inj (hu.symm.trans hkk)
                      intro cp hcp
                      exact hcallsM cp hcp
                    · rw [if_neg hfk] at hl
                      refine hCM k v kk hnb hkk ?_ hl
                      rw [show stM.visiting = fn :: st.visiting from hvisM]
                      intro hmem
                      cases List.mem_cons.mp hmem with
                      | inl he => exact hfk he.symm
                      | inr hmem2 =>
                        exact hkv (show k ∈ stM.visiting.erase fn from by
                          rw [hvis2]
                          exact hmem2)
                  · intro x hx
                    exact hDM x (List.mem_of_mem_erase hx)
                  · intro are hbe
                    rw [hb] at hbe
                    exact Option.noConfusion hbe
                  · intro _ kk hkk
                    obtain rfl : fkvs = kk := Option.some.inj (hu.symm.trans hkk)
                    exact fun x hx => hreqM hx
    · -- visitCallsF case
      intro calls uf fi st req st2 req2 hinv h
      cases calls with
      | nil =>
        rw [visitCallsF] at h
        simp only [Option.some.injEq, Prod.mk.injEq] at h
        obtain ⟨h1, h2⟩ := h
        subst h1
        subst h2
        exact ⟨hinv, rfl, fun x hx => hx, fun cp hcp => absurd hcp (List.not_mem_nil cp)⟩
      | cons cp0 rest =>
        match cp0 with
        | (callee, ptr) =>
          rw [visitCallsF] at h
          by_cases hkn : (isBuiltinEff callee || (lookupUF uf callee).isSome) = true
          · rw [if_pos hkn] at h
            cases hvf : visitF fuel callee uf fi st with
            | none =>
              rw [hvf] at h
              exact Option.noConfusion h
            | some prA =>
              match prA with
              | (stA, eff) =>
                rw [hvf] at h
                dsimp only at h
                obtain ⟨hinvA, hvisA, hretA⟩ := ihV callee uf fi st stA eff hinv hvf
                obtain ⟨hinv2, hvis2, hsub2, hcalls2⟩ :=
                  ihC rest uf fi stA (unionS req eff) st2 req2 hinvA h
                refine ⟨hinv2, hvis2.trans hvisA, ?_, ?_⟩
                · exact fun x hx => hsub2 (mem_unionS_left hx)
                · intro cp hcp
                  cases List.mem_cons.mp hcp with
                  | inl he =>
                    subst he
                    constructor
                    · intro are hbe
                      have he2 : eff = are.2 := hretA.1 are hbe
                      intro x hx
                      exact hsub2 (mem_unionS_right (he2 ▸ hx))
                    · intro hnb ckvs hckvs
                      have hsub3 := hretA.2 hnb ckvs hckvs
                      exact fun x hx => hsub2 (mem_unionS_right (hsub3 hx))
                  | inr hmem => exact hcalls2 cp hmem
          · rw [if_neg hkn] at h
            have hinvI : INV uf fi { st with issues := st.issues ++
                [⟨ptr, "UnknownFunctionCall", "error"⟩] } := hinv
            obtain ⟨hinv2, hvis2, hsub2, hcalls2⟩ :=
              ihC rest uf fi _ req st2 req2 hinvI h
            refine ⟨hinv2, hvis2, hsub2, ?_⟩
            intro cp hcp
            cases List.mem_cons.mp hcp with
            | inl he =>
              subst he
              constructor
              · intro are hbe
                exfalso
                apply hkn
                rw [isBuiltinEff, hbe]
                rfl
              · intro _ ckvs hckvs
                exfalso
                apply hkn
                rw [hckvs]
                simp
            | inr hmem => exact hcalls2 cp hmem

theorem INV_empty (uf : List (String × List (String × Json)))
    (fi : List (String × Nat)) : INV uf fi ⟨[], [], []⟩ := by
  refine ⟨?_, ?_, ?_, ?_⟩
  · intro b v hl
    exact Option.noConfusion hl
  · intro k v kk _ _ hl
    exact Option.noConfusion hl
  · intro k v kk _ _ _ hl
    exact Option.noConfusion hl
  · intro x hx
    exact absurd hx (List.not_mem_nil x)

theorem visitAll_inv : ∀ (fuel : Nat) (names : List String) uf fi
    (st st2 : EffState), INV uf fi st → visitAllF fuel names uf fi st = some st2 →
    INV uf fi st2 ∧ st2.visiting = st.visiting := by
  intro fuel
  induction fuel with
  | zero =>
    intro names uf fi st st2 _ h
    rw [visitAllF] at h
    exact Option.noConfusion h
  | succ fuel ih =>
    intro names uf fi st st2 hinv h
    cases names with
    | nil =>
      rw [visitAllF] at h
      obtain rfl : st = st2 := Option.some.inj h
      exact ⟨hinv, rfl⟩
    | cons n rest =>
      rw [visitAllF] at h
      cases hvf : visitF fuel n uf fi st with
      | none =>
        rw [hvf] at h
        exact Option.noConfusion h
      | some pr =>
        match pr with
        | (stA, eff) =>
          rw [hvf] at h
          dsimp only at h
          obtain ⟨hinvA, hvisA, _⟩ := (visit_inv fuel).1 n uf fi st stA eff hinv hvf
          obtain ⟨hinv2, hvis2⟩ := ih rest uf fi stA st2 hinvA h
          exact ⟨hinv2, hvis2.trans hvisA⟩

/-- C2 (amended): what the transitive effect map does guarantee.  For any
successful run of `compute_transitive_effects`, the entry of a user
(non-builtin-named) function `f` is a superset, for every call site in
`f`'s body, of the callee's *declared* interface: the builtin's effect
set for a builtin callee, and the callee's declared-or-pure set for a
user callee.  Full monotonicity `effects_map(f) ⊇ effects_map(g)` fails
(see the counterexample): a cyclic callee contributes only its
declaration through the `visiting` guard, not its final transitive
set. -/
theorem C2_effect_superset_amended (fuel : Nat) (module : Json)
    (memo : List (String × List String)) (issues : List EffectIssue)
    (h : compute_transitive_effects fuel module = some (memo, issues))
    (f : String) (fkvs : List (String × Json))
    (hf : lookupUF (userFuncsOf module) f = some fkvs)
    (hnb : isBuiltinEff f = false)
    (efff : List String) (hm : lookupS memo f = some efff)
    (callee : String) (ptr : String)
    (hc : (callee, ptr) ∈ bodyCalls fkvs (fnPtrOf (funcIndexOf module) f)) :
    (∀ are : Nat × List String, builtinEff callee = some are → are.2 ⊆ efff) ∧
    (isBuiltinEff callee = false → ∀ ckvs,
      lookupUF (userFuncsOf module) callee = some ckvs →
      declaredOrPure ckvs ⊆ efff) := by
  have h2 : (visitAllF fuel ((userFuncsOf module).map (fun kv => kv.1))
      (userFuncsOf module) (funcIndexOf module) ⟨[], [], []⟩).map
      (fun st => (st.memo, st.issues)) = some (memo, issues) := h
  rw [Option.map_eq_some'] at h2
  obtain ⟨st, hrun, hpair⟩ := h2
  have hmemo : st.memo = memo := (Prod.mk.injEq _ _ _ _ ▸ hpair).1
  obtain ⟨⟨_, _, hC, _⟩, hvis⟩ := visitAll_inv fuel _ _ _ _ st
    (INV_empty (userFuncsOf module) (funcIndexOf module)) hrun
  have hgc := hC f efff fkvs hnb hf
    (by rw [hvis]; exact List.not_mem_nil f)
    (by rw [hmemo]; exact hm)
  exact hgc (callee, ptr) hc

end Effects

/-- C2 witness: the amended theorem applied to `C2module` twice: for
caller `g` and user callee `f` (declared-or-pure of `f` is within
`effects_map(g)`), and for caller `f` and builtin callee `http_get`
(its `net.http` is within `effects_map(f)`). -/
theorem C2_amended_witness :
    Effects.declaredOrPure
        [("name", .str "f"), ("params", .arr []), ("effects", .arr []),
         ("body", .arr [
           .obj [("expr", .obj [("call", .obj [("fn", .str "g"),
                 ("args", .arr [])])])],
           .obj [("expr", .obj [("call", .obj [("fn", .str "http_get"),
                 ("args", .arr [.str "u"])])])]])] ⊆ ["pure"] ∧
    ((1, ["net.http"]) : Nat × List String).2 ⊆ ["pure", "net.http"] := by
  constructor
  · exact (Effects.C2_effect_superset_amended 20 C2module
      [("f", ["pure", "net.http"]), ("g", ["pure"]), ("http_get", ["net.http"])]
      [] (by decide) "g"
      [("name", .str "g"), ("params", .arr []), ("effects", .arr []),
       ("body", .arr [
         .obj [("expr", .obj [("call", .obj [("fn", .str "f"),
               ("args", .arr [])])])]])]
      (by decide) (by decide) ["pure"] (by decide)
      "f" "/functions/1/body/0/expr/call/fn" (by decide)).2 (by decide)
      [("name", .str "f"), ("params", .arr []), ("effects", .arr []),
       ("body", .arr [
         .obj [("expr", .obj [("call", .obj [("fn", .str "g"),
               ("args", .arr [])])])],
         .obj [("expr", .obj [("call", .obj [("fn", .str "http_get"),
               ("args", .arr [.str "u"])])])]])]
      (by decide)
  · exact (Effects.C2_effect_superset_amended 20 C2module
      [("f", ["pure", "net.http"]), ("g", ["pure"]), ("http_get", ["net.http"])]
      [] (by decide) "f"
      [("name", .str "f"), ("params", .arr []), ("effects", .arr []),
       ("body", .arr [
         .obj [("expr", .obj [("call", .obj [("fn", .str "g"),
               ("args", .arr [])])])],
         .obj [("expr", .obj [("call", .obj [("fn", .str "http_get"),
               ("args", .arr [.str "u"])])])]])]
      (by decide) (by decide) ["pure", "net.http"] (by decide)
      "http_get" "/functions/0/body/1/expr/call/fn" (by decide)).1
      (1, ["net.http"]) (by decide)

namespace Typecheck

/-- Substitutions are insertion-ordered dicts from type-variable names to
types. -/
abbrev Subst := List (String × Ty)

/-- Dict assignment on a string-to-type dict. -/
def subSet : List (String × Ty) → String → Ty → List (String × Ty)
  | [], k, v => [(k, v)]
  | (k1, v1) :: rest, k, v =>
    if k1 = k then (k1, v) :: rest else (k1, v1) :: subSet rest k v

mutual

/-- `typecheck._apply`.  The fuel makes the recursion through substitution
entries structural; Python would not terminate on a cyclic substitution
(which `unify`'s occurs check never builds), and with adequate fuel the
result is the source's. -/
def applyF : Nat → Ty → Subst → Ty
  | 0, t, _ => t
  | fuel+1, t, subst =>
    match t with
    | .var name =>
      match lookupTy subst name with
      | some t2 => applyF fuel t2 subst
      | none => .var name
    | .listT e => .listT (applyF fuel e subst)
    | .recordT fields => .recordT (applyKvsF fuel fields subst)
    | .anyT => .anyT
    | .prim p => .prim p

def applyKvsF : Nat → List (String × Ty) → Subst → List (String × Ty)
  | 0, kvs, _ => kvs
  | _+1, [], _ => []
  | fuel+1, (k, v) :: rest, subst =>
    (k, applyF fuel v subst) :: applyKvsF fuel rest subst

end

mutual

/-- `typecheck._occurs`. -/
def occursF : Nat → String → Ty → Subst → Bool
  | 0, _, _, _ => false
  | fuel+1, var2, ty, subst =>
    match applyF (fuel+1) ty subst with
    | .var name => name = var2
    | .listT e => occursF fuel var2 e subst
    | .recordT fields => occursKvsF fuel var2 fields subst
    | _ => false

def occursKvsF : Nat → String → List (String × Ty) → Subst → Bool
  | 0, _, _, _ => false
  | _+1, _, [], _ => false
  | fuel+1, var2, (_, v) :: rest, subst =>
    occursF fuel var2 v subst || occursKvsF fuel var2 rest subst

end

/-- `typecheck._num_join`: equal names join to themselves and
`{Int, Float}` joins to `Float`. -/
def num_join (a b : String) : Option String :=
  if a = b then some a
  else if (a = "Int" ∧ b = "Float") ∨ (a = "Float" ∧ b = "Int") then some "Float"
  else none

mutual

/-- `typecheck.unify`: "actual must be assignable to expected".  The
source mutates the substitution dict in place; here it is threaded, and
the possibly-extended substitution is returned also on failure, exactly
as the mutation leaves it.  Fuel covers the recursion through
substitution entries. -/
def unify : Nat → Ty → Ty → Subst → Bool × Subst
  | 0, _, _, subst => (false, subst)
  | fuel+1, expected0, actual0, subst =>
    match applyF (fuel+1) expected0 subst, applyF (fuel+1) actual0 subst with
    | .anyT, _ => (true, subst)
    | _, .anyT => (true, subst)
    | .var name, actual =>
      (match lookupTy subst name with
       | some t2 => unify fuel t2 actual subst
       | none =>
         if occursF (fuel+1) name actual subst then (true, subst)
         else (true, subSet subst name actual))
    | expected, .var name =>
      (match lookupTy subst name with
       | some t2 => unify fuel expected t2 subst
       | none =>
         if occursF (fuel+1) name expected subst then (true, subst)
         else (true, subSet subst name expected))
    | .prim en, .prim an =>
      if en = an then (true, subst)
      else
        (match num_join en an with
         | some j => (decide (j = en), subst)
         | none => (false, subst))
    | .listT e1, .listT e2 => unify fuel e1 e2 subst
    | .recordT efs, .recordT afs => unifyFields fuel efs afs subst
    | _, _ => (false, subst)

/-- The expected-fields loop of the record case of `unify`: every
expected field must exist in the actual record and unify; bindings made
before a failure persist. -/
def unifyFields : Nat → List (String × Ty) → List (String × Ty) → Subst →
    Bool × Subst
  | 0, _, _, subst => (false, subst)
  | _+1, [], _, subst => (true, subst)
  | fuel+1, (k, texp) :: rest, afs, subst =>
    match lookupTy afs k with
    | none => (false, subst)
    | some ta =>
      match unify fuel texp ta subst with
      | (ok, subst2) =>
        if ok then unifyFields fuel rest afs subst2 else (false, subst2)

end

/-- The common keys of two record field dicts, as Python's
`sorted(set(a) & set(b))`. -/
def commonKeys (f1 f2 : List (String × Ty)) : List String :=
  Fmt.sortStrs ((f1.map (fun kv => kv.1)).filter
    (fun k => (lookupTy f2 k).isSome)).dedup

/-- `typecheck.join` (least upper bound for branch merging).  Fuel covers
the record recursion through field lookups; every common key is present
in both dicts, so the `.getD .anyT` defaults are never taken. -/
def joinF : Nat → Ty → Ty → Ty
  | 0, _, _ => .anyT
  | fuel+1, t1, t2 =>
    match t1, t2 with
    | .anyT, _ => .anyT
    | _, .anyT => .anyT
    | .prim a, .prim b =>
      (match num_join a b with
       | some j => .prim j
       | none => .anyT)
    | .listT e1, .listT e2 => .listT (joinF fuel e1 e2)
    | .recordT f1, .recordT f2 =>
      .recordT ((commonKeys f1 f2).map (fun k =>
        (k, joinF fuel ((lookupTy f1 k).getD .anyT) ((lookupTy f2 k).getD .anyT))))
    | .var _, _ => t2
    | _, .var _ => t1
    | _, _ => .anyT

/-- `typecheck._join` (used by `_infer_expr`): like `join`, except two
variables join to the first only when their names agree, and a variable
against anything else gives `Any`.  (The `_apply(…, {})` preludes in the
source are identities.) -/
def joinI : Nat → Ty → Ty → Ty
  | 0, _, _ => .anyT
  | fuel+1, t1, t2 =>
    match t1, t2 with
    | .anyT, _ => .anyT
    | _, .anyT => .anyT
    | .prim a, .prim b =>
      if a = b then .prim a
      else if (a = "Int" ∧ b = "Float") ∨ (a = "Float" ∧ b = "Int") then .prim "Float"
      else .anyT
    | .listT e1, .listT e2 => .listT (joinI fuel e1 e2)
    | .recordT f1, .recordT f2 =>
      .recordT ((commonKeys f1 f2).map (fun k =>
        (k, joinI fuel ((lookupTy f1 k).getD .anyT) ((lookupTy f2 k).getD .anyT))))
    | .var n1, .var n2 => if n1 = n2 then .var n1 else .anyT
    | _, _ => .anyT

end Typecheck

open Typecheck in
/-- C8: numeric widening is asymmetric.  With the empty substitution,
`unify (Prim Float) (Prim Int)` succeeds (an Int is accepted where a
Float is expected) without binding anything, `unify (Prim Int)
(Prim Float)` fails, and `join` of Int and Float in either order is
Float — at every fuel. -/
theorem C8_numeric_widening :
    ∀ fuel : Nat,
      unify (fuel+1) (.prim "Float") (.prim "Int") [] = (true, []) ∧
      unify (fuel+1) (.prim "Int") (.prim "Float") [] = (false, []) ∧
      joinF (fuel+1) (.prim "Int") (.prim "Float") = .prim "Float" ∧
      joinF (fuel+1) (.prim "Float") (.prim "Int") = .prim "Float" := by
  intro fuel
  exact ⟨rfl, rfl, rfl, rfl⟩

namespace Typecheck

open Json

/-- `typecheck.Sig`. -/
structure Sig where
  name : String
  type_params : List String
  param_names : List String
  param_types : List Ty
  ret : Ty

def lookupSig : List (String × Sig) → String → Option Sig
  | [], _ => none
  | (k, v) :: rest, key => if k = key then some v else lookupSig rest key

/-- `typecheck._builtin_sigs`. -/
def builtin_sigs : List (String × Sig) :=
  [("add", ⟨"add", [], ["a", "b"], [.prim "Int", .prim "Int"], .prim "Int"⟩),
   ("sub", ⟨"sub", [], ["a", "b"], [.prim "Int", .prim "Int"], .prim "Int"⟩),
   ("mul", ⟨"mul", [], ["a", "b"], [.prim "Int", .prim "Int"], .prim "Int"⟩),
   ("div", ⟨"div", [], ["a", "b"], [.prim "Int", .prim "Int"], .prim "Float"⟩),
   ("eq", ⟨"eq", [], ["a", "b"], [.anyT, .anyT], .prim "Bool"⟩),
   ("neq", ⟨"neq", [], ["a", "b"], [.anyT, .anyT], .prim "Bool"⟩),
   ("lt", ⟨"lt", [], ["a", "b"], [.prim "Int", .prim "Int"], .prim "Bool"⟩),
   ("lte", ⟨"lte", [], ["a", "b"], [.prim "Int", .prim "Int"], .prim "Bool"⟩),
   ("gt", ⟨"gt", [], ["a", "b"], [.prim "Int", .prim "Int"], .prim "Bool"⟩),
   ("gte", ⟨"gte", [], ["a", "b"], [.prim "Int", .prim "Int"], .prim "Bool"⟩),
   ("and", ⟨"and", [], ["a", "b"], [.prim "Bool", .prim "Bool"], .prim "Bool"⟩),
   ("or", ⟨"or", [], ["a", "b"], [.prim "Bool", .prim "Bool"], .prim "Bool"⟩),
   ("not", ⟨"not", [], ["a"], [.prim "Bool"], .prim "Bool"⟩),
   ("str_len", ⟨"str_len", [], ["s"], [.prim "String"], .prim "Int"⟩),
   ("str_concat", ⟨"str_concat", [], ["a", "b"],
     [.prim "String", .prim "String"], .prim "String"⟩),
   ("str_contains", ⟨"str_contains", [], ["s", "sub"],
     [.prim "String", .prim "String"], .prim "Bool"⟩),
   ("len", ⟨"len", ["T"], ["xs"], [.listT (.var "T")], .prim "Int"⟩),
   ("list_get", ⟨"list_get", ["T"], ["xs", "i"],
     [.listT (.var "T"), .prim "Int"], .var "T"⟩),
   ("list_set", ⟨"list_set", ["T"], ["xs", "i", "v"],
     [.listT (.var "T"), .prim "Int", .var "T"], .listT (.var "T")⟩),
   ("list_append", ⟨"list_append", ["T"], ["xs", "v"],
     [.listT (.var "T"), .var "T"], .listT (.var "T")⟩),
   ("list_concat", ⟨"list_concat", ["T"], ["a", "b"],
     [.listT (.var "T"), .listT (.var "T")], .listT (.var "T")⟩),
   ("list_slice", ⟨"list_slice", ["T"], ["xs", "start", "end"],
     [.listT (.var "T"), .anyT, .anyT], .listT (.var "T")⟩),
   ("list_range", ⟨"list_range", [], ["n"], [.prim "Int"], .listT (.prim "Int")⟩),
   ("list_map", ⟨"list_map", ["T"], ["fn", "xs"],
     [.prim "String", .listT (.var "T")], .listT .anyT⟩),
   ("list_filter", ⟨"list_filter", ["T"], ["fn", "xs"],
     [.prim "String", .listT (.var "T")], .listT (.var "T")⟩),
   ("list_reduce", ⟨"list_reduce", [], ["fn", "init", "xs"],
     [.prim "String", .anyT, .listT .anyT], .anyT⟩),
   ("list_sum", ⟨"list_sum", [], ["xs"], [.listT .anyT], .anyT⟩),
   ("list_mean", ⟨"list_mean", [], ["xs"], [.listT .anyT], .prim "Float"⟩),
   ("obj_get", ⟨"obj_get", [], ["obj", "key"], [.anyT, .prim "String"], .anyT⟩),
   ("obj_get_or", ⟨"obj_get_or", [], ["obj", "key", "default"],
     [.anyT, .prim "String", .anyT], .anyT⟩),
   ("obj_has", ⟨"obj_has", [], ["obj", "key"], [.anyT, .prim "String"], .prim "Bool"⟩),
   ("obj_set", ⟨"obj_set", [], ["obj", "key", "value"],
     [.anyT, .prim "String", .anyT], .anyT⟩),
   ("obj_del", ⟨"obj_del", [], ["obj", "key"], [.anyT, .prim "String"], .anyT⟩),
   ("obj_keys", ⟨"obj_keys", [], ["obj"], [.anyT], .listT (.prim "String")⟩),
   ("obj_merge", ⟨"obj_merge", [], ["a", "b"], [.anyT, .anyT], .anyT⟩),
   ("print", ⟨"print", [], ["x"], [.anyT], .prim "Null"⟩),
   ("http_get", ⟨"http_get", [], ["url"], [.prim "String"], .prim "String"⟩)]

/-- `typecheck._freshen`: instantiate the type params with fresh
`tp#n` variables; the counter cell is threaded. -/
def freshen (fuel : Nat) (sig : Sig) (counter : Nat) : Sig × Subst × Nat :=
  match sig.type_params.foldl
      (fun (acc : Subst × Nat) tp =>
        (subSet acc.1 tp (.var (tp ++ "#" ++ Effects.natToStr (acc.2 + 1))),
         acc.2 + 1))
      ([], counter) with
  | (subst, counter2) =>
    (⟨sig.name, [], sig.param_names,
      sig.param_types.map (fun t => applyF fuel t subst),
      applyF fuel sig.ret subst⟩, subst, counter2)

/-- `typecheck._type_of_literal` (Python floats are outside the modelled
value domain; they would yield `Prim Float`). -/
def type_of_literal : Json → Ty
  | .null => .prim "Null"
  | .bool _ => .prim "Bool"
  | .int _ => .prim "Int"
  | .str _ => .prim "String"
  | _ => .anyT

/-- `typecheck.Issue`, with the free-text message elided. -/
structure Issue where
  pointer : String
  code : String
  severity : String
deriving DecidableEq, Repr

/-- `join_pointer(ptr + [...])` with the integer segments pre-rendered to
their decimal strings (`join_pointer` stringifies segments before
escaping, and escaping a decimal string is the identity). -/
def joinPtr (ptr : List String) : String := Pointer.join_pointer ptr

/-- Merge one field into a record's field dict: join with an existing
entry, else append (the shared pattern of `obj_set`/`obj_merge`). -/
def mergeField (fuel : Nat) (fields : List (String × Ty)) (k : String)
    (v : Ty) : List (String × Ty) :=
  match lookupTy fields k with
  | some old => subSet fields k (joinI fuel old v)
  | none => subSet fields k v

/-- Python `dict.pop(key, None)` on a field dict. -/
def tyErase : List (String × Ty) → String → List (String × Ty)
  | [], _ => []
  | (k1, v1) :: rest, k =>
    if k1 = k then rest else (k1, v1) :: tyErase rest k

/-- `typecheck._infer_special_call`.  Returns (special result or none,
issues, counter). -/
def inferSpecialCall (fuel : Nat) (fnLast : String) (fnFull : String)
    (argsExpr : List Json) (argTypes : List Ty) (ptr : List String)
    (issues : List Issue) (sigs : List (String × Sig)) (counter : Nat) :
    Option Ty × List Issue × Nat :=
  if fnLast = "list_sum" ∧ argTypes.length = 1 then
    match argTypes.headD .anyT with
    | .listT elem0 =>
      (match applyF fuel elem0 [] with
       | .prim p =>
         if p = "Int" ∨ p = "Float" then (some (.prim p), issues, counter)
         else (some .anyT, issues ++
           [⟨joinPtr (ptr ++ ["call", "args", "0"]), "TypeMismatch", "error"⟩],
           counter)
       | .anyT => (some .anyT, issues, counter)
       | .var _ => (some .anyT, issues, counter)
       | _ => (some .anyT, issues ++
           [⟨joinPtr (ptr ++ ["call", "args", "0"]), "TypeMismatch", "error"⟩],
           counter))
    | _ => (some .anyT, issues ++
        [⟨joinPtr (ptr ++ ["call", "args", "0"]), "TypeMismatch", "error"⟩],
        counter)
  else if fnLast = "list_mean" ∧ argTypes.length = 1 then
    match argTypes.headD .anyT with
    | .listT elem0 =>
      (match applyF fuel elem0 [] with
       | .prim p =>
         if p = "Int" ∨ p = "Float" then (some (.prim "Float"), issues, counter)
         else (some (.prim "Float"), issues ++
           [⟨joinPtr (ptr ++ ["call", "args", "0"]), "TypeMismatch", "error"⟩],
           counter)
       | .anyT => (some (.prim "Float"), issues, counter)
       | .var _ => (some (.prim "Float"), issues, counter)
       | _ => (some (.prim "Float"), issues ++
           [⟨joinPtr (ptr ++ ["call", "args", "0"]), "TypeMismatch", "error"⟩],
           counter))
    | _ => (some (.prim "Float"), issues ++
        [⟨joinPtr (ptr ++ ["call", "args", "0"]), "TypeMismatch", "error"⟩],
        counter)
  else if (fnLast = "list_map" ∨ fnLast = "list_filter") ∧ argTypes.length = 2 then
    match argsExpr.headD .null, argTypes.getD 1 .anyT with
    | .str fnRef, xsT =>
      (match xsT with
       | .listT xsElem =>
         (match (lookupSig sigs (Sandbox.qualLast fnRef)).orElse
             (fun _ => lookupSig sigs fnRef) with
          | none => (some (.listT .anyT), issues ++
              [⟨joinPtr (ptr ++ ["call", "args", "0"]), "UnknownFunctionCall",
                "error"⟩], counter)
          | some calleeSig =>
            match freshen fuel calleeSig counter with
            | (calleeInst, _, counter2) =>
              if hlen : calleeInst.param_types.length = 1 then
                match unify fuel (calleeInst.param_types.headD .anyT) xsElem [] with
                | (ok, subs) =>
                  let issues2 := if ok then issues else issues ++
                    [⟨joinPtr (ptr ++ ["call", "args", "1"]), "TypeMismatch",
                      "error"⟩]
                  let retT := applyF fuel calleeInst.ret subs
                  if fnLast = "list_filter" then
                    (match unify fuel (.prim "Bool") retT [] with
                     | (ok2, _) =>
                       (some xsT,
                        (if ok2 then issues2 else issues2 ++
                          [⟨joinPtr (ptr ++ ["call", "args", "0"]), "TypeMismatch",
                            "error"⟩]), counter2))
                  else (some (.listT retT), issues2, counter2)
              else (some (.listT .anyT), issues ++
                  [⟨joinPtr (ptr ++ ["call", "args", "0"]), "ArityMismatch",
                    "error"⟩], counter2))
       | _ => (some (.listT .anyT), issues ++
           [⟨joinPtr (ptr ++ ["call", "args", "1"]), "TypeMismatch", "error"⟩],
           counter))
    | _, _ => (some (.listT .anyT), issues ++
        [⟨joinPtr (ptr ++ ["call", "args", "0"]), "TypeError", "error"⟩],
        counter)
  else if fnLast = "list_reduce" ∧ argTypes.length = 3 then
    match argsExpr.headD .null with
    | .str fnRef =>
      (match argTypes.getD 2 .anyT with
       | .listT xsElem =>
         (match (lookupSig sigs (Sandbox.qualLast fnRef)).orElse
             (fun _ => lookupSig sigs fnRef) with
          | none => (some (argTypes.getD 1 .anyT), issues ++
              [⟨joinPtr (ptr ++ ["call", "args", "0"]), "UnknownFunctionCall",
                "error"⟩], counter)
          | some calleeSig =>
            match freshen fuel calleeSig counter with
            | (calleeInst, _, counter2) =>
              if calleeInst.param_types.length = 2 then
                match unify fuel (calleeInst.param_types.headD .anyT)
                    (argTypes.getD 1 .anyT) [] with
                | (okA, subsA) =>
                  let issuesA := if okA then issues else issues ++
                    [⟨joinPtr (ptr ++ ["call", "args", "1"]), "TypeMismatch",
                      "error"⟩]
                  match unify fuel (calleeInst.param_types.getD 1 .anyT)
                      xsElem subsA with
                  | (okB, subsB) =>
                    let issuesB := if okB then issuesA else issuesA ++
                      [⟨joinPtr (ptr ++ ["call", "args", "2"]), "TypeMismatch",
                        "error"⟩]
                    let retT := applyF fuel calleeInst.ret subsB
                    match unify fuel (argTypes.getD 1 .anyT) retT [] with
                    | (okC, _) =>
                      (some (argTypes.getD 1 .anyT),
                       (if okC then issuesB else issuesB ++
                         [⟨joinPtr (ptr ++ ["call", "args", "0"]), "TypeMismatch",
                           "error"⟩]), counter2)
              else (some (argTypes.getD 1 .anyT), issues ++
                  [⟨joinPtr (ptr ++ ["call", "args", "0"]), "ArityMismatch",
                    "error"⟩], counter2))
       | _ => (some (argTypes.getD 1 .anyT), issues ++
           [⟨joinPtr (ptr ++ ["call", "args", "2"]), "TypeMismatch", "error"⟩],
           counter))
    | _ => (some (argTypes.getD 1 .anyT), issues ++
        [⟨joinPtr (ptr ++ ["call", "args", "0"]), "TypeError", "error"⟩],
        counter)
  else if fnLast = "obj_get" ∨ fnLast = "obj_get_or" ∨ fnLast = "obj_set" ∨
      fnLast = "obj_del" ∨ fnLast = "obj_merge" then
    if (fnLast = "obj_get" ∨ fnLast = "obj_del") ∧ argTypes.length = 2 then
      match argTypes.headD .anyT, argsExpr.getD 1 .null with
      | .recordT fields, .str key =>
        if fnLast = "obj_get" then
          match lookupTy fields key with
          | some t => (some t, issues, counter)
          | none => (some .anyT, issues ++
              [⟨joinPtr (ptr ++ ["call", "args", "1"]), "UnknownField", "error"⟩],
              counter)
        else (some (.recordT (tyErase fields key)), issues, counter)
      | _, _ => (none, issues, counter)
    else if fnLast = "obj_get_or" ∧ argTypes.length = 3 then
      match argTypes.headD .anyT, argsExpr.getD 1 .null with
      | .recordT fields, .str key =>
        (match lookupTy fields key with
         | some t => (some (joinI fuel t (argTypes.getD 2 .anyT)), issues, counter)
         | none => (some (joinI fuel .anyT (argTypes.getD 2 .anyT)), issues ++
             [⟨joinPtr (ptr ++ ["call", "args", "1"]), "UnknownField", "error"⟩],
             counter))
      | _, _ => (none, issues, counter)
    else if fnLast = "obj_set" ∧ argTypes.length = 3 then
      match argTypes.headD .anyT, argsExpr.getD 1 .null with
      | .recordT fields, .str key =>
        (some (.recordT (mergeField fuel fields key (argTypes.getD 2 .anyT))),
         issues, counter)
      | _, _ => (none, issues, counter)
    else if fnLast = "obj_merge" ∧ argTypes.length = 2 then
      match argTypes.headD .anyT, argTypes.getD 1 .anyT with
      | .recordT f1, .recordT f2 =>
        (some (.recordT (f2.foldl (fun acc kv => mergeField fuel acc kv.1 kv.2) f1)),
         issues, counter)
      | _, _ => (none, issues, counter)
    else (none, issues, counter)
  else (none, issues, counter)

end Typecheck

namespace Typecheck

open Json

/-- The parameter-unification loop of the generic `call` case: one shared
substitution, a TypeMismatch issue per failing position. -/
def unifyParamsFold (fuel : Nat) : List Ty → List Ty → List String →
    List Issue → Subst → Nat → Subst × List Issue
  | [], _, _, issues, subs, _ => (subs, issues)
  | _ :: _, [], _, issues, subs, _ => (subs, issues)
  | texp :: erest, tact :: arest, ptr, issues, subs, i =>
    match unify fuel texp tact subs with
    | (ok, subs2) =>
      unifyParamsFold fuel erest arest ptr
        (if ok then issues else issues ++
          [⟨joinPtr (ptr ++ ["call", "args", Effects.natToStr i]), "TypeMismatch",
            "error"⟩])
        subs2 (i+1)


mutual

/-- `typecheck._infer_expr`.  `env` is the variable-type environment,
`ptr` the pointer segments so far, and the appended `issues` and the
freshness `counter` are threaded in place of the source's mutation.
Fuel decreases on every recursive call. -/
def inferExpr : Nat → Json → List (String × Ty) → List String → List Issue →
    List (String × Sig) → Nat → Ty × List Issue × Nat
  | 0, _, _, _, issues, _, counter => (.anyT, issues, counter)
  | fuel+1, expr, env, ptr, issues, sigs, counter =>
    match expr with
    | .arr _ =>
      (.anyT, issues ++ [⟨joinPtr ptr, "TypeError", "error"⟩], counter)
    | .obj ekvs =>
      if hasKey ekvs "var" then
        match (lookup ekvs "var").getD .null with
        | .str name =>
          (match lookupTy env name with
           | some t => (t, issues, counter)
           | none =>
             (.anyT, issues ++
               [⟨joinPtr (ptr ++ ["var"]), "UndefinedVariable", "error"⟩],
               counter))
        | _ =>
          (.anyT, issues ++ [⟨joinPtr (ptr ++ ["var"]), "TypeError", "error"⟩],
           counter)
      else if hasKey ekvs "list" then
        match (lookup ekvs "list").getD .null with
        | .arr [] => (.listT .anyT, issues, counter)
        | .arr (a0 :: rest) =>
          (match inferExpr fuel a0 env (ptr ++ ["list", "0"]) issues sigs counter with
           | (t0, issues2, counter2) =>
             match inferListFold fuel rest env ptr issues2 sigs counter2 1 t0 with
             | (t, issues3, counter3) => (.listT t, issues3, counter3))
        | _ =>
          (.anyT, issues ++ [⟨joinPtr (ptr ++ ["list"]), "TypeError", "error"⟩],
           counter)
      else if hasKey ekvs "obj" then
        match (lookup ekvs "obj").getD .null with
        | .obj okvs =>
          (match inferObjFold fuel okvs env ptr issues sigs counter [] with
           | (fields, issues2, counter2) => (.recordT fields, issues2, counter2))
        | _ =>
          (.anyT, issues ++ [⟨joinPtr (ptr ++ ["obj"]), "TypeError", "error"⟩],
           counter)
      else if hasKey ekvs "call" then
        match (lookup ekvs "call").getD .null with
        | .obj ckvs =>
          (match (lookup ckvs "fn").getD .null with
           | .str fn =>
             (match (lookup ckvs "args").getD (.arr []) with
              | .arr args =>
                (match inferArgsFold fuel args env ptr issues sigs counter 0 with
                 | (argTypes, issues2, counter2) =>
                   match inferSpecialCall fuel (Sandbox.qualLast fn) fn args
                       argTypes ptr issues2 sigs counter2 with
                   | (some special, issues3, counter3) =>
                     (special, issues3, counter3)
                   | (none, issues3, counter3) =>
                     match (lookupSig sigs (Sandbox.qualLast fn)).orElse
                         (fun _ => lookupSig sigs fn) with
                     | none =>
                       (.anyT, issues3 ++
                         [⟨joinPtr (ptr ++ ["call", "fn"]), "UnknownFunctionCall",
                           "error"⟩], counter3)
                     | some sig =>
                       match freshen fuel sig counter3 with
                       | (inst, _, counter4) =>
                         if argTypes.length = inst.param_types.length then
                           match unifyParamsFold fuel inst.param_types argTypes
                               ptr issues3 [] 0 with
                           | (subs, issues4) =>
                             (applyF fuel inst.ret subs, issues4, counter4)
                         else
                           (.anyT, issues3 ++
                             [⟨joinPtr (ptr ++ ["call"]), "ArityMismatch",
                               "error"⟩], counter4))
              | _ =>
                (.anyT, issues ++
                  [⟨joinPtr (ptr ++ ["call", "args"]), "TypeError", "error"⟩],
                  counter))
           | _ =>
             (.anyT, issues ++
               [⟨joinPtr (ptr ++ ["call", "fn"]), "TypeError", "error"⟩],
               counter))
        | _ =>
          (.anyT, issues ++ [⟨joinPtr (ptr ++ ["call"]), "TypeError", "error"⟩],
           counter)
      else
        (.anyT, issues ++ [⟨joinPtr ptr, "TypeError", "error"⟩], counter)
    | lit => (type_of_literal lit, issues, counter)

/-- The `for i in range(1, len(arr))` fold of the list-literal case,
joining element types with `_join`. -/
def inferListFold : Nat → List Json → List (String × Ty) → List String →
    List Issue → List (String × Sig) → Nat → Nat → Ty → Ty × List Issue × Nat
  | 0, _, _, _, issues, _, counter, _, t => (t, issues, counter)
  | _+1, [], _, _, issues, _, counter, _, t => (t, issues, counter)
  | fuel+1, a :: rest, env, ptr, issues, sigs, counter, i, t =>
    match inferExpr fuel a env (ptr ++ ["list", Effects.natToStr i]) issues sigs
        counter with
    | (ti, issues2, counter2) =>
      inferListFold fuel rest env ptr issues2 sigs counter2 (i+1) (joinI fuel t ti)

/-- The field loop of the `obj` case. -/
def inferObjFold : Nat → List (String × Json) → List (String × Ty) →
    List String → List Issue → List (String × Sig) → Nat →
    List (String × Ty) → List (String × Ty) × List Issue × Nat
  | 0, _, _, _, issues, _, counter, fields => (fields, issues, counter)
  | _+1, [], _, _, issues, _, counter, fields => (fields, issues, counter)
  | fuel+1, (k, v) :: rest, env, ptr, issues, sigs, counter, fields =>
    match inferExpr fuel v env (ptr ++ ["obj", k]) issues sigs counter with
    | (tv, issues2, counter2) =>
      inferObjFold fuel rest env ptr issues2 sigs counter2 (subSet fields k tv)

/-- The argument-type inference loop of the `call` case. -/
def inferArgsFold : Nat → List Json → List (String × Ty) → List String →
    List Issue → List (String × Sig) → Nat → Nat → List Ty × List Issue × Nat
  | 0, _, _, _, issues, _, counter, _ => ([], issues, counter)
  | _+1, [], _, _, issues, _, counter, _ => ([], issues, counter)
  | fuel+1, a :: rest, env, ptr, issues, sigs, counter, i =>
    match inferExpr fuel a env (ptr ++ ["call", "args", Effects.natToStr i])
        issues sigs counter with
    | (ta, issues2, counter2) =>
      match inferArgsFold fuel rest env ptr issues2 sigs counter2 (i+1) with
      | (ts, issues3, counter3) => (ta :: ts, issues3, counter3)

end

end Typecheck

open Typecheck in
/-- C10: the empty list literal `{"list": []}` infers as `List[Any]` with
no issue appended and the freshness counter untouched, for every
environment, pointer, prior issues, signature table and counter. -/
theorem C10_empty_list_infers_list_any (fuel : Nat) (env : List (String × Ty))
    (ptr : List String) (issues : List Issue) (sigs : List (String × Sig))
    (counter : Nat) :
    inferExpr (fuel+1) (.obj [("list", .arr [])]) env ptr issues sigs counter =
      (.listT .anyT, issues, counter) := by
  rw [inferExpr]
  simp only [show Json.hasKey [("list", Json.arr [])] "var" = false from by decide,
    show Json.hasKey [("list", Json.arr [])] "list" = true from by decide,
    show (Json.lookup [("list", Json.arr [])] "list").getD .null = .arr [] from by
      decide]
  simp

namespace Jsonpos

/-- UTF-16 code units of one character
(`len(ch.encode("utf-16-le")) // 2`): astral codepoints take a surrogate
pair. -/
def utf16Width (c : Char) : Nat := if 0x10000 ≤ c.toNat then 2 else 1

/-- UTF-16 length of a string (`len(s.encode("utf-16-le")) // 2`). -/
def utf16Len : List Char → Nat
  | [] => 0
  | c :: rest => utf16Width c + utf16Len rest

/-- Index of the first newline in a list (the list's length if none). -/
def idxOfNl : List Char → Nat
  | [] => 0
  | c :: rest => if c = '\n' then 0 else idxOfNl rest + 1

/-- `text.find("\n", s)` with the "not found" result already replaced by
`len(text)`, as the `ends` construction does. -/
def findNl (text : List Char) (s : Nat) : Nat := s + idxOfNl (text.drop s)

/-- The loop of `TextIndex.__init__` filling `starts`: one entry `i + 1`
per newline at index `i`. -/
def startsAux : List Char → Nat → List Nat
  | [], _ => []
  | c :: rest, i =>
    if c = '\n' then (i+1) :: startsAux rest (i+1) else startsAux rest (i+1)

/-- `TextIndex.starts`. -/
def starts (text : List Char) : List Nat := 0 :: startsAux text 0

/-- `TextIndex.ends`: for each line start, the next newline or the text
length. -/
def ends (text : List Char) : List Nat := (starts text).map (findNl text)

/-- The binary search of `TextIndex._find_line`.  The fuel bounds the
iteration count; `hi - lo` shrinks every round, so `len(starts)` is
always enough. -/
def findLineAux (sts : List Nat) (index : Nat) : Nat → Nat → Nat → Nat
  | 0, lo, _ => lo
  | fuel+1, lo, hi =>
    if lo + 1 < hi then
      (if sts.getD ((lo + hi) / 2) 0 ≤ index then
        findLineAux sts index fuel ((lo + hi) / 2) hi
      else
        findLineAux sts index fuel lo ((lo + hi) / 2))
    else lo

def find_line (text : List Char) (index : Nat) : Nat :=
  findLineAux (starts text) index (starts text).length 0 (starts text).length

/-- `self.text[self.starts[line] : self.ends[line]]`. -/
def lineTextOf (text : List Char) (line : Nat) : List Char :=
  (text.take ((ends text).getD line 0)).drop ((starts text).getD line 0)

/-- `TextIndex.position`: clamp, find the line, and measure the prefix of
the line before the index in UTF-16 code units. -/
def position (text : List Char) (index0 : Int) : Nat × Nat :=
  let index : Nat :=
    if index0 < 0 then 0
    else if text.length < index0.toNat then text.length else index0.toNat
  let line := find_line text index
  let colCp := index - (starts text).getD line 0
  (line, utf16Len ((lineTextOf text line).take colCp))

/-- The code-unit walk of `TextIndex.offset`: count codepoints until
adding the next character would exceed the UTF-16 target. -/
def offsetWalk : List Char → Nat → Nat → Nat → Nat
  | [], _, _, cp => cp
  | c :: rest, target, units, cp =>
    if target < units + utf16Width c then cp
    else offsetWalk rest target (units + utf16Width c) (cp + 1)

/-- `TextIndex.offset`: clamp the line and character, then walk the line
text. -/
def offset (text : List Char) (line0 char0 : Int) : Nat :=
  let line : Nat :=
    if line0 < 0 then 0
    else if (starts text).length ≤ line0.toNat then (starts text).length - 1
    else line0.toNat
  let ch : Nat := if char0 < 0 then 0 else char0.toNat
  (starts text).getD line 0 + offsetWalk (lineTextOf text line) ch 0 0

end Jsonpos

namespace Jsonpos

theorem utf16Width_pos (c : Char) : 0 < utf16Width c := by
  rw [utf16Width]
  split <;> omega

theorem offsetWalk_take (l : List Char) :
    ∀ k units cp, k ≤ l.length →
    offsetWalk l (units + utf16Len (l.take k)) units cp = cp + k := by
  induction l with
  | nil =>
    intro k units cp hk
    have hk0 : k = 0 := by simpa using hk
    subst hk0
    rfl
  | cons c rest ih =>
    intro k units cp hk
    match k with
    | 0 =>
      rw [List.take_zero, utf16Len]
      rw [offsetWalk]
      rw [if_pos (by have := utf16Width_pos c; omega)]
      omega
    | k'+1 =>
      rw [List.take_succ_cons, utf16Len]
      rw [offsetWalk]
      rw [if_neg (by have : 0 ≤ utf16Len (List.take k' rest) := Nat.zero_le _; omega)]
      have h2 := ih k' (units + utf16Width c) (cp + 1)
        (by simpa using Nat.le_of_succ_le_succ hk)
      rw [show units + (utf16Width c + utf16Len (List.take k' rest)) =
        units + utf16Width c + utf16Len (List.take k' rest) from by omega]
      rw [h2]
      omega

theorem findLineAux_spec (sts : List Nat) (index : Nat) :
    ∀ (fuel lo hi : Nat), lo < hi → hi ≤ sts.length → hi - lo ≤ fuel →
    sts.getD lo 0 ≤ index → (hi = sts.length ∨ index < sts.getD hi 0) →
    lo ≤ findLineAux sts index fuel lo hi ∧
    findLineAux sts index fuel lo hi < hi ∧
    sts.getD (findLineAux sts index fuel lo hi) 0 ≤ index ∧
    (findLineAux sts index fuel lo hi + 1 = sts.length ∨
      index < sts.getD (findLineAux sts index fuel lo hi + 1) 0) := by
  intro fuel
  induction fuel with
  | zero =>
    intro lo hi h1 _ h3 _ _
    omega
  | succ fuel ih =>
    intro lo hi h1 h2 h3 h4 h5
    rw [findLineAux]
    by_cases hc : lo + 1 < hi
    · rw [if_pos hc]
      by_cases hm : sts.getD ((lo + hi) / 2) 0 ≤ index
      · rw [if_pos hm]
        have := ih ((lo + hi) / 2) hi (by omega) h2 (by omega) hm h5
        exact ⟨by omega, this.2.1, this.2.2.1, this.2.2.2⟩
      · rw [if_neg hm]
        have := ih lo ((lo + hi) / 2) (by omega) (by omega) (by omega) h4
          (Or.inr (by omega))
        exact ⟨this.1, by omega, this.2.2.1, this.2.2.2⟩
    · rw [if_neg hc]
      have hhi : hi = lo + 1 := by omega
      subst hhi
      exact ⟨Nat.le_refl lo, by omega, h4, h5⟩

theorem idxOfNl_le (l : List Char) : idxOfNl l ≤ l.length := by
  induction l with
  | nil => exact Nat.le_refl 0
  | cons c rest ih =>
    rw [idxOfNl]
    split
    · exact Nat.zero_le _
    · simpa using Nat.succ_le_succ ih

theorem findNl_ge (text : List Char) (s : Nat) : s ≤ findNl text s := by
  rw [findNl]
  omega

theorem findNl_le (text : List Char) (s : Nat) (h : s ≤ text.length) :
    findNl text s ≤ text.length := by
  rw [findNl]
  have := idxOfNl_le (text.drop s)
  rw [List.length_drop] at this
  omega

/-- No newline occurs in the list. -/
def nlFree (l : List Char) : Prop := ∀ c ∈ l, c ≠ '\n'

theorem startsAux_shift (text : List Char) :
    ∀ i, startsAux text i = (startsAux text 0).map (fun x => x + i) := by
  induction text with
  | nil => intro i; rfl
  | cons c rest ih =>
    intro i
    rw [startsAux, startsAux]
    by_cases hc : c = '\n'
    · rw [if_pos hc, if_pos hc, List.map_cons]
      rw [ih (i+1), ih 1, List.map_map]
      simp only [List.cons.injEq]
      refine ⟨by omega, List.map_congr_left ?_⟩
      intro x _
      simp
      try omega
    · rw [if_neg hc, if_neg hc]
      rw [ih (i+1), ih 1, List.map_map]
      refine List.map_congr_left ?_
      intro x _
      simp
      try omega

theorem startsAux_nlfree (text : List Char) (h : nlFree text) :
    ∀ i, startsAux text i = [] := by
  induction text with
  | nil => intro i; rfl
  | cons c rest ih =>
    intro i
    rw [startsAux, if_neg (h c (List.mem_cons_self c rest))]
    exact ih (fun x hx => h x (List.mem_cons_of_mem c hx)) (i+1)

theorem startsAux_append_nlfree (pre : List Char) (h : nlFree pre) :
    ∀ (l : List Char) (i : Nat), startsAux (pre ++ l) i = startsAux l (i + pre.length) := by
  induction pre with
  | nil => intro l i; simp
  | cons c rest ih =>
    intro l i
    rw [List.cons_append, startsAux,
      if_neg (h c (List.mem_cons_self c rest))]
    rw [ih (fun x hx => h x (List.mem_cons_of_mem c hx)) l (i+1)]
    refine congrArg _ ?_
    simp
    omega

theorem idxOfNl_nlfree (pre : List Char) (h : nlFree pre) :
    idxOfNl pre = pre.length := by
  induction pre with
  | nil => rfl
  | cons c rest ih =>
    rw [idxOfNl, if_neg (h c (List.mem_cons_self c rest))]
    rw [ih (fun x hx => h x (List.mem_cons_of_mem c hx))]
    rfl

theorem idxOfNl_append_nl (pre : List Char) (h : nlFree pre) (rest : List Char) :
    idxOfNl (pre ++ '\n' :: rest) = pre.length := by
  induction pre with
  | nil => simp [idxOfNl]
  | cons c r2 ih =>
    rw [List.cons_append, idxOfNl, if_neg (h c (List.mem_cons_self c r2))]
    rw [ih (fun x hx => h x (List.mem_cons_of_mem c hx))]
    rfl

theorem text_decompose (text : List Char) :
    nlFree text ∨ ∃ pre rest, text = pre ++ '\n' :: rest ∧ nlFree pre := by
  induction text with
  | nil => exact Or.inl (fun c hc => absurd hc (List.not_mem_nil c))
  | cons c rest ih =>
    by_cases hc : c = '\n'
    · subst hc
      exact Or.inr ⟨[], rest, rfl, fun x hx => absurd hx (List.not_mem_nil x)⟩
    · cases ih with
      | inl hfree =>
        refine Or.inl ?_
        intro x hx
        cases List.mem_cons.mp hx with
        | inl he => subst he; exact hc
        | inr hm => exact hfree x hm
      | inr hsplit =>
        obtain ⟨pre, r2, heq, hfree⟩ := hsplit
        refine Or.inr ⟨c :: pre, r2, by rw [heq]; rfl, ?_⟩
        intro x hx
        cases List.mem_cons.mp hx with
        | inl he => subst he; exact hc
        | inr hm => exact hfree x hm

theorem getD_map_add (l : List Nat) (k : Nat) :
    ∀ n, n < l.length → (l.map (fun x => x + k)).getD n 0 = l.getD n 0 + k := by
  induction l with
  | nil => intro n hn; simp at hn
  | cons a rest ih =>
    intro n hn
    match n with
    | 0 => rfl
    | n'+1 =>
      rw [List.map_cons]
      rw [List.getD_cons_succ, List.getD_cons_succ]
      exact ih n' (by simpa using Nat.le_of_succ_le_succ hn)

theorem starts_split (pre : List Char) (h : nlFree pre) (rest : List Char) :
    starts (pre ++ '\n' :: rest) =
      0 :: (starts rest).map (fun x => x + (pre.length + 1)) := by
  rw [starts]
  rw [startsAux_append_nlfree pre h ('\n' :: rest) 0]
  rw [startsAux]
  rw [if_pos rfl]
  rw [startsAux_shift rest]
  rw [starts, List.map_cons]
  show (0 : Nat) :: _ = (0 : Nat) :: _
  refine congrArg _ ?_
  show _ :: _ = _ :: _
  refine congrArg₂ _ (by omega) ?_
  refine List.map_congr_left ?_
  intro x _
  simp
  try omega

theorem findNl_nlfree (text : List Char) (h : nlFree text) (s : Nat)
    (hs : s ≤ text.length) : findNl text s = text.length := by
  rw [findNl]
  rw [idxOfNl_nlfree (text.drop s) (fun x hx => h x (List.mem_of_mem_drop hx))]
  rw [List.length_drop]
  omega

theorem findNl_split_low (pre : List Char) (h : nlFree pre) (rest : List Char)
    (s : Nat) (hs : s ≤ pre.length) :
    findNl (pre ++ '\n' :: rest) s = pre.length := by
  rw [findNl]
  rw [List.drop_append_of_le_length hs]
  rw [idxOfNl_append_nl (pre.drop s) (fun x hx => h x (List.mem_of_mem_drop hx)) rest]
  rw [List.length_drop]
  omega

theorem findNl_split_high (pre : List Char) (rest : List Char) (s : Nat) :
    findNl (pre ++ '\n' :: rest) (pre.length + 1 + s) = pre.length + 1 + findNl rest s := by
  rw [findNl, findNl]
  have hdrop : (pre ++ '\n' :: rest).drop (pre.length + 1 + s) = rest.drop s := by
    rw [show pre ++ '\n' :: rest = (pre ++ ['\n']) ++ rest from by simp]
    rw [show pre.length + 1 + s = (pre ++ ['\n']).length + s from by simp]
    exact List.drop_append s
  rw [hdrop]
  omega

theorem starts_chain : ∀ (n : Nat) (text : List Char), text.length ≤ n → ∀ r : Nat,
    ((starts text).getD r 0 ≤ text.length) ∧
    (r + 1 < (starts text).length →
      (starts text).getD (r+1) 0 = findNl text ((starts text).getD r 0) + 1) ∧
    (r + 1 = (starts text).length →
      findNl text ((starts text).getD r 0) = text.length) := by
  intro n
  induction n with
  | zero =>
    intro text hlen r
    have htext : text = [] := List.eq_nil_of_length_eq_zero (by omega)
    subst htext
    refine ⟨?_, ?_, ?_⟩
    · match r with
      | 0 => exact Nat.le_refl 0
      | r'+1 => exact Nat.zero_le _
    · intro h
      have : (starts ([] : List Char)).length = 1 := rfl
      omega
    · intro h
      have hL : (starts ([] : List Char)).length = 1 := rfl
      have hr : r = 0 := by omega
      subst hr
      rfl
  | succ n ihn =>
    intro text hlen r
    cases text_decompose text with
    | inl hfree =>
      have hs : starts text = [0] := by
        rw [starts, startsAux_nlfree text hfree]
      rw [hs]
      refine ⟨?_, ?_, ?_⟩
      · match r with
        | 0 => exact Nat.zero_le _
        | r'+1 => exact Nat.zero_le _
      · intro h
        simp at h
      · intro h
        have hr : r = 0 := by simpa using h
        subst hr
        exact findNl_nlfree text hfree 0 (Nat.zero_le _)
    | inr hsp =>
      obtain ⟨pre, rest, heq, hfree⟩ := hsp
      subst heq
      have hs := starts_split pre hfree rest
      have hlentot : (pre ++ '\n' :: rest).length = pre.length + 1 + rest.length := by
        simp only [List.length_append, List.length_cons]
        omega
      have hlen2 : rest.length ≤ n := by omega
      have hLr : 1 ≤ (starts rest).length := by
        rw [starts]
        simp
      rw [hs]
      cases r with
      | zero =>
        refine ⟨Nat.zero_le _, ?_, ?_⟩
        · intro h
          rw [List.getD_cons_succ, List.getD_cons_zero]
          have h1 : ((starts rest).map (fun x => x + (pre.length + 1))).getD 0 0 =
              pre.length + 1 := by
            rw [getD_map_add _ _ 0 (by omega)]
            rw [starts, List.getD_cons_zero]
            omega
          rw [h1]

          rw [findNl_split_low pre hfree rest 0 (Nat.zero_le _)]
        · intro h
          exfalso
          rw [List.length_cons, List.length_map] at h
          omega
      | succ r' =>
        have hgr : ∀ m, m < (starts rest).length →
            ((0 : Nat) :: (starts rest).map (fun x => x + (pre.length + 1))).getD
              (m+1) 0 = (starts rest).getD m 0 + (pre.length + 1) := by
          intro m hm
          rw [List.getD_cons_succ]
          exact getD_map_add _ _ m hm
        obtain ⟨ihA, ihB, ihC⟩ := ihn rest hlen2 r'
        refine ⟨?_, ?_, ?_⟩
        · by_cases hrin : r' < (starts rest).length
          · rw [hgr r' hrin]
            omega
          · rw [List.getD_cons_succ]
            rw [List.getD_eq_default]
            · omega
            · simpa using hrin
        · intro h
          have hr1 : r' + 1 < (starts rest).length := by
            simpa using h
          rw [hgr (r'+1) hr1, hgr r' (by omega)]
          have hsplit := findNl_split_high pre rest ((starts rest).getD r' 0)
          rw [show (starts rest).getD r' 0 + (pre.length + 1) =
            pre.length + 1 + (starts rest).getD r' 0 from by omega]
          rw [hsplit]
          rw [ihB hr1]
          omega
        · intro h
          have hr1 : r' + 1 = (starts rest).length := by
            simpa using h
          rw [hgr r' (by omega)]
          rw [show (starts rest).getD r' 0 + (pre.length + 1) =
            pre.length + 1 + (starts rest).getD r' 0 from by omega]
          rw [findNl_split_high pre rest ((starts rest).getD r' 0)]
          rw [ihC hr1]
          omega

theorem getD_map_inrange (f : Nat → Nat) (l : List Nat) :
    ∀ n, n < l.length → (l.map f).getD n 0 = f (l.getD n 0) := by
  induction l with
  | nil => intro n hn; simp at hn
  | cons a rest ih =>
    intro n hn
    match n with
    | 0 => rfl
    | n'+1 =>
      rw [List.map_cons, List.getD_cons_succ, List.getD_cons_succ]
      exact ih n' (by simpa using Nat.le_of_succ_le_succ hn)

theorem starts_length_pos (text : List Char) : 1 ≤ (starts text).length := by
  rw [starts]
  simp

theorem starts_getD_zero (text : List Char) : (starts text).getD 0 0 = 0 := rfl

end Jsonpos

open Jsonpos in
/-- C7: UTF-16 position fidelity.  For every text and every codepoint
offset `i` with `0 ≤ i ≤ len(text)` (in particular every recorded span
endpoint), converting with `TextIndex.position` and back with
`TextIndex.offset` returns `i`. -/
theorem C7_position_offset_roundtrip (text : List Char) (i : Nat)
    (hle : i ≤ text.length) :
    offset text ((position text (Int.ofNat i)).1 : Int)
      ((position text (Int.ofNat i)).2 : Int) = i := by
  have hL := starts_length_pos text
  have hbs := findLineAux_spec (starts text) i (starts text).length 0
    (starts text).length (by omega) (Nat.le_refl _) (by omega)
    (by rw [starts_getD_zero]; exact Nat.zero_le i) (Or.inl rfl)
  set r := findLineAux (starts text) i (starts text).length 0
    (starts text).length with hr
  have hrfl : find_line text i = r := rfl
  obtain ⟨_, hrlt, hsle, hnext⟩ := hbs
  obtain ⟨hsbound, hchainB, hchainC⟩ := starts_chain text.length text
    (Nat.le_refl _) r
  have hie : i ≤ findNl text ((starts text).getD r 0) := by
    by_cases hcase : r + 1 = (starts text).length
    · rw [hchainC hcase]
      exact hle
    · have h2 := hchainB (by omega)
      cases hnext with
      | inl hlast => exact absurd hlast hcase
      | inr hlt => omega
  have hends : (ends text).getD r 0 = findNl text ((starts text).getD r 0) := by
    rw [ends]
    exact getD_map_inrange (findNl text) (starts text) r hrlt
  have hlinelen : (lineTextOf text r).length =
      findNl text ((starts text).getD r 0) - (starts text).getD r 0 := by
    rw [lineTextOf, hends]
    rw [List.length_drop, List.length_take]
    rw [Nat.min_eq_left (findNl_le text ((starts text).getD r 0) hsbound)]
  have hcol : i - (starts text).getD r 0 ≤ (lineTextOf text r).length := by
    rw [hlinelen]
    omega
  have hpos : position text (Int.ofNat i) = (r,
      utf16Len ((lineTextOf text r).take (i - (starts text).getD r 0))) := by
    rw [position]
    rw [if_neg (show ¬ (Int.ofNat i < 0) by simp)]
    rw [show (Int.ofNat i).toNat = i from rfl]
    rw [if_neg (by omega)]
    rw [hrfl]
  rw [hpos]
  rw [offset]
  rw [if_neg (show ¬ ((r : Int) < 0) by simp)]
  rw [show ((r : Int)).toNat = r from rfl]
  rw [if_neg (by simpa using hrlt)]
  rw [show ((utf16Len ((lineTextOf text r).take (i - (starts text).getD r 0)) :
    Int)).toNat =
    utf16Len ((lineTextOf text r).take (i - (starts text).getD r 0)) from rfl]
  rw [if_neg (show ¬ ((utf16Len ((lineTextOf text r).take
    (i - (starts text).getD r 0)) : Int) < 0) by simp)]
  have hwalk := offsetWalk_take (lineTextOf text r)
    (i - (starts text).getD r 0) 0 0 hcol
  rw [Nat.zero_add] at hwalk
  rw [hwalk]
  omega


open Jsonpos in
/-- C7 witness: the round trip on a two-line text containing an astral
(surrogate-pair) character, at an offset inside the second line. -/
theorem C7_roundtrip_witness :
    offset ['a', Char.ofNat 0x1D11E, 'b', '\n', 'c', 'd']
        ((position ['a', Char.ofNat 0x1D11E, 'b', '\n', 'c', 'd']
          (Int.ofNat 5)).1 : Int)
        ((position ['a', Char.ofNat 0x1D11E, 'b', '\n', 'c', 'd']
          (Int.ofNat 5)).2 : Int) = 5 :=
  C7_position_offset_roundtrip ['a', Char.ofNat 0x1D11E, 'b', '\n', 'c', 'd'] 5
    (by decide)

namespace Lsp

/-- `lsp_server.IssueSummary`: non-schema issues keyed by (code, pointer),
split by severity.  Python's `Set[Tuple[str, str]]` is a finite set. -/
structure IssueSummary where
  errors : Finset (String × String)
  warnings : Finset (String × String)

/-- `AstraLSP._no_regression`: reject when new errors appear (not a
subset of baseline), when the error set is unchanged in size (hence, as a
subset, unchanged) but new warnings appear, or when both sets are exactly
the baseline's (a no-op fix). -/
def no_regression (base new2 : IssueSummary) : Bool :=
  if ¬ (new2.errors ⊆ base.errors) then false
  else if new2.errors.card = base.errors.card ∧
      ¬ (new2.warnings ⊆ base.warnings) then false
  else if new2.errors = base.errors ∧ new2.warnings = base.warnings then false
  else true

/-- The delta-validation tail of `AstraLSP._edits_pass_prevalidation`
(after the schema and canonical gates): without a baseline accept;
otherwise require the targeted baseline diagnostic to disappear and then
apply `_no_regression`. -/
def prevalidation_delta (newSum : IssueSummary)
    (baseline : Option IssueSummary) (target : Option (String × String)) : Bool :=
  match baseline with
  | none => true
  | some base =>
    match target with
    | some t =>
      if (t ∈ base.errors ∨ t ∈ base.warnings) ∧
          (t ∈ newSum.errors ∨ t ∈ newSum.warnings) then false
      else no_regression base newSum
    | none => no_regression base newSum

/-- `AstraLSP._edits_pass_prevalidation`, parametric in the earlier
pipeline stages, which live in other modules: `applyAndParse` is
`_apply_text_edits_in_memory` followed by `json.loads` (`none` = an
exception, caught as failure), `schemaErrors` is
`len(fmt.validate(value, self.schema))`, `canonical` is
`fmt.dumps_canonical` (`none` = raised), and `summarize` is
`_summarize_non_schema`.  The delta-validation logic itself is embedded
exactly. -/
def edits_pass_prevalidation
    (applyAndParse : List Json → Option Json)
    (schemaErrors : Json → Nat)
    (canonical : Json → Option String)
    (summarize : Json → IssueSummary)
    (edits : List Json)
    (baseline : Option IssueSummary)
    (target : Option (String × String))
    (expectedCanonical : Option String) : Bool :=
  match applyAndParse edits with
  | none => false
  | some value =>
    match value with
    | .obj vkvs =>
      if schemaErrors (.obj vkvs) ≠ 0 then false
      else
        (match expectedCanonical with
         | some expected =>
           (match canonical (.obj vkvs) with
            | some c =>
              if c ≠ expected then false
              else prevalidation_delta (summarize (.obj vkvs)) baseline target
            | none => false)
         | none => prevalidation_delta (summarize (.obj vkvs)) baseline target)
    | _ => false

end Lsp

open Lsp in
/-- C6: pre-validation refuses regressing or no-op edits.  Whenever the
edits simulate and survive the JSON/schema/canonical gates, producing the
summary `ns` against baseline `base` with targeted baseline diagnostic
`t`, `_edits_pass_prevalidation` returns false if the edited document
introduces a new error, or keeps the error set unchanged but introduces a
new warning, or still contains the targeted diagnostic, or reproduces
exactly the baseline's diagnostic sets. -/
theorem C6_prevalidation_rejects
    (applyAndParse : List Json → Option Json) (schemaErrors : Json → Nat)
    (canonical : Json → Option String) (summarize : Json → IssueSummary)
    (edits : List Json) (base : IssueSummary) (t : String × String)
    (expectedCanonical : Option String) (vkvs : List (String × Json))
    (hparse : applyAndParse edits = some (.obj vkvs))
    (hschema : schemaErrors (.obj vkvs) = 0)
    (hcanon : expectedCanonical = none ∨
      ∃ c, canonical (.obj vkvs) = some c ∧ expectedCanonical = some c)
    (htb : t ∈ base.errors ∨ t ∈ base.warnings) :
    (¬ ((summarize (.obj vkvs)).errors ⊆ base.errors) →
      edits_pass_prevalidation applyAndParse schemaErrors canonical summarize
        edits (some base) (some t) expectedCanonical = false) ∧
    ((summarize (.obj vkvs)).errors = base.errors →
      ¬ ((summarize (.obj vkvs)).warnings ⊆ base.warnings) →
      edits_pass_prevalidation applyAndParse schemaErrors canonical summarize
        edits (some base) (some t) expectedCanonical = false) ∧
    (t ∈ (summarize (.obj vkvs)).errors ∨ t ∈ (summarize (.obj vkvs)).warnings →
      edits_pass_prevalidation applyAndParse schemaErrors canonical summarize
        edits (some base) (some t) expectedCanonical = false) ∧
    ((summarize (.obj vkvs)).errors = base.errors →
      (summarize (.obj vkvs)).warnings = base.warnings →
      edits_pass_prevalidation applyAndParse schemaErrors canonical summarize
        edits (some base) (some t) expectedCanonical = false) := by
  have hred : edits_pass_prevalidation applyAndParse schemaErrors canonical
      summarize edits (some base) (some t) expectedCanonical =
      prevalidation_delta (summarize (.obj vkvs)) (some base) (some t) := by
    rw [edits_pass_prevalidation, hparse]
    dsimp only
    rw [if_neg (by omega)]
    cases hcanon with
    | inl hnone =>
      subst hnone
      rfl
    | inr hsome =>
      obtain ⟨c, hc, hexp⟩ := hsome
      subst hexp
      rw [hc]
      dsimp only
      rw [if_neg (by exact fun h2 => h2 rfl)]
  rw [hred]
  rw [prevalidation_delta]
  refine ⟨?_, ?_, ?_, ?_⟩
  · intro hsub
    by_cases htgt : (t ∈ base.errors ∨ t ∈ base.warnings) ∧
        (t ∈ (summarize (.obj vkvs)).errors ∨ t ∈ (summarize (.obj vkvs)).warnings)
    · rw [if_pos htgt]
    · rw [if_neg htgt]
      rw [no_regression, if_pos hsub]
  · intro heq hw
    by_cases htgt : (t ∈ base.errors ∨ t ∈ base.warnings) ∧
        (t ∈ (summarize (.obj vkvs)).errors ∨ t ∈ (summarize (.obj vkvs)).warnings)
    · rw [if_pos htgt]
    · rw [if_neg htgt]
      rw [no_regression]
      rw [if_neg (by rw [heq]; exact fun h2 => h2 (Finset.Subset.refl _))]
      rw [if_pos ⟨by rw [heq], hw⟩]
  · intro htn
    rw [if_pos ⟨htb, htn⟩]
  · intro he hw
    by_cases htgt : (t ∈ base.errors ∨ t ∈ base.warnings) ∧
        (t ∈ (summarize (.obj vkvs)).errors ∨ t ∈ (summarize (.obj vkvs)).warnings)
    · rw [if_pos htgt]
    · rw [if_neg htgt]
      rw [no_regression]
      rw [if_neg (by rw [he]; exact fun h2 => h2 (Finset.Subset.refl _))]
      rw [if_neg (by
        intro h2
        exact h2.2 (by rw [hw]))]
      rw [if_pos ⟨he, hw⟩]

open Lsp in
/-- C6 witness: the theorem applied to a pipeline whose simulated edit
leaves the targeted baseline diagnostic in place — pre-validation
refuses. -/
theorem C6_prevalidation_witness :
    Lsp.edits_pass_prevalidation (fun _ => some (.obj [])) (fun _ => 0)
      (fun _ => none)
      (fun _ => ⟨{("MissingReturn", "/functions/0")}, ∅⟩) []
      (some ⟨{("MissingReturn", "/functions/0")}, ∅⟩)
      (some ("MissingReturn", "/functions/0")) none = false :=
  (C6_prevalidation_rejects (fun _ => some (.obj [])) (fun _ => 0)
    (fun _ => none)
    (fun _ => ⟨{("MissingReturn", "/functions/0")}, ∅⟩) []
    ⟨{("MissingReturn", "/functions/0")}, ∅⟩
    ("MissingReturn", "/functions/0") none []
    rfl rfl (Or.inl rfl) (Or.inl (by decide))).2.2.1 (Or.inl (by decide))
